import Mathlib

/-!
# Bengali date utilities (`src/utils/bengaliDate.js`)

A shallow embedding of the date-string utility layer and of the parts of the
JavaScript platform it calls (`String.prototype` helpers, `parseInt`, `Date`).

Modelling conventions.

* A JavaScript string is its sequence of UTF-16 code units (`JSString`), so that
  `length`, `substring` and the regular expressions without the `u` flag count
  exactly what the engine counts.
* A JavaScript number that arises here is an integer or `NaN`; it is modelled as
  `Option Int` with `none` for `NaN`.  `parseInt` yields the mathematical
  integer.  The engine rounds it to binary64, which is exact below `2 ^ 53` and
  monotone, and every number is only ever compared with constants far below
  `2 ^ 53` or fed to `Date`, whose range check rejects anything that large, so
  the outcomes coincide.
* `Date` follows ECMA-262 (`MakeDay`, `MakeDate`, `TimeClip`, `YearFromTime`,
  `MonthFromTime`, `DateFromTime`, `LocalTime`, `UTC`) on day numbers.  The
  local time zone adjustment depends on the instant: `Env.tzaUTC` is the offset
  at a UTC instant and `Env.tzaLocal` the offset by which a local time value is
  read, both below one day in magnitude.  A zone with a constant offset is a
  `FixedZone`; `apiaEnv` is a zone that skips a calendar day.
* `Date.parse` is fixed by ECMA-262 on the date-only form `YYYY-MM-DD` of a real
  day (midnight UTC); on every other string it is implementation-defined and is
  the parameter `Env.parseOther`.
* The functions are modelled on string arguments (and `formatDateToBengali` also
  on a `Date` object); a thrown `TypeError` is the outcome `Outcome.typeError`.
-/

namespace BengaliDate

/-! ## Strings -/

/-- A JavaScript string, as its UTF-16 code units. -/
abbrev JSString := List Nat

/-- UTF-16 encoding of one Unicode scalar value. -/
def utf16 (c : Char) : List Nat :=
  if c.toNat < 65536 then [c.toNat]
  else [55296 + (c.toNat - 65536) / 1024, 56320 + (c.toNat - 65536) % 1024]

/-- The JavaScript string written by a string literal. -/
def js (s : String) : JSString := (s.toList.map utf16).flatten

/-- Code unit of `/`. -/
def slash : Nat := 47

/-- Code unit of `-`. -/
def dash : Nat := 45

/-- Code unit of `0`. -/
def zeroChar : Nat := 48

/-- The character class `[0-9]` (also `\d`). -/
def isAsciiDigit (c : Nat) : Bool := decide (48 ≤ c) && decide (c ≤ 57)

/-- The character class `[০-৯]`, U+09E6 to U+09EF. -/
def isBengaliDigit (c : Nat) : Bool := decide (2534 ≤ c) && decide (c ≤ 2543)

/-- `String.prototype.substring(a, b)` for `a ≤ b`. -/
def substring (s : JSString) (a b : Nat) : JSString := (s.drop a).take (b - a)

/-- `String.prototype.padStart(n, '0')`. -/
def padStart (s : JSString) (n : Nat) : JSString :=
  List.replicate (n - s.length) zeroChar ++ s

/-- Splitting at every code unit satisfying `p`, as `split` does for a one-character
separator and for the separator class of slash and dash. -/
def splitAt (p : Nat → Bool) : JSString → List JSString
  | [] => [[]]
  | c :: cs =>
    if p c then [] :: splitAt p cs
    else
      match splitAt p cs with
      | [] => [[c]]
      | part :: parts => (c :: part) :: parts

/-- `String.prototype.includes` for a one-character needle. -/
def includes (s : JSString) (c : Nat) : Bool := s.any (fun x => x == c)

/-- WhiteSpace and LineTerminator code units, as stripped by `trim` and `parseInt`. -/
def isWhiteSpace (c : Nat) : Bool :=
  c == 9 || c == 10 || c == 11 || c == 12 || c == 13 || c == 32 || c == 160 ||
  c == 5760 || (decide (8192 ≤ c) && decide (c ≤ 8202)) || c == 8232 || c == 8233 ||
  c == 8239 || c == 8287 || c == 12288 || c == 65279

/-- `String.prototype.trim`. -/
def trim (s : JSString) : JSString :=
  ((s.dropWhile isWhiteSpace).reverse.dropWhile isWhiteSpace).reverse

/-! ## Numeral transliteration -/

/-- The table `englishToBengali`. -/
def englishToBengali : List (Nat × Nat) :=
  [(48, 2534), (49, 2535), (50, 2536), (51, 2537), (52, 2538),
   (53, 2539), (54, 2540), (55, 2541), (56, 2542), (57, 2543)]

/-- The table `bengaliToEnglish`. -/
def bengaliToEnglish : List (Nat × Nat) :=
  [(2534, 48), (2535, 49), (2536, 50), (2537, 51), (2538, 52),
   (2539, 53), (2540, 54), (2541, 55), (2542, 56), (2543, 57)]

/-- The replacer callback `(digit) => table[digit] || digit`. -/
def lookupOr (table : List (Nat × Nat)) (c : Nat) : Nat :=
  match table.lookup c with
  | some r => r
  | none => c

/-- `toBengaliNumerals` on a string: `replace(/[0-9]/g, ...)`. -/
def toBengaliNumerals (input : JSString) : JSString :=
  input.map (fun c => if isAsciiDigit c then lookupOr englishToBengali c else c)

/-- `toEnglishNumerals` on a string: `replace(/[০-৯]/g, ...)`; the empty string is
falsy and gives the empty string. -/
def toEnglishNumerals (input : JSString) : JSString :=
  if input = [] then []
  else input.map (fun c => if isBengaliDigit c then lookupOr bengaliToEnglish c else c)

/-! ## Numbers and `parseInt` -/

/-- A JavaScript number of this program: an integer, or `none` for `NaN`. -/
abbrev JSNum := Option Int

/-- The operator `<`; any comparison with `NaN` is false. -/
def numLt : JSNum → JSNum → Bool
  | some a, some b => decide (a < b)
  | _, _ => false

/-- The operator `>`. -/
def numGt (a b : JSNum) : Bool := numLt b a

/-- The operator `<=`. -/
def numLe : JSNum → JSNum → Bool
  | some a, some b => decide (a ≤ b)
  | _, _ => false

/-- The operator `>=`. -/
def numGe (a b : JSNum) : Bool := numLe b a

/-- The operator `===` on numbers; `NaN` equals nothing. -/
def numEq : JSNum → JSNum → Bool
  | some a, some b => decide (a = b)
  | _, _ => false

/-- Truthiness of a number: `NaN` and `0` are falsy. -/
def truthy : JSNum → Bool
  | some a => decide (a ≠ 0)
  | none => false

/-- Binary `+` on numbers. -/
def numAdd : JSNum → JSNum → JSNum
  | some a, some b => some (a + b)
  | _, _ => none

/-- Binary `-` on numbers. -/
def numSub : JSNum → JSNum → JSNum
  | some a, some b => some (a - b)
  | _, _ => none

/-- Value of a code unit as a digit in a radix up to 36. -/
def digitValue (c : Nat) : Option Nat :=
  if 48 ≤ c ∧ c ≤ 57 then some (c - 48)
  else if 97 ≤ c ∧ c ≤ 122 then some (c - 87)
  else if 65 ≤ c ∧ c ≤ 90 then some (c - 55)
  else none

/-- Values of the longest prefix of radix-`r` digits. -/
def radixDigits (r : Nat) : JSString → List Nat
  | [] => []
  | c :: cs =>
    match digitValue c with
    | some v => if v < r then v :: radixDigits r cs else []
    | none => []

/-- Optional sign of `parseInt`: whether it is `-`, and the rest. -/
def stripSign : JSString → Bool × JSString
  | 45 :: rest => (true, rest)
  | 43 :: rest => (false, rest)
  | s => (false, s)

/-- Optional `0x` / `0X` prefix of `parseInt` without a radix: the radix, and the rest. -/
def stripRadixPrefix : JSString → Nat × JSString
  | 48 :: 120 :: rest => (16, rest)
  | 48 :: 88 :: rest => (16, rest)
  | s => (10, s)

/-- `parseInt(s)` with no radix argument (ECMA-262, 19.2.5). -/
def parseInt (s : JSString) : JSNum :=
  let signed := stripSign (s.dropWhile isWhiteSpace)
  let pre := stripRadixPrefix signed.2
  let z := radixDigits pre.1 pre.2
  if z = [] then none
  else
    let magnitude : Int := ((z.foldl (fun acc d => acc * pre.1 + d) 0 : Nat) : Int)
    some (if signed.1 then - magnitude else magnitude)

/-! ## `bengaliDateToISO` -/

/-- `bengaliDateToISO` on a string. -/
def bengaliDateToISO (bengaliDate : JSString) : JSString :=
  if bengaliDate = [] then []
  else
    let englishDate :=
      (toEnglishNumerals bengaliDate).filter (fun c => !(c == slash || c == dash))
    if englishDate.length ≠ 8 then []
    else
      let day := substring englishDate 0 2
      let month := substring englishDate 2 4
      let year := substring englishDate 4 8
      let dayNum := parseInt day
      let monthNum := parseInt month
      let yearNum := parseInt year
      if numLt dayNum (some 1) || numGt dayNum (some 31) || numLt monthNum (some 1) ||
          numGt monthNum (some 12) || numLt yearNum (some 1900) then []
      else padStart year 4 ++ [dash] ++ padStart month 2 ++ [dash] ++ padStart day 2

/-! ## Regular expressions -/

/-- An anchored regular expression `^ item ... item $` whose items are a character
class with a repetition range: `(cls, lo, hi)` stands for `cls{lo,hi}`. -/
abbrev Pattern := List ((Nat → Bool) × Nat × Nat)

/-- `RegExp.prototype.test` for an anchored pattern: some choice of repetition counts
consumes the whole string. -/
def matchPattern : Pattern → JSString → Bool
  | [], s => decide (s = [])
  | (cls, lo, hi) :: rest, s =>
    (List.range (hi + 1 - lo)).any (fun i =>
      decide (lo + i ≤ s.length) && (s.take (lo + i)).all cls &&
        matchPattern rest (s.drop (lo + i)))

/-- The pattern `/^[০-৯]{1,2}\/[০-৯]{1,2}\/[০-৯]{4}$/`. -/
def bengaliDatePattern : Pattern :=
  [(isBengaliDigit, 1, 2), (fun c => c == slash, 1, 1), (isBengaliDigit, 1, 2),
   (fun c => c == slash, 1, 1), (isBengaliDigit, 4, 4)]

/-- The pattern `/^\d{8}$/`. -/
def eightDigitPattern : Pattern := [(isAsciiDigit, 8, 8)]

/-! ## `Number` to `String` -/

/-- Decimal digits of a natural number, most significant first, in front of `acc`. -/
def decimalDigits : Nat → Nat → JSString → JSString
  | 0, _, acc => acc
  | fuel + 1, n, acc =>
    if n / 10 = 0 then (zeroChar + n % 10) :: acc
    else decimalDigits fuel (n / 10) ((zeroChar + n % 10) :: acc)

/-- `String(n)` for an integer or `NaN`. -/
def numToString : JSNum → JSString
  | none => [78, 97, 78]
  | some (Int.ofNat n) => decimalDigits (n + 1) n []
  | some (Int.negSucc n) => dash :: decimalDigits (n + 2) (n + 1) []

/-! ## `Date` (ECMA-262, 21.4.1) -/

/-- Milliseconds per day. -/
def msPerDay : Int := 86400000

/-- Whether `DaysInYear(y)` is 366. -/
def inLeapYear (y : Int) : Bool :=
  (decide (y % 4 = 0) && !decide (y % 100 = 0)) || decide (y % 400 = 0)

/-- `DayFromYear(y)`: the day number of 1 January of year `y`. -/
def dayFromYear (y : Int) : Int :=
  365 * (y - 1970) + (y - 1969) / 4 - (y - 1901) / 100 + (y - 1601) / 400

/-- Descends from `y` to the largest year starting on or before `day`. -/
def yearFromDayLoop : Nat → Int → Int → Int
  | 0, y, _ => y
  | fuel + 1, y, day => if dayFromYear y ≤ day then y else yearFromDayLoop fuel (y - 1) day

/-- `YearFromTime`, on day numbers: the largest `y` with `DayFromYear(y) ≤ day`,
searched downward from an upper estimate. -/
def yearFromDay (day : Int) : Int :=
  yearFromDayLoop day.natAbs (1970 + (if 0 ≤ day then day / 365 else day / 366)) day

/-- Day of the year on which month `m` (0 to 11) begins. -/
def monthStart (leap : Bool) (m : Int) : Int :=
  let l : Int := if leap then 1 else 0
  if m ≤ 0 then 0 else if m = 1 then 31 else if m = 2 then 59 + l
  else if m = 3 then 90 + l else if m = 4 then 120 + l else if m = 5 then 151 + l
  else if m = 6 then 181 + l else if m = 7 then 212 + l else if m = 8 then 243 + l
  else if m = 9 then 273 + l else if m = 10 then 304 + l else 334 + l

/-- `DayWithinYear`, on day numbers. -/
def dayWithinYear (day : Int) : Int := day - dayFromYear (yearFromDay day)

/-- `MonthFromTime`, on day numbers. -/
def monthFromDay (day : Int) : Int :=
  let leap := inLeapYear (yearFromDay day)
  let d := dayWithinYear day
  if d < monthStart leap 1 then 0 else if d < monthStart leap 2 then 1
  else if d < monthStart leap 3 then 2 else if d < monthStart leap 4 then 3
  else if d < monthStart leap 5 then 4 else if d < monthStart leap 6 then 5
  else if d < monthStart leap 7 then 6 else if d < monthStart leap 8 then 7
  else if d < monthStart leap 9 then 8 else if d < monthStart leap 10 then 9
  else if d < monthStart leap 11 then 10 else 11

/-- `DateFromTime`, on day numbers. -/
def dateFromDay (day : Int) : Int :=
  dayWithinYear day - monthStart (inLeapYear (yearFromDay day)) (monthFromDay day) + 1

/-- `MakeDay(year, month, date)` on integers. -/
def makeDay (year month date : Int) : Int :=
  let ym := year + month / 12
  let mn := month % 12
  dayFromYear ym + monthStart (inLeapYear ym) mn + date - 1

/-- `TimeClip`. -/
def timeClip (t : Int) : Option Int :=
  if 8640000000000000 < t.natAbs then none else some t

/-- The execution environment.  `tzaUTC t` is `LocalTZA(t, true)`, the offset of local
time from UTC in milliseconds at the UTC instant `t`; `tzaLocal t` is `LocalTZA(t, false)`,
the offset by which the local time value `t` is read (for a local time that a transition
skips, the offset before the transition); both are below one day in magnitude.
`parseOther` is what `Date.parse` makes of a string that is not a date-only ISO string of a
real day (implementation-defined). -/
structure Env where
  tzaUTC : Int → Int
  tzaLocal : Int → Int
  tzaUTC_bound : ∀ t, -86400000 < tzaUTC t ∧ tzaUTC t < 86400000
  tzaLocal_bound : ∀ t, -86400000 < tzaLocal t ∧ tzaLocal t < 86400000
  parseOther : JSString → Option Int

/-- A `Date` object, as its time value; `none` is the invalid date. -/
abbrev DateObj := Option Int

/-- The constructor `new Date(year, monthIndex, day)`: local time, with years 0 to 99
read as 1900 to 1999. -/
def newDateYMD (env : Env) : JSNum → JSNum → JSNum → DateObj
  | some y, some m, some d =>
    let yr := if 0 ≤ y ∧ y ≤ 99 then 1900 + y else y
    timeClip (makeDay yr m d * msPerDay - env.tzaLocal (makeDay yr m d * msPerDay))
  | _, _, _ => none

/-- Day number of the local time of a time value: `Day(LocalTime(t))`. -/
def localDay (env : Env) (t : Int) : Int := (t + env.tzaUTC t) / msPerDay

/-- `Date.prototype.getFullYear`. -/
def getFullYear (env : Env) (d : DateObj) : JSNum := d.map (fun t => yearFromDay (localDay env t))

/-- `Date.prototype.getMonth`. -/
def getMonth (env : Env) (d : DateObj) : JSNum := d.map (fun t => monthFromDay (localDay env t))

/-- `Date.prototype.getDate`. -/
def getDate (env : Env) (d : DateObj) : JSNum := d.map (fun t => dateFromDay (localDay env t))

/-- Number of days of month `m` (1 to 12) of year `y`. -/
def daysInMonth (y m : Int) : Int :=
  if m = 2 then (if inLeapYear y then 29 else 28)
  else if m = 4 ∨ m = 6 ∨ m = 9 ∨ m = 11 then 30 else 31

/-- Value of a string of ASCII digits. -/
def asciiValue (s : JSString) : Nat := s.foldl (fun acc c => acc * 10 + (c - zeroChar)) 0

/-- `Date.parse` on the date-only ISO form `YYYY-MM-DD` of a real day: midnight UTC. -/
def parseIsoDate : JSString → Option Int
  | [y1, y2, y3, y4, 45, m1, m2, 45, d1, d2] =>
    if [y1, y2, y3, y4, m1, m2, d1, d2].all isAsciiDigit then
      let y : Int := asciiValue [y1, y2, y3, y4]
      let m : Int := asciiValue [m1, m2]
      let d : Int := asciiValue [d1, d2]
      if 1 ≤ m ∧ m ≤ 12 ∧ 1 ≤ d ∧ d ≤ daysInMonth y m then some (makeDay y (m - 1) d * msPerDay)
      else none
    else none
  | _ => none

/-- The constructor `new Date(string)`. -/
def newDateString (env : Env) (s : JSString) : DateObj :=
  match parseIsoDate s with
  | some t => timeClip t
  | none => (env.parseOther s).bind timeClip


/-! ## `formatDateToBengali` -/

/-- Outcome of a call: a returned value, or a thrown `TypeError`. -/
inductive Outcome (α : Type) where
  | value (v : α)
  | typeError
  deriving DecidableEq

/-- Argument of `formatDateToBengali`: a string or a `Date` object. -/
inductive DateArg where
  | str (s : JSString)
  | dateObj (d : DateObj)
  deriving DecidableEq

/-- The tail of `formatDateToBengali`, from `dateObj.getTime()` on; `dateObj` is `none`
while the variable is still `undefined`. -/
def formatDateObj (env : Env) : Option DateObj → Outcome JSString
  | none => Outcome.typeError
  | some d =>
    if d.isNone then Outcome.value []
    else
      let day := padStart (numToString (getDate env d)) 2
      let month := padStart (numToString (numAdd (getMonth env d) (some 1))) 2
      let year := numToString (getFullYear env d)
      Outcome.value (toBengaliNumerals (day ++ [slash] ++ month ++ [slash] ++ year))

/-- The branch of `formatDateToBengali` that assigns `dateObj` for a string. -/
def dateObjOfString (env : Env) (date : JSString) : Option DateObj :=
  if includes date dash then some (newDateString env date)
  else if includes date slash then
    match (splitAt (fun c => c == slash) date).map (fun p => parseInt (toEnglishNumerals p)) with
    | [first, second, third] =>
      if numLe first (some 12) && numGt second (some 12) then
        some (newDateYMD env third (numSub first (some 1)) second)
      else some (newDateYMD env third (numSub second (some 1)) first)
    | _ => none
  else some (newDateString env date)

/-- `formatDateToBengali`. -/
def formatDateToBengali (env : Env) : DateArg → Outcome JSString
  | DateArg.str date =>
    if date = [] then Outcome.value [] else formatDateObj env (dateObjOfString env date)
  | DateArg.dateObj d => formatDateObj env (some d)

/-! ## `isValidBengaliDate` -/

/-- `isValidBengaliDate` on a string. -/
def isValidBengaliDate (env : Env) (bengaliDate : JSString) : Bool :=
  if bengaliDate = [] then false
  else if !matchPattern bengaliDatePattern bengaliDate then false
  else
    match (splitAt (fun c => c == slash) (toEnglishNumerals bengaliDate)).map parseInt with
    | [day, month, year] =>
      if numLt day (some 1) || numGt day (some 31) || numLt month (some 1) ||
          numGt month (some 12) || numLt year (some 1900) || numGt year (some 2100) then false
      else
        let dateObj := newDateYMD env year (numSub month (some 1)) day
        numEq (getDate env dateObj) day && numEq (getMonth env dateObj) (numSub month (some 1)) &&
          numEq (getFullYear env dateObj) year
    | _ => false

/-! ## `parseFlexibleDate` -/

/-- The assignment of `day`, `month`, `year` in `parseFlexibleDate`; `none` while they
are still `undefined`. -/
def flexibleParts (englishDate : JSString) : Option (JSNum × JSNum × JSNum) :=
  if includes englishDate slash || includes englishDate dash then
    match splitAt (fun c => c == slash || c == dash) englishDate with
    | [p0, p1, p2] => some (parseInt p0, parseInt p1, parseInt p2)
    | _ => none
  else if matchPattern eightDigitPattern englishDate then
    some (parseInt (substring englishDate 0 2), parseInt (substring englishDate 2 4),
      parseInt (substring englishDate 4 8))
  else none

/-- The block `// Validate and return ISO format` of `parseFlexibleDate`. -/
def validateParts (env : Env) (day month year0 : JSNum) : Option JSString :=
  if truthy day && truthy month && truthy year0 then
    let year :=
      if numLt year0 (some 100) then
        (if numLt year0 (some 50) then numAdd (some 2000) year0 else numAdd (some 1900) year0)
      else year0
    if numGe day (some 1) && numLe day (some 31) && numGe month (some 1) &&
        numLe month (some 12) && numGe year (some 1900) && numLe year (some 2100) then
      let dateObj := newDateYMD env year (numSub month (some 1)) day
      if numEq (getDate env dateObj) day && numEq (getMonth env dateObj) (numSub month (some 1)) &&
          numEq (getFullYear env dateObj) year then
        some (numToString year ++ [dash] ++ padStart (numToString month) 2 ++ [dash] ++
          padStart (numToString day) 2)
      else none
    else none
  else none

/-- `parseFlexibleDate` on a string; `none` is `null`.  While `day`, `month` and `year`
are `undefined` the validation block is skipped. -/
def parseFlexibleDate (env : Env) (input : JSString) : Option JSString :=
  if input = [] || trim input = [] then none
  else
    match flexibleParts (toEnglishNumerals (trim input)) with
    | none => none
    | some (day, month, year0) => validateParts env day month year0


/-! ## `toBengaliNumerals` on every argument -/

/-- Argument of `toBengaliNumerals`: `null`, `undefined` or a string. -/
inductive NumeralArg where
  | null
  | undefined
  | str (s : JSString)

/-- `toBengaliNumerals` with its guard `input === null || input === undefined`. -/
def toBengaliNumeralsArg : NumeralArg → JSString
  | NumeralArg.null => []
  | NumeralArg.undefined => []
  | NumeralArg.str s => toBengaliNumerals s

/-! ## `compareBengaliDates` -/

/-- `compareBengaliDates` on strings; the relational operators compare the time values
of the two `Date` objects, and every comparison with an invalid date is false. -/
def compareBengaliDates (env : Env) (date1 date2 : JSString) : Int :=
  let iso1 := bengaliDateToISO date1
  let iso2 := bengaliDateToISO date2
  if iso1 = [] || iso2 = [] then 0
  else
    let d1 := newDateString env iso1
    let d2 := newDateString env iso2
    if numLt d1 d2 then -1
    else if numGt d1 d2 then 1
    else 0

/-! ## `filterByBengaliDateRange` -/

/-- A record: its own properties and their values, here strings and `Date` objects. -/
abbrev Record := List (JSString × DateArg)

/-- The property access `item[dateField]`; `none` is `undefined`. -/
def Record.field (item : Record) (dateField : JSString) : Option DateArg :=
  item.lookup dateField

/-- The callback of `data.filter` in `filterByBengaliDateRange`. -/
def keepItem (env : Env) (dateField startDate endDate : JSString) (item : Record) :
    Outcome Bool :=
  match item.field dateField with
  | none => Outcome.value true
  | some (DateArg.str []) => Outcome.value true
  | some itemDate =>
    match formatDateToBengali env itemDate with
    | Outcome.typeError => Outcome.typeError
    | Outcome.value itemBengaliDate =>
      if startDate ≠ [] ∧ compareBengaliDates env itemBengaliDate startDate < 0 then
        Outcome.value false
      else if endDate ≠ [] ∧ compareBengaliDates env itemBengaliDate endDate > 0 then
        Outcome.value false
      else Outcome.value true

/-- `Array.prototype.filter` with a callback that may throw: the elements are visited in
order and the first exception ends the call. -/
def filterOutcome {α : Type} (keep : α → Outcome Bool) : List α → Outcome (List α)
  | [] => Outcome.value []
  | x :: xs =>
    match keep x with
    | Outcome.typeError => Outcome.typeError
    | Outcome.value b =>
      match filterOutcome keep xs with
      | Outcome.typeError => Outcome.typeError
      | Outcome.value rest => Outcome.value (if b then x :: rest else rest)

/-- `filterByBengaliDateRange` on an array of records. -/
def filterByBengaliDateRange (env : Env) (data : List Record)
    (dateField startDate endDate : JSString) : Outcome (List Record) :=
  filterOutcome (keepItem env dateField startDate endDate) data

/-! ## `useBengaliDate` -/

/-- The state that `updateBengaliDate` of the hook `useBengaliDate` sets for a value:
the validity flag and the ISO date. -/
def updateBengaliDate (env : Env) (value : JSString) : Bool × JSString :=
  let valid := isValidBengaliDate env value
  if valid then (valid, bengaliDateToISO value) else (valid, [])

/-! ## Vocabulary of the specification -/

/-- A digit of either numeral system. -/
def isNumeral (c : Nat) : Bool := isAsciiDigit c || isBengaliDigit c

/-- Numeric value of a digit of either numeral system. -/
def numeralDigit (c : Nat) : Nat := if isBengaliDigit c then c - 2534 else c - 48

/-- The number denoted by a string of digits of either numeral system. -/
def numeralValue (s : JSString) : Nat := s.foldl (fun acc c => acc * 10 + numeralDigit c) 0

/-- The Gregorian leap-year rule. -/
def isLeapYear (y : Nat) : Bool := (y % 4 == 0 && y % 100 != 0) || y % 400 == 0

/-- Days per month of the Gregorian calendar. -/
def monthLength (y m : Nat) : Nat :=
  if m = 2 then (if isLeapYear y then 29 else 28)
  else if m = 4 ∨ m = 6 ∨ m = 9 ∨ m = 11 then 30
  else 31

/-- The triple denotes a real Gregorian calendar day. -/
def isCalendarDay (d m y : Nat) : Prop := 1 ≤ m ∧ m ≤ 12 ∧ 1 ≤ d ∧ d ≤ monthLength y m

instance (d m y : Nat) : Decidable (isCalendarDay d m y) := by
  unfold isCalendarDay; infer_instance

/-- The zero-padded canonical ISO string `YYYY-MM-DD`. -/
def isoString (y m d : Nat) : JSString :=
  [48 + y / 1000 % 10, 48 + y / 100 % 10, 48 + y / 10 % 10, 48 + y % 10, dash,
   48 + m / 10 % 10, 48 + m % 10, dash, 48 + d / 10 % 10, 48 + d % 10]

/-- The zero-padded localized string `DD/MM/YYYY` in Bengali digits. -/
def localizedString (d m y : Nat) : JSString :=
  [2534 + d / 10 % 10, 2534 + d % 10, slash, 2534 + m / 10 % 10, 2534 + m % 10, slash,
   2534 + y / 1000 % 10, 2534 + y / 100 % 10, 2534 + y / 10 % 10, 2534 + y % 10]

/-- Transliteration to ASCII, code unit by code unit. -/
def toEnglishUnit (c : Nat) : Nat := if isBengaliDigit c then c - 2534 + 48 else c

/-- Transliteration to Bengali, code unit by code unit. -/
def toBengaliUnit (c : Nat) : Nat := if isAsciiDigit c then c - 48 + 2534 else c

/-- Applies a string function to a returned value and passes a thrown error on. -/
def Outcome.map {α β : Type} (f : α → β) : Outcome α → Outcome β
  | Outcome.value v => Outcome.value (f v)
  | Outcome.typeError => Outcome.typeError

/-- The composition `bengaliDateToISO(formatDateToBengali(date))`. -/
def formatThenToISO (env : Env) (date : JSString) : Outcome JSString :=
  Outcome.map bengaliDateToISO (formatDateToBengali env (DateArg.str date))

/-- What `formatDateToBengali` makes of a valid `Date` whose local day number is `day`:
the civil date of that day, zero-padded and transliterated. -/
def formatDay (day : Int) : JSString :=
  toBengaliNumerals (padStart (numToString (some (dateFromDay day))) 2 ++ [slash] ++
    padStart (numToString (some (monthFromDay day + 1))) 2 ++ [slash] ++
    numToString (some (yearFromDay day)))

/-- The day, month and year written in a ten-character `DD/MM/YYYY` string, as
`(year, month, day)`. -/
def writtenDate (s : JSString) : Nat × Nat × Nat :=
  (numeralValue (s.drop 6), numeralValue ((s.drop 3).take 2), numeralValue (s.take 2))

/-- Calendar order of two dates `(year, month, day)`: year, then month, then day; `-1` for
earlier, `1` for later, `0` for the same day. -/
def calendarOrder (a b : Nat × Nat × Nat) : Int :=
  if a.1 < b.1 ∨ (a.1 = b.1 ∧ (a.2.1 < b.2.1 ∨ (a.2.1 = b.2.1 ∧ a.2.2 < b.2.2))) then -1
  else if b.1 < a.1 ∨ (b.1 = a.1 ∧ (b.2.1 < a.2.1 ∨ (b.2.1 = a.2.1 ∧ b.2.2 < a.2.2))) then 1
  else 0

/-- The date `(year, month, day)` of a canonical `YYYY-MM-DD` string of a real day. -/
def canonicalDate : JSString → Option (Nat × Nat × Nat)
  | [y1, y2, y3, y4, 45, m1, m2, 45, d1, d2] =>
    if [y1, y2, y3, y4, m1, m2, d1, d2].all isAsciiDigit ∧
        isCalendarDay (numeralValue [d1, d2]) (numeralValue [m1, m2])
          (numeralValue [y1, y2, y3, y4]) then
      some (numeralValue [y1, y2, y3, y4], numeralValue [m1, m2], numeralValue [d1, d2])
    else none
  | _ => none

/-- The date lies in the inclusive range of the two localized bounds; an empty bound
leaves its side open. -/
def inDateRange (startDate endDate : JSString) (date : Nat × Nat × Nat) : Bool :=
  (decide (startDate = []) || decide (0 ≤ calendarOrder date (writtenDate startDate))) &&
  (decide (endDate = []) || decide (calendarOrder date (writtenDate endDate) ≤ 0))

/-- The records that the specification retains: the field is absent or the empty string,
or it is a canonical date inside the range. -/
def retained (dateField startDate endDate : JSString) (item : Record) : Bool :=
  match item.field dateField with
  | none => true
  | some (DateArg.str s) =>
    decide (s = []) ||
      (match canonicalDate s with
        | some date => inDateRange startDate endDate date
        | none => false)
  | some (DateArg.dateObj _) => false

/-- A time zone with a constant offset from UTC, in milliseconds and below one day in
magnitude, with the implementation-defined part of `Date.parse`. -/
structure FixedZone where
  tza : Int
  tza_bound : -86400000 < tza ∧ tza < 86400000
  parseOther : JSString → Option Int

/-- The environment of a zone with a constant offset. -/
def FixedZone.env (z : FixedZone) : Env :=
  ⟨fun _ => z.tza, fun _ => z.tza, fun _ => z.tza_bound, fun _ => z.tza_bound, z.parseOther⟩

/-- The local time of the environment skips no calendar day: the local midnight that
starts day `n`, taken to UTC and read back in local time, lies on day `n`. -/
def Env.keepsDays (env : Env) : Prop :=
  ∀ n : Int, localDay env (n * msPerDay - env.tzaLocal (n * msPerDay)) = n

/-- An environment on UTC whose `Date.parse` rejects every string left to it. -/
def utcEnv : Env := FixedZone.env ⟨0, by decide, fun _ => none⟩

/-- An environment five hours west of UTC. -/
def westEnv : Env := FixedZone.env ⟨-18000000, by decide, fun _ => none⟩

/-- An environment six hours east of UTC. -/
def eastEnv : Env := FixedZone.env ⟨21600000, by decide, fun _ => none⟩

/-- The instant 2011-12-30T10:00:00Z, at which Samoa moved from ten hours west of UTC to
fourteen hours east of it. -/
def apiaSwitch : Int := 1325239200000

/-- An environment on the time zone `Pacific/Apia` around the end of 2011: ten hours west
of UTC before `apiaSwitch` and fourteen hours east from then on, so that local time passes
from the end of 29 December 2011 to the start of 31 December 2011; a local time of the
skipped day is read with the offset before the switch. -/
def apiaEnv : Env :=
  ⟨fun t => if t < apiaSwitch then -36000000 else 50400000,
   fun t => if t < apiaSwitch + 50400000 then -36000000 else 50400000,
   fun t => by dsimp only; split_ifs <;> decide,
   fun t => by dsimp only; split_ifs <;> decide,
   fun _ => none⟩

/-! # Lemmas on the platform model -/

theorem dayFromYear_succ (y : Int) :
    dayFromYear (y + 1) = dayFromYear y + 365 + (if inLeapYear y = true then 1 else 0) := by
  unfold dayFromYear inLeapYear
  by_cases h4 : y % 4 = 0 <;> by_cases h100 : y % 100 = 0 <;> by_cases h400 : y % 400 = 0 <;>
    simp [h4, h100, h400] <;> omega

theorem dayFromYear_mono (a b : Int) (h : a ≤ b) : dayFromYear a ≤ dayFromYear b := by
  unfold dayFromYear
  omega

theorem yearFromDayLoop_eq (day Y : Int) (hlo : dayFromYear Y ≤ day)
    (hhi : day < dayFromYear (Y + 1)) :
    ∀ (fuel : Nat) (y : Int), Y ≤ y → y - Y ≤ fuel → yearFromDayLoop fuel y day = Y := by
  intro fuel
  induction fuel with
  | zero =>
    intro y h1 h2
    simp only [yearFromDayLoop]
    omega
  | succ n ih =>
    intro y h1 h2
    simp only [yearFromDayLoop]
    by_cases hy : dayFromYear y ≤ day
    · rw [if_pos hy]
      by_contra hne
      have h3 : Y + 1 ≤ y := by omega
      have := dayFromYear_mono (Y + 1) y h3
      omega
    · rw [if_neg hy]
      have hneq : y ≠ Y := by
        intro h; subst h; exact hy hlo
      apply ih
      · omega
      · push_cast at h2
        omega

theorem dayFromYear_after (n : Nat) :
    365 * (n : Int) ≤ dayFromYear (1970 + n) ∧ dayFromYear (1970 + n) ≤ 366 * (n : Int) := by
  induction n with
  | zero => simp [dayFromYear]
  | succ k ih =>
    have h := dayFromYear_succ (1970 + (k : Int))
    have e : (1970 : Int) + ((k + 1 : Nat) : Int) = 1970 + (k : Int) + 1 := by push_cast; ring
    rw [e, h]
    push_cast
    split_ifs <;> omega

theorem dayFromYear_before (n : Nat) :
    -366 * (n : Int) ≤ dayFromYear (1970 - n) ∧ dayFromYear (1970 - n) ≤ -365 * (n : Int) := by
  induction n with
  | zero => simp [dayFromYear]
  | succ k ih =>
    have h := dayFromYear_succ (1970 - ((k + 1 : Nat) : Int))
    have e : (1970 : Int) - ((k + 1 : Nat) : Int) + 1 = 1970 - (k : Int) := by push_cast; ring
    rw [e] at h
    push_cast at h ⊢
    split_ifs at h <;> omega

theorem dayFromYear_bounds (y : Int) :
    (1970 ≤ y → 365 * (y - 1970) ≤ dayFromYear y ∧ dayFromYear y ≤ 366 * (y - 1970)) ∧
    (y ≤ 1970 → 366 * (y - 1970) ≤ dayFromYear y ∧ dayFromYear y ≤ 365 * (y - 1970)) := by
  constructor
  · intro h
    have := dayFromYear_after (y - 1970).toNat
    have e : ((y - 1970).toNat : Int) = y - 1970 := Int.toNat_of_nonneg (by omega)
    rw [e] at this
    have e2 : 1970 + (y - 1970) = y := by ring
    rw [e2] at this
    exact this
  · intro h
    have := dayFromYear_before (1970 - y).toNat
    have e : ((1970 - y).toNat : Int) = 1970 - y := Int.toNat_of_nonneg (by omega)
    rw [e] at this
    have e2 : 1970 - (1970 - y) = y := by ring
    rw [e2] at this
    constructor <;> omega

theorem yearFromDay_eq (day Y : Int) (hlo : dayFromYear Y ≤ day)
    (hhi : day < dayFromYear (Y + 1)) : yearFromDay day = Y := by
  unfold yearFromDay
  have b1 := dayFromYear_bounds Y
  have b2 := dayFromYear_bounds (Y + 1)
  apply yearFromDayLoop_eq day Y hlo hhi
  · split_ifs <;> omega
  · split_ifs <;> omega

theorem yearFromDay_offset (Y k : Int) (h0 : 0 ≤ k)
    (h1 : k < 365 + (if inLeapYear Y = true then 1 else 0)) :
    yearFromDay (dayFromYear Y + k) = Y := by
  apply yearFromDay_eq
  · omega
  · rw [dayFromYear_succ]; omega

theorem makeDay_civil (Y m d : Int) (hm0 : 0 ≤ m) (hm1 : m ≤ 11) (hd0 : 1 ≤ d)
    (hd1 : d ≤ daysInMonth Y (m + 1)) :
    yearFromDay (makeDay Y m d) = Y ∧ monthFromDay (makeDay Y m d) = m ∧
      dateFromDay (makeDay Y m d) = d := by
  have hdiv : m / 12 = 0 := by omega
  have hmod : m % 12 = m := by omega
  have hmk : makeDay Y m d = dayFromYear Y + (monthStart (inLeapYear Y) m + d - 1) := by
    simp only [makeDay, hdiv, hmod, add_zero]; ring
  have hk : 0 ≤ monthStart (inLeapYear Y) m + d - 1 ∧
      monthStart (inLeapYear Y) m + d - 1 < 365 + (if inLeapYear Y = true then 1 else 0) := by
    unfold daysInMonth at hd1
    cases hl : inLeapYear Y <;> simp only [hl] at hd1 ⊢ <;>
      interval_cases m <;> simp [monthStart] at hd1 ⊢ <;> omega
  have hy : yearFromDay (makeDay Y m d) = Y := by
    rw [hmk]; exact yearFromDay_offset Y _ hk.1 hk.2
  have hw : dayWithinYear (makeDay Y m d) = monthStart (inLeapYear Y) m + d - 1 := by
    unfold dayWithinYear; rw [hy, hmk]; ring
  have hmo : monthFromDay (makeDay Y m d) = m := by
    unfold monthFromDay
    simp only [hy, hw]
    unfold daysInMonth at hd1
    cases hl : inLeapYear Y <;> simp only [hl] at hd1 ⊢ <;>
      interval_cases m <;> simp [monthStart] at hd1 ⊢ <;> omega
  refine ⟨hy, hmo, ?_⟩
  unfold dateFromDay
  rw [hy, hmo, hw]; ring

theorem makeDay_overflow (Y m d : Int) (hm0 : 0 ≤ m) (hm1 : m ≤ 11) (hd0 : daysInMonth Y (m + 1) < d)
    (hd1 : d ≤ 31) : monthFromDay (makeDay Y m d) ≠ m := by
  have hm10 : m ≤ 10 := by
    by_contra hcon
    have : m = 11 := by omega
    subst this
    simp [daysInMonth] at hd0
    omega
  have hshift : makeDay Y m d = makeDay Y (m + 1) (d - daysInMonth Y (m + 1)) := by
    have hdiv : m / 12 = 0 := by omega
    have hmod : m % 12 = m := by omega
    have hdiv1 : (m + 1) / 12 = 0 := by omega
    have hmod1 : (m + 1) % 12 = m + 1 := by omega
    simp only [makeDay, hdiv, hmod, hdiv1, hmod1, add_zero]
    unfold daysInMonth
    cases hl : inLeapYear Y <;> interval_cases m <;> simp [monthStart] <;> omega
  have hle : d - daysInMonth Y (m + 1) ≤ daysInMonth Y (m + 1 + 1) := by
    unfold daysInMonth
    split_ifs <;> omega
  have := makeDay_civil Y (m + 1) (d - daysInMonth Y (m + 1)) (by omega) (by omega) (by omega) hle
  rw [hshift, this.2.1]
  omega

theorem roundTrip_iff (Y m d : Int) (hm0 : 0 ≤ m) (hm1 : m ≤ 11) (hd0 : 1 ≤ d) (hd1 : d ≤ 31) :
    (dateFromDay (makeDay Y m d) = d ∧ monthFromDay (makeDay Y m d) = m ∧
      yearFromDay (makeDay Y m d) = Y) ↔ d ≤ daysInMonth Y (m + 1) := by
  constructor
  · rintro ⟨_, h2, _⟩
    by_contra hcon
    exact makeDay_overflow Y m d hm0 hm1 (by omega) hd1 h2
  · intro h
    have := makeDay_civil Y m d hm0 hm1 hd0 h
    exact ⟨this.2.2, this.2.1, this.1⟩

theorem makeDay_bound (Y m d : Int) (hy0 : 0 ≤ Y) (hy1 : Y ≤ 9999) (hm0 : -12 ≤ m)
    (hm1 : m ≤ 120) (hd0 : -1000 ≤ d) (hd1 : d ≤ 1000) :
    -800000 ≤ makeDay Y m d ∧ makeDay Y m d ≤ 3000000 := by
  have hq : -1 ≤ m / 12 ∧ m / 12 ≤ 10 := by omega
  have hr : 0 ≤ m % 12 ∧ m % 12 ≤ 11 := by omega
  have hb := dayFromYear_bounds (Y + m / 12)
  have hs : 0 ≤ monthStart (inLeapYear (Y + m / 12)) (m % 12) ∧
      monthStart (inLeapYear (Y + m / 12)) (m % 12) ≤ 335 := by
    generalize m % 12 = r at hr
    obtain ⟨r0, r1⟩ := hr
    cases hl : inLeapYear (Y + m / 12) <;> interval_cases r <;> simp [monthStart]
  simp only [makeDay]
  by_cases h : 1970 ≤ Y + m / 12
  · have := hb.1 h; omega
  · have := hb.2 (by omega); omega

theorem year_exists (n : Int) : ∃ Y : Int, dayFromYear Y ≤ n ∧ n < dayFromYear (Y + 1) := by
  have hbdd : ∃ b : Int, ∀ z : Int, dayFromYear z ≤ n → z ≤ b := by
    refine ⟨1970 + n.natAbs, ?_⟩
    intro z hz
    by_contra hc
    have hb := (dayFromYear_bounds z).1 (by omega)
    omega
  have hinh : ∃ z : Int, dayFromYear z ≤ n := by
    refine ⟨1970 - (n.natAbs + 1), ?_⟩
    have hb := (dayFromYear_bounds (1970 - (n.natAbs + 1))).2 (by omega)
    omega
  obtain ⟨ub, h1, h2⟩ := Int.exists_greatest_of_bdd hbdd hinh
  refine ⟨ub, h1, ?_⟩
  by_contra hc
  have := h2 (ub + 1) (by omega)
  omega

theorem monthStart_table (l : Bool) :
    monthStart l 0 = 0 ∧ monthStart l 1 = 31 ∧
    monthStart l 2 = 59 + (if l = true then 1 else 0) ∧
    monthStart l 3 = 90 + (if l = true then 1 else 0) ∧
    monthStart l 4 = 120 + (if l = true then 1 else 0) ∧
    monthStart l 5 = 151 + (if l = true then 1 else 0) ∧
    monthStart l 6 = 181 + (if l = true then 1 else 0) ∧
    monthStart l 7 = 212 + (if l = true then 1 else 0) ∧
    monthStart l 8 = 243 + (if l = true then 1 else 0) ∧
    monthStart l 9 = 273 + (if l = true then 1 else 0) ∧
    monthStart l 10 = 304 + (if l = true then 1 else 0) ∧
    monthStart l 11 = 334 + (if l = true then 1 else 0) := by
  cases l <;> decide

theorem daysInMonth_table (Y : Int) :
    daysInMonth Y 1 = 31 ∧ daysInMonth Y 2 = 28 + (if inLeapYear Y = true then 1 else 0) ∧
    daysInMonth Y 3 = 31 ∧ daysInMonth Y 4 = 30 ∧ daysInMonth Y 5 = 31 ∧
    daysInMonth Y 6 = 30 ∧ daysInMonth Y 7 = 31 ∧ daysInMonth Y 8 = 31 ∧
    daysInMonth Y 9 = 30 ∧ daysInMonth Y 10 = 31 ∧ daysInMonth Y 11 = 30 ∧
    daysInMonth Y 12 = 31 := by
  unfold daysInMonth
  cases inLeapYear Y <;> simp

theorem makeDay_eq (Y m d : Int) (hm0 : 0 ≤ m) (hm1 : m ≤ 11) :
    makeDay Y m d = dayFromYear Y + monthStart (inLeapYear Y) m + d - 1 := by
  have hdiv : m / 12 = 0 := by omega
  have hmod : m % 12 = m := by omega
  simp only [makeDay, hdiv, hmod, add_zero]

theorem civil_exists (Y k : Int) (h0 : 0 ≤ k)
    (h1 : k < 365 + (if inLeapYear Y = true then 1 else 0)) :
    ∃ m d : Int, 0 ≤ m ∧ m ≤ 11 ∧ 1 ≤ d ∧ d ≤ daysInMonth Y (m + 1) ∧
      monthStart (inLeapYear Y) m + d - 1 = k := by
  have key : ∀ m m1 s len : Int, m + 1 = m1 → 0 ≤ m → m ≤ 11 →
      monthStart (inLeapYear Y) m = s → daysInMonth Y m1 = len → s ≤ k → k < s + len →
      ∃ m d : Int, 0 ≤ m ∧ m ≤ 11 ∧ 1 ≤ d ∧ d ≤ daysInMonth Y (m + 1) ∧
        monthStart (inLeapYear Y) m + d - 1 = k := by
    intro m m1 s len hm hm0 hm1 hs hlen hlo hhi
    subst hm
    refine ⟨m, k - s + 1, hm0, hm1, ?_, ?_, ?_⟩
    · clear hs hlen; omega
    · rw [hlen]; clear hs hlen; omega
    · rw [hs]; clear hs hlen; omega
  have hl : (if inLeapYear Y = true then (1 : Int) else 0) = 0 ∨
      (if inLeapYear Y = true then (1 : Int) else 0) = 1 := by
    split_ifs <;> simp
  generalize hle : (if inLeapYear Y = true then (1 : Int) else 0) = l at h1 hl
  by_cases a1 : k < 31
  · exact key 0 1 0 31 (by omega) (by omega) (by omega) (monthStart_table (inLeapYear Y)).1
      (daysInMonth_table Y).1 (by omega) (by omega)
  by_cases a2 : k < 59 + l
  · exact key 1 2 31 (28 + l) (by omega) (by omega) (by omega) (monthStart_table (inLeapYear Y)).2.1
      (by rw [← hle]; exact (daysInMonth_table Y).2.1) (by omega) (by omega)
  by_cases a3 : k < 90 + l
  · exact key 2 3 (59 + l) 31 (by omega) (by omega) (by omega) (by rw [← hle]; exact (monthStart_table (inLeapYear Y)).2.2.1)
      (daysInMonth_table Y).2.2.1 (by omega) (by omega)
  by_cases a4 : k < 120 + l
  · exact key 3 4 (90 + l) 30 (by omega) (by omega) (by omega) (by rw [← hle]; exact (monthStart_table (inLeapYear Y)).2.2.2.1)
      (daysInMonth_table Y).2.2.2.1 (by omega) (by omega)
  by_cases a5 : k < 151 + l
  · exact key 4 5 (120 + l) 31 (by omega) (by omega) (by omega) (by rw [← hle]; exact (monthStart_table (inLeapYear Y)).2.2.2.2.1)
      (daysInMonth_table Y).2.2.2.2.1 (by omega) (by omega)
  by_cases a6 : k < 181 + l
  · exact key 5 6 (151 + l) 30 (by omega) (by omega) (by omega) (by rw [← hle]; exact (monthStart_table (inLeapYear Y)).2.2.2.2.2.1)
      (daysInMonth_table Y).2.2.2.2.2.1 (by omega) (by omega)
  by_cases a7 : k < 212 + l
  · exact key 6 7 (181 + l) 31 (by omega) (by omega) (by omega) (by rw [← hle]; exact (monthStart_table (inLeapYear Y)).2.2.2.2.2.2.1)
      (daysInMonth_table Y).2.2.2.2.2.2.1 (by omega) (by omega)
  by_cases a8 : k < 243 + l
  · exact key 7 8 (212 + l) 31 (by omega) (by omega) (by omega) (by rw [← hle]; exact (monthStart_table (inLeapYear Y)).2.2.2.2.2.2.2.1)
      (daysInMonth_table Y).2.2.2.2.2.2.2.1 (by omega) (by omega)
  by_cases a9 : k < 273 + l
  · exact key 8 9 (243 + l) 30 (by omega) (by omega) (by omega) (by rw [← hle]; exact (monthStart_table (inLeapYear Y)).2.2.2.2.2.2.2.2.1)
      (daysInMonth_table Y).2.2.2.2.2.2.2.2.1 (by omega) (by omega)
  by_cases a10 : k < 304 + l
  · exact key 9 10 (273 + l) 31 (by omega) (by omega) (by omega) (by rw [← hle]; exact (monthStart_table (inLeapYear Y)).2.2.2.2.2.2.2.2.2.1)
      (daysInMonth_table Y).2.2.2.2.2.2.2.2.2.1 (by omega) (by omega)
  by_cases a11 : k < 334 + l
  · exact key 10 11 (304 + l) 30 (by omega) (by omega) (by omega) (by rw [← hle]; exact (monthStart_table (inLeapYear Y)).2.2.2.2.2.2.2.2.2.2.1)
      (daysInMonth_table Y).2.2.2.2.2.2.2.2.2.2.1 (by omega) (by omega)
  · exact key 11 12 (334 + l) 31 (by omega) (by omega) (by omega) (by rw [← hle]; exact (monthStart_table (inLeapYear Y)).2.2.2.2.2.2.2.2.2.2.2)
      (daysInMonth_table Y).2.2.2.2.2.2.2.2.2.2.2 (by omega) (by omega)

theorem civil_real (n : Int) :
    0 ≤ monthFromDay n ∧ monthFromDay n ≤ 11 ∧ 1 ≤ dateFromDay n ∧
      dateFromDay n ≤ daysInMonth (yearFromDay n) (monthFromDay n + 1) := by
  obtain ⟨Y, h1, h2⟩ := year_exists n
  rw [dayFromYear_succ] at h2
  obtain ⟨m, d, hm0, hm1, hd0, hd1, hk⟩ :=
    civil_exists Y (n - dayFromYear Y) (by omega) (by omega)
  have hn : makeDay Y m d = n := by
    rw [makeDay_eq Y m d hm0 hm1]; omega
  have hc := makeDay_civil Y m d hm0 hm1 hd0 hd1
  rw [hn] at hc
  rw [hc.1, hc.2.1, hc.2.2]
  exact ⟨hm0, hm1, hd0, hd1⟩

theorem localDay_local (env : Env) (hk : env.keepsDays) (x : Int) :
    localDay env (x * msPerDay - env.tzaLocal (x * msPerDay)) = x := hk x

theorem FixedZone.keepsDays (z : FixedZone) : z.env.keepsDays := by
  intro n
  show (n * msPerDay - z.tza + z.tza) / msPerDay = n
  unfold msPerDay
  have e : n * 86400000 - z.tza + z.tza = n * 86400000 := by ring
  rw [e]
  omega

theorem newDateYMD_eq (env : Env) (Y m d : Int) (hy0 : 100 ≤ Y) (hy1 : Y ≤ 9999)
    (hm0 : -12 ≤ m) (hm1 : m ≤ 120) (hd0 : -1000 ≤ d) (hd1 : d ≤ 1000) :
    newDateYMD env (some Y) (some m) (some d) =
      some (makeDay Y m d * msPerDay - env.tzaLocal (makeDay Y m d * msPerDay)) := by
  have hb := makeDay_bound Y m d (by omega) hy1 hm0 hm1 hd0 hd1
  have ht := env.tzaLocal_bound (makeDay Y m d * msPerDay)
  simp only [newDateYMD]
  rw [if_neg (by omega)]
  unfold timeClip msPerDay
  unfold msPerDay at ht
  rw [if_neg (by omega)]

theorem dateCheck_reads (env : Env) (y m d : JSNum)
    (h : (numEq (getDate env (newDateYMD env y (numSub m (some 1)) d)) d &&
      numEq (getMonth env (newDateYMD env y (numSub m (some 1)) d)) (numSub m (some 1)) &&
      numEq (getFullYear env (newDateYMD env y (numSub m (some 1)) d)) y) = true) :
    ∃ (t Y M D : Int), y = some Y ∧ m = some M ∧ d = some D ∧
      newDateYMD env y (numSub m (some 1)) d = some t ∧
      dateFromDay (localDay env t) = D ∧ monthFromDay (localDay env t) = M - 1 ∧
      yearFromDay (localDay env t) = Y := by
  simp only [Bool.and_eq_true] at h
  obtain ⟨⟨hd, hm⟩, hy⟩ := h
  cases hv : newDateYMD env y (numSub m (some 1)) d with
  | none =>
    rw [hv] at hd
    simp [getDate, numEq] at hd
  | some t =>
    rw [hv] at hd hm hy
    match y, m, d with
    | none, _, _ => simp [getFullYear, numEq] at hy
    | some _, none, _ => simp [getMonth, numSub, numEq] at hm
    | some _, some _, none => simp [getDate, numEq] at hd
    | some Y, some M, some D =>
      simp only [getDate, getMonth, getFullYear, Option.map_some', numSub, numEq,
        decide_eq_true_eq] at hd hm hy
      exact ⟨t, Y, M, D, rfl, rfl, rfl, rfl, hd, hm, hy⟩

theorem dateCheck_sound (env : Env) (Y m d : Int)
    (h : (numEq (getDate env (newDateYMD env (some Y) (numSub (some m) (some 1)) (some d)))
        (some d) &&
      numEq (getMonth env (newDateYMD env (some Y) (numSub (some m) (some 1)) (some d)))
        (numSub (some m) (some 1)) &&
      numEq (getFullYear env (newDateYMD env (some Y) (numSub (some m) (some 1)) (some d)))
        (some Y)) = true) :
    1 ≤ m ∧ m ≤ 12 ∧ 1 ≤ d ∧ d ≤ daysInMonth Y m := by
  obtain ⟨t, Y2, M2, D2, e1, e2, e3, -, hd, hm, hy⟩ := dateCheck_reads env _ _ _ h
  simp only [Option.some.injEq] at e1 e2 e3
  subst e1 e2 e3
  have hc := civil_real (localDay env t)
  rw [hd, hm, hy] at hc
  have e : m - 1 + 1 = m := by ring
  rw [e] at hc
  exact ⟨by omega, by omega, hc.2.2.1, hc.2.2.2⟩

theorem dateCheck_eq (env : Env) (hk : env.keepsDays) (Y m d : Int) (hy0 : 100 ≤ Y)
    (hy1 : Y ≤ 9999) (hm0 : 1 ≤ m) (hm1 : m ≤ 12) (hd0 : 1 ≤ d) (hd1 : d ≤ 31) :
    (numEq (getDate env (newDateYMD env (some Y) (numSub (some m) (some 1)) (some d))) (some d) &&
      numEq (getMonth env (newDateYMD env (some Y) (numSub (some m) (some 1)) (some d)))
        (numSub (some m) (some 1)) &&
      numEq (getFullYear env (newDateYMD env (some Y) (numSub (some m) (some 1)) (some d)))
        (some Y)) = decide (d ≤ daysInMonth Y m) := by
  have hrt := roundTrip_iff Y (m - 1) d (by omega) (by omega) hd0 hd1
  have e : m - 1 + 1 = m := by ring
  rw [e] at hrt
  simp only [numSub, newDateYMD_eq env Y (m - 1) d hy0 hy1 (by omega) (by omega) (by omega) (by omega),
    getDate, getMonth, getFullYear, Option.map_some', localDay_local env hk, numEq]
  rw [Bool.eq_iff_iff]
  simp only [Bool.and_eq_true, decide_eq_true_eq]
  rw [and_assoc]
  exact hrt

theorem inLeapYear_cast (y : Nat) : inLeapYear (y : Int) = isLeapYear y := by
  unfold inLeapYear isLeapYear
  have e4 : ((y : Int) % 4 = 0) ↔ (y % 4 = 0) := by omega
  have e100 : ((y : Int) % 100 = 0) ↔ (y % 100 = 0) := by omega
  have e400 : ((y : Int) % 400 = 0) ↔ (y % 400 = 0) := by omega
  simp only [e4, e100, e400, bne, beq_iff_eq, Nat.beq_eq_true_eq]
  by_cases h4 : y % 4 = 0 <;> by_cases h100 : y % 100 = 0 <;> by_cases h400 : y % 400 = 0 <;>
    simp [h4, h100, h400]

theorem daysInMonth_cast (y m : Nat) : daysInMonth (y : Int) (m : Int) = (monthLength y m : Int) := by
  unfold daysInMonth monthLength
  rw [inLeapYear_cast]
  have e2 : ((m : Int) = 2) ↔ (m = 2) := by omega
  have e4 : ((m : Int) = 4) ↔ (m = 4) := by omega
  have e6 : ((m : Int) = 6) ↔ (m = 6) := by omega
  have e9 : ((m : Int) = 9) ↔ (m = 9) := by omega
  have e11 : ((m : Int) = 11) ↔ (m = 11) := by omega
  simp only [e2, e4, e6, e9, e11]
  split_ifs <;> rfl

/-! ## Strings: lemmas -/

theorem isAsciiDigit_iff (c : Nat) : isAsciiDigit c = true ↔ 48 ≤ c ∧ c ≤ 57 := by
  simp [isAsciiDigit]

theorem isBengaliDigit_iff (c : Nat) : isBengaliDigit c = true ↔ 2534 ≤ c ∧ c ≤ 2543 := by
  simp [isBengaliDigit]

theorem isNumeral_iff (c : Nat) :
    isNumeral c = true ↔ (48 ≤ c ∧ c ≤ 57) ∨ (2534 ≤ c ∧ c ≤ 2543) := by
  simp [isNumeral, isAsciiDigit, isBengaliDigit]

theorem lookupOr_bengaliToEnglish (c : Nat) (h : isBengaliDigit c = true) :
    lookupOr bengaliToEnglish c = c - 2534 + 48 := by
  rw [isBengaliDigit_iff] at h
  obtain ⟨h1, h2⟩ := h
  interval_cases c <;> rfl

theorem lookupOr_englishToBengali (c : Nat) (h : isAsciiDigit c = true) :
    lookupOr englishToBengali c = c - 48 + 2534 := by
  rw [isAsciiDigit_iff] at h
  obtain ⟨h1, h2⟩ := h
  interval_cases c <;> rfl

theorem toEnglishNumerals_eq_map (s : JSString) : toEnglishNumerals s = s.map toEnglishUnit := by
  unfold toEnglishNumerals
  split_ifs with h
  · subst h; rfl
  · apply List.map_congr_left
    intro c _
    unfold toEnglishUnit
    split_ifs with hc
    · exact lookupOr_bengaliToEnglish c hc
    · rfl

theorem toBengaliNumerals_eq_map (s : JSString) : toBengaliNumerals s = s.map toBengaliUnit := by
  unfold toBengaliNumerals
  apply List.map_congr_left
  intro c _
  unfold toBengaliUnit
  split_ifs with hc
  · exact lookupOr_englishToBengali c hc
  · rfl

theorem toEnglishUnit_numeral (c : Nat) (h : isNumeral c = true) :
    isAsciiDigit (toEnglishUnit c) = true ∧ toEnglishUnit c - 48 = numeralDigit c := by
  rw [isNumeral_iff] at h
  unfold toEnglishUnit numeralDigit
  rw [isAsciiDigit_iff]
  by_cases hb : isBengaliDigit c = true
  · rw [if_pos hb, if_pos hb]
    rw [isBengaliDigit_iff] at hb
    omega
  · rw [if_neg hb, if_neg hb]
    rw [isBengaliDigit_iff] at hb
    omega

theorem radixDigits_ten (s : JSString) (h : s.all isAsciiDigit = true) :
    radixDigits 10 s = s.map (fun c => c - 48) := by
  induction s with
  | nil => rfl
  | cons c cs ih =>
    simp only [List.all_cons, Bool.and_eq_true] at h
    have hc := (isAsciiDigit_iff c).mp h.1
    have hv : digitValue c = some (c - 48) := by
      unfold digitValue; rw [if_pos hc]
    simp only [radixDigits, hv, List.map_cons]
    rw [if_pos (by omega), ih h.2]

theorem stripSign_digit (c : Nat) (cs : JSString) (h : isAsciiDigit c = true) :
    stripSign (c :: cs) = (false, c :: cs) := by
  rw [isAsciiDigit_iff] at h
  unfold stripSign
  split
  · rename_i heq; simp at heq; omega
  · rename_i heq; simp at heq; omega
  · rfl

theorem stripRadixPrefix_digits (s : JSString) (h : s.all isAsciiDigit = true) :
    stripRadixPrefix s = (10, s) := by
  unfold stripRadixPrefix
  split
  · simp [isAsciiDigit] at h
  · simp [isAsciiDigit] at h
  · rfl

theorem foldl_digits (l : JSString) (acc : Nat) :
    (l.map (fun c => c - 48)).foldl (fun a d => a * 10 + d) acc =
      l.foldl (fun a c => a * 10 + (c - 48)) acc := by
  induction l generalizing acc with
  | nil => rfl
  | cons c cs ih => simp only [List.map_cons, List.foldl_cons, ih]

theorem parseInt_digits (s : JSString) (hne : s ≠ []) (h : s.all isAsciiDigit = true) :
    parseInt s = some ((s.foldl (fun a c => a * 10 + (c - 48)) 0 : Nat) : Int) := by
  obtain ⟨c, cs, rfl⟩ := List.exists_cons_of_ne_nil hne
  have hc : isAsciiDigit c = true := by
    simp only [List.all_cons, Bool.and_eq_true] at h; exact h.1
  have hw : isWhiteSpace c = false := by
    rw [isAsciiDigit_iff] at hc
    unfold isWhiteSpace
    simp
    omega
  have hdrop : (c :: cs).dropWhile isWhiteSpace = c :: cs := by
    simp [List.dropWhile, hw]
  unfold parseInt
  simp only [hdrop, stripSign_digit c cs hc, stripRadixPrefix_digits (c :: cs) h,
    radixDigits_ten (c :: cs) h]
  rw [if_neg (by simp)]
  simp only [foldl_digits]
  rfl

theorem foldl_numeral (l : JSString) (acc : Nat) (h : l.all isNumeral = true) :
    (l.map toEnglishUnit).foldl (fun a c => a * 10 + (c - 48)) acc =
      l.foldl (fun a c => a * 10 + numeralDigit c) acc := by
  induction l generalizing acc with
  | nil => rfl
  | cons c cs ih =>
    simp only [List.all_cons, Bool.and_eq_true] at h
    simp only [List.map_cons, List.foldl_cons, (toEnglishUnit_numeral c h.1).2, ih _ h.2]

theorem parseInt_numeral (s : JSString) (hne : s ≠ []) (h : s.all isNumeral = true) :
    parseInt (s.map toEnglishUnit) = some ((numeralValue s : Nat) : Int) := by
  have hall : (s.map toEnglishUnit).all isAsciiDigit = true := by
    rw [List.all_eq_true] at h ⊢
    intro x hx
    obtain ⟨c, hc, rfl⟩ := List.mem_map.mp hx
    exact (toEnglishUnit_numeral c (h c hc)).1
  rw [parseInt_digits _ (by simpa using hne) hall, foldl_numeral s 0 h]
  rfl

theorem splitAt_noSep (p : Nat → Bool) (a : JSString) (h : a.all (fun c => !p c) = true) :
    splitAt p a = [a] := by
  induction a with
  | nil => rfl
  | cons c cs ih =>
    simp only [List.all_cons, Bool.and_eq_true, Bool.not_eq_true'] at h
    simp only [splitAt, h.1, Bool.false_eq_true, if_false]
    rw [ih (by simpa using h.2)]

theorem splitAt_append (p : Nat → Bool) (a rest : JSString) (c : Nat)
    (h : a.all (fun c => !p c) = true) (hc : p c = true) :
    splitAt p (a ++ c :: rest) = a :: splitAt p rest := by
  induction a with
  | nil => simp [splitAt, hc]
  | cons x xs ih =>
    simp only [List.all_cons, Bool.and_eq_true, Bool.not_eq_true'] at h
    have e : splitAt p (x :: (xs ++ c :: rest)) =
        (match splitAt p (xs ++ c :: rest) with
          | [] => [[x]]
          | part :: parts => (x :: part) :: parts) := by
      simp only [splitAt, h.1, Bool.false_eq_true, if_false]
    rw [List.cons_append, e, ih (by simpa using h.2)]

theorem splitAt_three (p : Nat → Bool) (a b c : JSString) (s1 s2 : Nat)
    (ha : a.all (fun c => !p c) = true) (hb : b.all (fun c => !p c) = true)
    (hc : c.all (fun c => !p c) = true) (h1 : p s1 = true) (h2 : p s2 = true) :
    splitAt p (a ++ s1 :: (b ++ s2 :: c)) = [a, b, c] := by
  rw [splitAt_append p a _ s1 ha h1, splitAt_append p b _ s2 hb h2, splitAt_noSep p c hc]

theorem matchPattern_cons (cls : Nat → Bool) (lo hi : Nat) (rest : Pattern) (s : JSString) :
    matchPattern ((cls, lo, hi) :: rest) s = true ↔
      ∃ a b, s = a ++ b ∧ lo ≤ a.length ∧ a.length ≤ hi ∧ a.all cls = true ∧
        matchPattern rest b = true := by
  simp only [matchPattern, List.any_eq_true, List.mem_range, Bool.and_eq_true,
    decide_eq_true_eq]
  constructor
  · rintro ⟨i, hi1, ⟨hlen, hall⟩, hrest⟩
    refine ⟨s.take (lo + i), s.drop (lo + i), (List.take_append_drop _ _).symm, ?_, ?_, hall, hrest⟩
    · rw [List.length_take]; omega
    · rw [List.length_take]; omega
  · rintro ⟨a, b, rfl, h1, h2, hall, hrest⟩
    refine ⟨a.length - lo, by omega, ⟨?_, ?_⟩, ?_⟩
    · rw [List.length_append]; omega
    · have e : lo + (a.length - lo) = a.length := by omega
      rw [e, List.take_left']
      · exact hall
      · rfl
    · have e : lo + (a.length - lo) = a.length := by omega
      rw [e, List.drop_left']
      · exact hrest
      · rfl

theorem matchPattern_nil (s : JSString) : matchPattern [] s = true ↔ s = [] := by
  simp [matchPattern]

theorem all_slash_iff (a : JSString) (h1 : 1 ≤ a.length) (h2 : a.length ≤ 1) :
    a.all (fun c => c == slash) = true ↔ a = [slash] := by
  match a, h1, h2 with
  | [x], _, _ => simp
  | [], h, _ => simp at h
  | _ :: _ :: _, _, h => simp at h

theorem matchPattern_bengali (s : JSString) :
    matchPattern bengaliDatePattern s = true ↔
      ∃ dd mm yy : JSString, s = dd ++ slash :: (mm ++ slash :: yy) ∧
        (1 ≤ dd.length ∧ dd.length ≤ 2) ∧ (1 ≤ mm.length ∧ mm.length ≤ 2) ∧ yy.length = 4 ∧
        dd.all isBengaliDigit = true ∧ mm.all isBengaliDigit = true ∧
        yy.all isBengaliDigit = true := by
  unfold bengaliDatePattern
  simp only [matchPattern_cons, matchPattern_nil]
  constructor
  · rintro ⟨dd, r1, rfl, hd1, hd2, hdd, s1, r2, rfl, hs1, hs1', hsl1, mm, r3, rfl, hm1, hm2, hmm,
      s2, r4, rfl, hs2, hs2', hsl2, yy, r5, rfl, hy1, hy2, hyy, rfl⟩
    rw [all_slash_iff s1 hs1 hs1'] at hsl1
    rw [all_slash_iff s2 hs2 hs2'] at hsl2
    subst hsl1 hsl2
    exact ⟨dd, mm, yy, by simp, ⟨hd1, hd2⟩, ⟨hm1, hm2⟩, by omega, hdd, hmm, hyy⟩
  · rintro ⟨dd, mm, yy, rfl, ⟨hd1, hd2⟩, ⟨hm1, hm2⟩, hy, hdd, hmm, hyy⟩
    refine ⟨dd, _, rfl, hd1, hd2, hdd, [slash], _, rfl, by simp, by simp, by simp, mm, _, rfl,
      hm1, hm2, hmm, [slash], _, rfl, by simp, by simp, by simp, yy, [], by simp, by omega,
      by omega, hyy, rfl⟩

theorem matchPattern_eight (s : JSString) :
    matchPattern eightDigitPattern s = true ↔ s.length = 8 ∧ s.all isAsciiDigit = true := by
  unfold eightDigitPattern
  simp only [matchPattern_cons, matchPattern_nil]
  constructor
  · rintro ⟨a, b, rfl, h1, h2, hall, rfl⟩
    simp only [List.append_nil]
    exact ⟨by omega, hall⟩
  · rintro ⟨h1, h2⟩
    exact ⟨s, [], by simp, by omega, by omega, h2, rfl⟩

theorem decimalDigits_step (fuel n : Nat) (acc : JSString) :
    decimalDigits (fuel + 1) n acc =
      if n / 10 = 0 then (48 + n % 10) :: acc
      else decimalDigits fuel (n / 10) ((48 + n % 10) :: acc) := rfl

theorem numToString_nat (n : Nat) : numToString (some (n : Int)) = decimalDigits (n + 1) n [] := rfl

theorem numToString_one (n : Nat) (h : n < 10) : numToString (some (n : Int)) = [48 + n % 10] := by
  rw [numToString_nat, decimalDigits_step, if_pos (by omega)]

theorem numToString_two (n : Nat) (h0 : 10 ≤ n) (h1 : n < 100) :
    numToString (some (n : Int)) = [48 + n / 10 % 10, 48 + n % 10] := by
  obtain ⟨k, rfl⟩ : ∃ k, n = k + 1 := ⟨n - 1, by omega⟩
  rw [numToString_nat, decimalDigits_step, if_neg (by omega), decimalDigits_step,
    if_pos (by omega)]

theorem numToString_four (n : Nat) (h0 : 1000 ≤ n) (h1 : n < 10000) :
    numToString (some (n : Int)) =
      [48 + n / 1000 % 10, 48 + n / 100 % 10, 48 + n / 10 % 10, 48 + n % 10] := by
  obtain ⟨k, rfl⟩ : ∃ k, n = k + 3 := ⟨n - 3, by omega⟩
  rw [numToString_nat, decimalDigits_step, if_neg (by omega), decimalDigits_step,
    if_neg (by omega), decimalDigits_step, if_neg (by omega), decimalDigits_step,
    if_pos (by omega)]
  have e1 : (k + 3) / 10 / 10 / 10 % 10 = (k + 3) / 1000 % 10 := by omega
  have e2 : (k + 3) / 10 / 10 % 10 = (k + 3) / 100 % 10 := by omega
  rw [e1, e2]

theorem padStart_numToString (n : Nat) (h : n < 100) :
    padStart (numToString (some (n : Int))) 2 = [48 + n / 10 % 10, 48 + n % 10] := by
  by_cases h10 : n < 10
  · rw [numToString_one n h10]
    have e : n / 10 % 10 = 0 := by omega
    simp [padStart, zeroChar, e]
  · rw [numToString_two n (by omega) h]
    simp [padStart]

theorem dropWhile_append_of_all (p : Nat → Bool) (w s : JSString) (h : w.all p = true) :
    (w ++ s).dropWhile p = s.dropWhile p := by
  induction w with
  | nil => rfl
  | cons c cs ih =>
    simp only [List.all_cons, Bool.and_eq_true] at h
    simp only [List.cons_append, List.dropWhile_cons, h.1, if_true]
    exact ih h.2

theorem trim_surrounded (w1 w2 core : JSString) (c1 c2 : Nat) (mid : JSString)
    (hw1 : w1.all isWhiteSpace = true) (hw2 : w2.all isWhiteSpace = true)
    (hcore : core = c1 :: mid ++ [c2]) (h1 : isWhiteSpace c1 = false)
    (h2 : isWhiteSpace c2 = false) : trim (w1 ++ core ++ w2) = core := by
  subst hcore
  unfold trim
  rw [List.append_assoc, dropWhile_append_of_all _ _ _ hw1]
  have hd : (c1 :: mid ++ [c2] ++ w2).dropWhile isWhiteSpace = c1 :: mid ++ [c2] ++ w2 := by
    simp [List.dropWhile_cons, h1]
  rw [hd]
  have hr : (c1 :: mid ++ [c2] ++ w2).reverse = w2.reverse ++ c2 :: (c1 :: mid).reverse := by
    simp
  rw [hr, dropWhile_append_of_all _ _ _ (by simpa using hw2)]
  simp [List.dropWhile_cons, h2]

/-! # The strict validator -/

theorem map_toEnglishUnit_noSlash (a : JSString) (h : a.all isNumeral = true) :
    (a.map toEnglishUnit).all (fun c => !(c == slash || c == dash)) = true := by
  rw [List.all_eq_true] at h ⊢
  intro x hx
  obtain ⟨c, hc, rfl⟩ := List.mem_map.mp hx
  have := (isAsciiDigit_iff _).mp (toEnglishUnit_numeral c (h c hc)).1
  simp [slash, dash]
  omega

theorem all_numeral_of_bengali (a : JSString) (h : a.all isBengaliDigit = true) :
    a.all isNumeral = true := by
  rw [List.all_eq_true] at h ⊢
  intro x hx
  simp [isNumeral, h x hx]

theorem ne_nil_of_length (a : JSString) (h : 1 ≤ a.length) : a ≠ [] := by
  intro e; subst e; simp at h

theorem isValidBengaliDate_parts_check (env : Env) (dd mm yy : JSString)
    (hd : 1 ≤ dd.length) (hm : 1 ≤ mm.length) (hy : 1 ≤ yy.length)
    (hdd : dd.all isNumeral = true) (hmm : mm.all isNumeral = true)
    (hyy : yy.all isNumeral = true)
    (hpat : matchPattern bengaliDatePattern (dd ++ slash :: (mm ++ slash :: yy)) = true) :
    isValidBengaliDate env (dd ++ slash :: (mm ++ slash :: yy)) =
      (decide (1 ≤ numeralValue dd ∧ numeralValue dd ≤ 31 ∧ 1 ≤ numeralValue mm ∧
        numeralValue mm ≤ 12 ∧ 1900 ≤ numeralValue yy ∧ numeralValue yy ≤ 2100) &&
      (numEq (getDate env (newDateYMD env (some (numeralValue yy : Int))
          (numSub (some (numeralValue mm : Int)) (some 1)) (some (numeralValue dd : Int))))
          (some (numeralValue dd : Int)) &&
        numEq (getMonth env (newDateYMD env (some (numeralValue yy : Int))
          (numSub (some (numeralValue mm : Int)) (some 1)) (some (numeralValue dd : Int))))
          (numSub (some (numeralValue mm : Int)) (some 1)) &&
        numEq (getFullYear env (newDateYMD env (some (numeralValue yy : Int))
          (numSub (some (numeralValue mm : Int)) (some 1)) (some (numeralValue dd : Int))))
          (some (numeralValue yy : Int)))) := by
  have hsplit : splitAt (fun c => c == slash)
      (toEnglishNumerals (dd ++ slash :: (mm ++ slash :: yy))) =
      [dd.map toEnglishUnit, mm.map toEnglishUnit, yy.map toEnglishUnit] := by
    have hs : toEnglishUnit slash = slash := by decide
    rw [toEnglishNumerals_eq_map]
    simp only [List.map_append, List.map_cons, hs]
    apply splitAt_three
    · have := map_toEnglishUnit_noSlash dd hdd
      rw [List.all_eq_true] at this ⊢
      intro x hx; have := this x hx; simp at this ⊢; exact this.1
    · have := map_toEnglishUnit_noSlash mm hmm
      rw [List.all_eq_true] at this ⊢
      intro x hx; have := this x hx; simp at this ⊢; exact this.1
    · have := map_toEnglishUnit_noSlash yy hyy
      rw [List.all_eq_true] at this ⊢
      intro x hx; have := this x hx; simp at this ⊢; exact this.1
    · simp
    · simp
  unfold isValidBengaliDate
  rw [if_neg (by simp), hpat]
  simp only [Bool.not_true, Bool.false_eq_true, if_false, hsplit, List.map_cons, List.map_nil,
    parseInt_numeral dd (ne_nil_of_length dd hd) hdd,
    parseInt_numeral mm (ne_nil_of_length mm hm) hmm,
    parseInt_numeral yy (ne_nil_of_length yy hy) hyy]
  by_cases hb : 1 ≤ numeralValue dd ∧ numeralValue dd ≤ 31 ∧ 1 ≤ numeralValue mm ∧
      numeralValue mm ≤ 12 ∧ 1900 ≤ numeralValue yy ∧ numeralValue yy ≤ 2100
  · have hc : (numLt (some (numeralValue dd : Int)) (some 1) ||
        numGt (some (numeralValue dd : Int)) (some 31) ||
        numLt (some (numeralValue mm : Int)) (some 1) ||
        numGt (some (numeralValue mm : Int)) (some 12) ||
        numLt (some (numeralValue yy : Int)) (some 1900) ||
        numGt (some (numeralValue yy : Int)) (some 2100)) = false := by
      simp [numLt, numGt]
      omega
    rw [hc, decide_eq_true hb]
    simp only [Bool.false_eq_true, if_false, Bool.true_and]
  · have hc : (numLt (some (numeralValue dd : Int)) (some 1) ||
        numGt (some (numeralValue dd : Int)) (some 31) ||
        numLt (some (numeralValue mm : Int)) (some 1) ||
        numGt (some (numeralValue mm : Int)) (some 12) ||
        numLt (some (numeralValue yy : Int)) (some 1900) ||
        numGt (some (numeralValue yy : Int)) (some 2100)) = true := by
      simp [numLt, numGt]
      omega
    rw [hc, decide_eq_false hb]
    simp only [if_true, Bool.false_and]

theorem isValidBengaliDate_parts (env : Env) (hk : env.keepsDays) (dd mm yy : JSString)
    (hd : 1 ≤ dd.length) (hm : 1 ≤ mm.length) (hy : 1 ≤ yy.length)
    (hdd : dd.all isNumeral = true) (hmm : mm.all isNumeral = true)
    (hyy : yy.all isNumeral = true)
    (hpat : matchPattern bengaliDatePattern (dd ++ slash :: (mm ++ slash :: yy)) = true) :
    isValidBengaliDate env (dd ++ slash :: (mm ++ slash :: yy)) =
      decide (1 ≤ numeralValue dd ∧ numeralValue dd ≤ 31 ∧ 1 ≤ numeralValue mm ∧
        numeralValue mm ≤ 12 ∧ 1900 ≤ numeralValue yy ∧ numeralValue yy ≤ 2100 ∧
        numeralValue dd ≤ monthLength (numeralValue yy) (numeralValue mm)) := by
  rw [isValidBengaliDate_parts_check env dd mm yy hd hm hy hdd hmm hyy hpat]
  by_cases hb : 1 ≤ numeralValue dd ∧ numeralValue dd ≤ 31 ∧ 1 ≤ numeralValue mm ∧
      numeralValue mm ≤ 12 ∧ 1900 ≤ numeralValue yy ∧ numeralValue yy ≤ 2100
  · obtain ⟨b1, b2, b3, b4, b5, b6⟩ := hb
    rw [dateCheck_eq env hk _ _ _ (by omega) (by omega) (by omega) (by omega) (by omega)
      (by omega), daysInMonth_cast]
    simp [b1, b2, b3, b4, b5, b6]
  · rw [decide_eq_false hb, Bool.false_and]
    symm
    rw [decide_eq_false_iff_not]
    intro h
    exact hb ⟨h.1, h.2.1, h.2.2.1, h.2.2.2.1, h.2.2.2.2.1, h.2.2.2.2.2.1⟩

theorem isValidBengaliDate_checked (env : Env) (s : JSString)
    (h : isValidBengaliDate env s = true) :
    ∃ dd mm yy : JSString, s = dd ++ [slash] ++ mm ++ [slash] ++ yy ∧
      (dd.length = 1 ∨ dd.length = 2) ∧ (mm.length = 1 ∨ mm.length = 2) ∧ yy.length = 4 ∧
      dd.all isBengaliDigit = true ∧ mm.all isBengaliDigit = true ∧
      yy.all isBengaliDigit = true ∧
      1 ≤ numeralValue dd ∧ numeralValue dd ≤ 31 ∧
      1 ≤ numeralValue mm ∧ numeralValue mm ≤ 12 ∧
      1900 ≤ numeralValue yy ∧ numeralValue yy ≤ 2100 ∧
      (numEq (getDate env (newDateYMD env (some (numeralValue yy : Int))
          (numSub (some (numeralValue mm : Int)) (some 1)) (some (numeralValue dd : Int))))
          (some (numeralValue dd : Int)) &&
        numEq (getMonth env (newDateYMD env (some (numeralValue yy : Int))
          (numSub (some (numeralValue mm : Int)) (some 1)) (some (numeralValue dd : Int))))
          (numSub (some (numeralValue mm : Int)) (some 1)) &&
        numEq (getFullYear env (newDateYMD env (some (numeralValue yy : Int))
          (numSub (some (numeralValue mm : Int)) (some 1)) (some (numeralValue dd : Int))))
          (some (numeralValue yy : Int))) = true := by
  have hpat : matchPattern bengaliDatePattern s = true := by
    unfold isValidBengaliDate at h
    by_contra hc
    simp [hc] at h
  obtain ⟨dd, mm, yy, rfl, ⟨hd1, hd2⟩, ⟨hm1, hm2⟩, hy, hdd, hmm, hyy⟩ :=
    (matchPattern_bengali s).mp hpat
  rw [isValidBengaliDate_parts_check env dd mm yy hd1 hm1 (by omega)
    (all_numeral_of_bengali dd hdd) (all_numeral_of_bengali mm hmm)
    (all_numeral_of_bengali yy hyy) hpat, Bool.and_eq_true, decide_eq_true_iff] at h
  obtain ⟨⟨b1, b2, b3, b4, b5, b6⟩, hc⟩ := h
  exact ⟨dd, mm, yy, by simp, by omega, by omega, hy, hdd, hmm, hyy, b1, b2, b3, b4, b5, b6, hc⟩

theorem isValidBengaliDate_sound (env : Env) (s : JSString)
    (h : isValidBengaliDate env s = true) :
    ∃ dd mm yy : JSString, s = dd ++ [slash] ++ mm ++ [slash] ++ yy ∧
      (dd.length = 1 ∨ dd.length = 2) ∧ (mm.length = 1 ∨ mm.length = 2) ∧ yy.length = 4 ∧
      dd.all isBengaliDigit = true ∧ mm.all isBengaliDigit = true ∧
      yy.all isBengaliDigit = true ∧
      1 ≤ numeralValue dd ∧ numeralValue dd ≤ 31 ∧
      1 ≤ numeralValue mm ∧ numeralValue mm ≤ 12 ∧
      1900 ≤ numeralValue yy ∧ numeralValue yy ≤ 2100 ∧
      isCalendarDay (numeralValue dd) (numeralValue mm) (numeralValue yy) := by
  obtain ⟨dd, mm, yy, e, hd, hm, hy, hdd, hmm, hyy, b1, b2, b3, b4, b5, b6, hc⟩ :=
    isValidBengaliDate_checked env s h
  have hs := dateCheck_sound env _ _ _ hc
  rw [daysInMonth_cast] at hs
  exact ⟨dd, mm, yy, e, hd, hm, hy, hdd, hmm, hyy, b1, b2, b3, b4, b5, b6, b3, b4, b1,
    by exact_mod_cast hs.2.2.2⟩

theorem isValidBengaliDate_iff (env : Env) (hk : env.keepsDays) (s : JSString) :
    isValidBengaliDate env s = true ↔
      ∃ dd mm yy : JSString, s = dd ++ [slash] ++ mm ++ [slash] ++ yy ∧
        (dd.length = 1 ∨ dd.length = 2) ∧ (mm.length = 1 ∨ mm.length = 2) ∧ yy.length = 4 ∧
        dd.all isBengaliDigit = true ∧ mm.all isBengaliDigit = true ∧
        yy.all isBengaliDigit = true ∧
        1 ≤ numeralValue dd ∧ numeralValue dd ≤ 31 ∧
        1 ≤ numeralValue mm ∧ numeralValue mm ≤ 12 ∧
        1900 ≤ numeralValue yy ∧ numeralValue yy ≤ 2100 ∧
        isCalendarDay (numeralValue dd) (numeralValue mm) (numeralValue yy) := by
  constructor
  · exact isValidBengaliDate_sound env s
  · rintro ⟨dd, mm, yy, rfl, hd, hm, hy, hdd, hmm, hyy, b1, b2, b3, b4, b5, b6, -, -, -, b7⟩
    have e : dd ++ [slash] ++ mm ++ [slash] ++ yy = dd ++ slash :: (mm ++ slash :: yy) := by simp
    rw [e]
    have hpat : matchPattern bengaliDatePattern (dd ++ slash :: (mm ++ slash :: yy)) = true :=
      (matchPattern_bengali _).mpr
        ⟨dd, mm, yy, rfl, by omega, by omega, hy, hdd, hmm, hyy⟩
    rw [isValidBengaliDate_parts env hk dd mm yy (by omega) (by omega) (by omega)
      (all_numeral_of_bengali dd hdd) (all_numeral_of_bengali mm hmm)
      (all_numeral_of_bengali yy hyy) hpat, decide_eq_true_iff]
    exact ⟨b1, b2, b3, b4, b5, b6, b7⟩

theorem utcEnv_keepsDays : utcEnv.keepsDays := FixedZone.keepsDays _

theorem westEnv_keepsDays : westEnv.keepsDays := FixedZone.keepsDays _

theorem eastEnv_keepsDays : eastEnv.keepsDays := FixedZone.keepsDays _

theorem apiaEnv_skips_day :
    localDay apiaEnv (makeDay 2011 11 30 * msPerDay -
      apiaEnv.tzaLocal (makeDay 2011 11 30 * msPerDay)) = makeDay 2011 11 31 ∧
    ¬ apiaEnv.keepsDays := by
  have h : localDay apiaEnv (makeDay 2011 11 30 * msPerDay -
      apiaEnv.tzaLocal (makeDay 2011 11 30 * msPerDay)) = makeDay 2011 11 31 := by decide
  refine ⟨h, fun hk => ?_⟩
  have h2 := hk (makeDay 2011 11 30)
  rw [h] at h2
  exact absurd h2 (by decide)

theorem isValidBengaliDate_env (env env2 : Env) (hk : env.keepsDays) (hk2 : env2.keepsDays)
    (s : JSString) : isValidBengaliDate env s = isValidBengaliDate env2 s := by
  rw [Bool.eq_iff_iff]
  exact (isValidBengaliDate_iff env hk s).trans (isValidBengaliDate_iff env2 hk2 s).symm

theorem isValidBengaliDate_of_valid (env env2 : Env) (hk : env2.keepsDays) (s : JSString)
    (h : isValidBengaliDate env s = true) : isValidBengaliDate env2 s = true :=
  (isValidBengaliDate_iff env2 hk s).mpr (isValidBengaliDate_sound env s h)

theorem isValidBengaliDate_rejected (env : Env) (s : JSString)
    (h : isValidBengaliDate utcEnv s = false) : isValidBengaliDate env s = false := by
  rw [← Bool.not_eq_true] at h ⊢
  intro hv
  exact h (isValidBengaliDate_of_valid env utcEnv utcEnv_keepsDays s hv)

theorem isValidBengaliDate_asciiDigit (env : Env) (s : JSString)
    (h : ∃ c ∈ s, isAsciiDigit c = true) : isValidBengaliDate env s = false := by
  obtain ⟨c, hc, hdig⟩ := h
  rw [← Bool.not_eq_true]
  intro hv
  obtain ⟨dd, mm, yy, rfl, -, -, -, hdd, hmm, hyy, -⟩ := isValidBengaliDate_sound env s hv
  rw [isAsciiDigit_iff] at hdig
  rw [List.all_eq_true] at hdd hmm hyy
  simp only [List.mem_append, List.mem_singleton] at hc
  rcases hc with (((h | h) | h) | h) | h
  · have := (isBengaliDigit_iff c).mp (hdd c h); omega
  · rw [h] at hdig; simp [slash] at hdig
  · have := (isBengaliDigit_iff c).mp (hmm c h); omega
  · rw [h] at hdig; simp [slash] at hdig
  · have := (isBengaliDigit_iff c).mp (hyy c h); omega

/-- C1, as the code has it: in every environment `isValidBengaliDate(s)` is true only if
`s` is 1-2 Bengali digits, a slash, 1-2 Bengali digits, a slash and 4 Bengali digits whose
day, month and year lie in 1..31, 1..12 and 1900..2100 and form a real Gregorian calendar
day, and in an environment whose local time skips no calendar day it is true exactly then;
in every environment an input with an ASCII digit is rejected, as are day 0, day 32,
month 0, month 13, 30 February and 29 February of 2025, 1900 and 2100; 29 February of 2024
and of 2000 is accepted where local time skips no day. -/
theorem isValidBengaliDate_spec :
    (∀ (env : Env) (s : JSString), isValidBengaliDate env s = true →
      ∃ dd mm yy : JSString, s = dd ++ [slash] ++ mm ++ [slash] ++ yy ∧
        (dd.length = 1 ∨ dd.length = 2) ∧ (mm.length = 1 ∨ mm.length = 2) ∧ yy.length = 4 ∧
        dd.all isBengaliDigit = true ∧ mm.all isBengaliDigit = true ∧
        yy.all isBengaliDigit = true ∧
        1 ≤ numeralValue dd ∧ numeralValue dd ≤ 31 ∧
        1 ≤ numeralValue mm ∧ numeralValue mm ≤ 12 ∧
        1900 ≤ numeralValue yy ∧ numeralValue yy ≤ 2100 ∧
        isCalendarDay (numeralValue dd) (numeralValue mm) (numeralValue yy)) ∧
    (∀ env : Env, env.keepsDays → ∀ s : JSString, isValidBengaliDate env s = true ↔
      ∃ dd mm yy : JSString, s = dd ++ [slash] ++ mm ++ [slash] ++ yy ∧
        (dd.length = 1 ∨ dd.length = 2) ∧ (mm.length = 1 ∨ mm.length = 2) ∧ yy.length = 4 ∧
        dd.all isBengaliDigit = true ∧ mm.all isBengaliDigit = true ∧
        yy.all isBengaliDigit = true ∧
        1 ≤ numeralValue dd ∧ numeralValue dd ≤ 31 ∧
        1 ≤ numeralValue mm ∧ numeralValue mm ≤ 12 ∧
        1900 ≤ numeralValue yy ∧ numeralValue yy ≤ 2100 ∧
        isCalendarDay (numeralValue dd) (numeralValue mm) (numeralValue yy)) ∧
    (∀ (env : Env) (s : JSString), (∃ c ∈ s, isAsciiDigit c = true) →
      isValidBengaliDate env s = false) ∧
    (∀ env : Env,
      isValidBengaliDate env (js "০০/০১/২০২৫") = false ∧
      isValidBengaliDate env (js "৩২/০১/২০২৫") = false ∧
      isValidBengaliDate env (js "০১/০০/২০২৫") = false ∧
      isValidBengaliDate env (js "০১/১৩/২০২৫") = false ∧
      isValidBengaliDate env (js "৩০/০২/২০২৪") = false ∧
      isValidBengaliDate env (js "২৯/০২/২০২৫") = false ∧
      isValidBengaliDate env (js "২৯/০২/১৯০০") = false ∧
      isValidBengaliDate env (js "২৯/০২/২১০০") = false ∧
      isValidBengaliDate env (js "07/07/2025") = false) ∧
    (∀ env : Env, env.keepsDays →
      isValidBengaliDate env (js "২৯/০২/২০২৪") = true ∧
      isValidBengaliDate env (js "২৯/০২/২০০০") = true) := by
  refine ⟨isValidBengaliDate_sound, isValidBengaliDate_iff, isValidBengaliDate_asciiDigit,
    ?_, ?_⟩
  · intro env
    exact ⟨isValidBengaliDate_rejected env _ (by decide),
      isValidBengaliDate_rejected env _ (by decide),
      isValidBengaliDate_rejected env _ (by decide),
      isValidBengaliDate_rejected env _ (by decide),
      isValidBengaliDate_rejected env _ (by decide),
      isValidBengaliDate_rejected env _ (by decide),
      isValidBengaliDate_rejected env _ (by decide),
      isValidBengaliDate_rejected env _ (by decide),
      isValidBengaliDate_rejected env _ (by decide)⟩
  · intro env hk
    simp only [isValidBengaliDate_env env utcEnv hk utcEnv_keepsDays]
    decide

/-- The amended C1 on UTC, where local time skips no day: 29 February 2024 is accepted, and
`07/07/2025`, which has an ASCII digit, is rejected. -/
theorem isValidBengaliDate_spec_witness :
    utcEnv.keepsDays ∧ isValidBengaliDate utcEnv (js "২৯/০২/২০২৪") = true ∧
      (∃ c ∈ js "07/07/2025", isAsciiDigit c = true) ∧
      isValidBengaliDate utcEnv (js "07/07/2025") = false :=
  ⟨utcEnv_keepsDays, (isValidBengaliDate_spec.2.2.2.2 utcEnv utcEnv_keepsDays).1,
    ⟨48, by decide, by decide⟩,
    isValidBengaliDate_spec.2.2.1 utcEnv (js "07/07/2025") ⟨48, by decide, by decide⟩⟩

/-- C1 as stated fails where local time skips a day: in `Pacific/Apia` the string
`৩০/১২/২০১১` has the required shape and denotes the real day 30 December 2011, with its
parts in range, and `isValidBengaliDate` is false. -/
theorem isValidBengaliDate_skipped_day :
    isValidBengaliDate apiaEnv (js "৩০/১২/২০১১") = false ∧
    ∃ dd mm yy : JSString, js "৩০/১২/২০১১" = dd ++ [slash] ++ mm ++ [slash] ++ yy ∧
      (dd.length = 1 ∨ dd.length = 2) ∧ (mm.length = 1 ∨ mm.length = 2) ∧ yy.length = 4 ∧
      dd.all isBengaliDigit = true ∧ mm.all isBengaliDigit = true ∧
      yy.all isBengaliDigit = true ∧
      1 ≤ numeralValue dd ∧ numeralValue dd ≤ 31 ∧
      1 ≤ numeralValue mm ∧ numeralValue mm ≤ 12 ∧
      1900 ≤ numeralValue yy ∧ numeralValue yy ≤ 2100 ∧
      isCalendarDay (numeralValue dd) (numeralValue mm) (numeralValue yy) :=
  ⟨by decide, js "৩০", js "১২", js "২০১১", by decide, by decide, by decide, by decide,
    by decide, by decide, by decide, by decide, by decide, by decide, by decide, by decide,
    by decide, by decide⟩

/-! # The flexible parser -/

theorem validateParts_some (env : Env) (day month year0 : JSNum) (r : JSString)
    (h : validateParts env day month year0 = some r) :
    ∃ (d m y : Nat) (y0 : Int), day = some (d : Int) ∧ month = some (m : Int) ∧
      year0 = some y0 ∧ y0 ≠ 0 ∧
      (y : Int) = (if y0 < 50 then 2000 + y0 else if y0 < 100 then 1900 + y0 else y0) ∧
      1 ≤ d ∧ d ≤ 31 ∧ 1 ≤ m ∧ m ≤ 12 ∧ 1900 ≤ y ∧ y ≤ 2100 ∧ isCalendarDay d m y ∧
      r = isoString y m d := by
  unfold validateParts at h
  match day, month, year0 with
  | none, _, _ => simp [truthy] at h
  | some _, none, _ => simp [truthy] at h
  | some _, some _, none => simp [truthy] at h
  | some di, some mi, some y0 =>
    obtain ⟨yi, hyi⟩ : ∃ yi : Int,
        yi = if y0 < 50 then 2000 + y0 else if y0 < 100 then 1900 + y0 else y0 := ⟨_, rfl⟩
    have hyear : (if numLt (some y0) (some 100) = true then
        (if numLt (some y0) (some 50) = true then numAdd (some 2000) (some y0)
          else numAdd (some 1900) (some y0))
        else some y0) = some yi := by
      simp only [numLt, numAdd, decide_eq_true_eq, hyi]
      split_ifs <;> first | rfl | omega
    simp only [hyear] at h
    split_ifs at h with ht hb hc
    simp only [truthy, Bool.and_eq_true, decide_eq_true_eq] at ht
    simp only [numGe, numLe, Bool.and_eq_true, decide_eq_true_eq] at hb
    obtain ⟨⟨⟨⟨⟨b1, b2⟩, b3⟩, b4⟩, b5⟩, b6⟩ := hb
    have hs := (dateCheck_sound env yi mi di hc).2.2.2
    obtain ⟨d, rfl⟩ : ∃ d : Nat, di = d := ⟨di.toNat, (Int.toNat_of_nonneg (by omega)).symm⟩
    obtain ⟨m, rfl⟩ : ∃ m : Nat, mi = m := ⟨mi.toNat, (Int.toNat_of_nonneg (by omega)).symm⟩
    obtain ⟨y, rfl⟩ : ∃ y : Nat, yi = y := ⟨yi.toNat, (Int.toNat_of_nonneg (by omega)).symm⟩
    refine ⟨d, m, y, y0, rfl, rfl, rfl, ht.2, hyi,
      by omega, by omega, by omega, by omega, by omega, by omega, ?_, ?_⟩
    · rw [daysInMonth_cast] at hs
      exact ⟨by omega, by omega, by omega, by exact_mod_cast hs⟩
    · simp only [Option.some.injEq] at h
      rw [← h, numToString_four _ (by omega) (by omega),
        padStart_numToString _ (by omega), padStart_numToString _ (by omega)]
      simp [isoString]

theorem validateParts_of_check (env : Env) (d m y0 y : Nat) (hy0 : y0 ≠ 0)
    (hy : y = if y0 < 50 then 2000 + y0 else if y0 < 100 then 1900 + y0 else y0)
    (h1 : 1900 ≤ y) (h2 : y ≤ 2100) (hd0 : 1 ≤ d) (hd31 : d ≤ 31) (hm0 : 1 ≤ m) (hm1 : m ≤ 12)
    (hc : (numEq (getDate env (newDateYMD env (some (y : Int))
          (numSub (some (m : Int)) (some 1)) (some (d : Int)))) (some (d : Int)) &&
        numEq (getMonth env (newDateYMD env (some (y : Int))
          (numSub (some (m : Int)) (some 1)) (some (d : Int))))
          (numSub (some (m : Int)) (some 1)) &&
        numEq (getFullYear env (newDateYMD env (some (y : Int))
          (numSub (some (m : Int)) (some 1)) (some (d : Int)))) (some (y : Int))) = true) :
    validateParts env (some (d : Int)) (some (m : Int)) (some (y0 : Int)) =
      some (isoString y m d) := by
  unfold validateParts
  have hyear : (if numLt (some (y0 : Int)) (some 100) = true then
      (if numLt (some (y0 : Int)) (some 50) = true then numAdd (some 2000) (some (y0 : Int))
        else numAdd (some 1900) (some (y0 : Int)))
      else some (y0 : Int)) = some (y : Int) := by
    simp only [numLt, numAdd, decide_eq_true_eq, hy]
    split_ifs <;> first | rfl | omega
  simp only [hyear]
  have ht : (truthy (some (d : Int)) && truthy (some (m : Int)) && truthy (some (y0 : Int))) = true := by
    simp [truthy]; omega
  have hb : (numGe (some (d : Int)) (some 1) && numLe (some (d : Int)) (some 31) &&
      numGe (some (m : Int)) (some 1) && numLe (some (m : Int)) (some 12) &&
      numGe (some (y : Int)) (some 1900) && numLe (some (y : Int)) (some 2100)) = true := by
    simp [numGe, numLe]; omega
  rw [if_pos ht, if_pos hb, if_pos hc, numToString_four _ (by omega) (by omega),
    padStart_numToString _ (by omega), padStart_numToString _ (by omega)]
  simp [isoString]

theorem validateParts_ok (env : Env) (hk : env.keepsDays) (d m y0 y : Nat) (hy0 : y0 ≠ 0)
    (hy : y = if y0 < 50 then 2000 + y0 else if y0 < 100 then 1900 + y0 else y0)
    (h1 : 1900 ≤ y) (h2 : y ≤ 2100) (hday : isCalendarDay d m y) :
    validateParts env (some (d : Int)) (some (m : Int)) (some (y0 : Int)) =
      some (isoString y m d) := by
  obtain ⟨m1, m2, d1, d2⟩ := hday
  have hd31 : d ≤ 31 := by
    have : monthLength y m ≤ 31 := by unfold monthLength; split_ifs <;> omega
    omega
  apply validateParts_of_check env d m y0 y hy0 hy h1 h2 d1 hd31 m1 m2
  rw [dateCheck_eq env hk _ _ _ (by omega) (by omega) (by omega) (by omega) (by omega)
    (by omega), daysInMonth_cast, decide_eq_true_iff]
  exact_mod_cast d2

/-- C4: whenever `parseFlexibleDate` returns a non-null value, the trimmed and
transliterated input split into a day, a month and a year, the year after the two-digit
normalization lies in 1900..2100, the day in 1..31, the month in 1..12, the triple is a
real Gregorian calendar day, and the value is its zero-padded `YYYY-MM-DD` string; so every
structural, range or calendar failure gives null. -/
theorem parseFlexibleDate_sound (env : Env) (s r : JSString)
    (h : parseFlexibleDate env s = some r) :
    ∃ (d m y : Nat) (y0 : Int),
      flexibleParts (toEnglishNumerals (trim s)) = some (some (d : Int), some (m : Int), some y0) ∧
      (y : Int) = (if y0 < 50 then 2000 + y0 else if y0 < 100 then 1900 + y0 else y0) ∧
      1 ≤ d ∧ d ≤ 31 ∧ 1 ≤ m ∧ m ≤ 12 ∧ 1900 ≤ y ∧ y ≤ 2100 ∧ isCalendarDay d m y ∧
      r = isoString y m d ∧ r.length = 10 ∧ ∀ c ∈ r, isAsciiDigit c = true ∨ c = dash := by
  unfold parseFlexibleDate at h
  split_ifs at h with h0
  cases hfp : flexibleParts (toEnglishNumerals (trim s)) with
  | none => rw [hfp] at h; simp at h
  | some t =>
    obtain ⟨day, month, year0⟩ := t
    rw [hfp] at h
    simp only at h
    obtain ⟨d, m, y, y0, rfl, rfl, rfl, -, hy, b1, b2, b3, b4, b5, b6, hday, hr⟩ :=
      validateParts_some env day month year0 r h
    refine ⟨d, m, y, y0, rfl, hy, b1, b2, b3, b4, b5, b6, hday, hr, by rw [hr]; rfl, ?_⟩
    intro c hc
    rw [hr] at hc
    simp only [isoString, List.mem_cons, List.mem_singleton, List.not_mem_nil, or_false] at hc
    rw [isAsciiDigit_iff]
    rcases hc with h | h | h | h | h | h | h | h | h | h <;> first
      | (right; exact h)
      | (left; omega)

/-- The soundness of the flexible parser, at `07/07/25` on UTC. -/
theorem parseFlexibleDate_sound_witness :
    parseFlexibleDate utcEnv (js "07/07/25") = some (js "2025-07-07") ∧
    ∃ (d m y : Nat) (y0 : Int),
      flexibleParts (toEnglishNumerals (trim (js "07/07/25"))) =
        some (some (d : Int), some (m : Int), some y0) ∧
      (y : Int) = (if y0 < 50 then 2000 + y0 else if y0 < 100 then 1900 + y0 else y0) ∧
      1 ≤ d ∧ d ≤ 31 ∧ 1 ≤ m ∧ m ≤ 12 ∧ 1900 ≤ y ∧ y ≤ 2100 ∧ isCalendarDay d m y ∧
      js "2025-07-07" = isoString y m d ∧ (js "2025-07-07").length = 10 ∧
      ∀ c ∈ js "2025-07-07", isAsciiDigit c = true ∨ c = dash :=
  ⟨by decide, parseFlexibleDate_sound utcEnv (js "07/07/25") (js "2025-07-07") (by decide)⟩

theorem isWhiteSpace_numeral (c : Nat) (h : isNumeral c = true) : isWhiteSpace c = false := by
  rw [isNumeral_iff] at h
  unfold isWhiteSpace
  simp
  omega

theorem trim_numerals (w1 w2 core : JSString) (hw1 : w1.all isWhiteSpace = true)
    (hw2 : w2.all isWhiteSpace = true) (a b : JSString) (mid : JSString)
    (hcore : core = a ++ mid ++ b) (ha : a ≠ []) (hb : b ≠ [])
    (han : a.all isNumeral = true) (hbn : b.all isNumeral = true) :
    trim (w1 ++ core ++ w2) = core := by
  obtain ⟨c1, a1, rfl⟩ := List.exists_cons_of_ne_nil ha
  obtain ⟨b1, c2, rfl⟩ : ∃ b1 c2, b = b1 ++ [c2] :=
    ⟨b.dropLast, b.getLast hb, (List.dropLast_append_getLast hb).symm⟩
  apply trim_surrounded w1 w2 core c1 c2 (a1 ++ mid ++ b1) hw1 hw2
  · rw [hcore]; simp
  · apply isWhiteSpace_numeral
    simp only [List.all_cons, Bool.and_eq_true] at han
    exact han.1
  · apply isWhiteSpace_numeral
    simp only [List.all_append, List.all_cons, List.all_nil, Bool.and_true,
      Bool.and_eq_true] at hbn
    exact hbn.2

theorem includes_numerals (a : JSString) (c : Nat) (h : a.all isNumeral = true)
    (hc : isNumeral c = false) : includes a c = false := by
  unfold includes
  rw [List.any_eq_false]
  intro x hx
  rw [List.all_eq_true] at h
  have := h x hx
  simp only [beq_iff_eq]
  intro e
  rw [e] at this
  rw [this] at hc
  exact Bool.noConfusion hc

theorem flexibleParts_separated (dd mm yy : JSString) (s1 s2 : Nat)
    (hd : dd ≠ []) (hm : mm ≠ []) (hy : yy ≠ [])
    (hdd : dd.all isNumeral = true) (hmm : mm.all isNumeral = true)
    (hyy : yy.all isNumeral = true) (h1 : s1 = slash ∨ s1 = dash) (h2 : s2 = slash ∨ s2 = dash) :
    flexibleParts (toEnglishNumerals (dd ++ [s1] ++ mm ++ [s2] ++ yy)) =
      some (some (numeralValue dd : Int), some (numeralValue mm : Int),
        some (numeralValue yy : Int)) := by
  have e1 : toEnglishUnit s1 = s1 := by rcases h1 with h | h <;> subst h <;> decide
  have e2 : toEnglishUnit s2 = s2 := by rcases h2 with h | h <;> subst h <;> decide
  have p1 : (s1 == slash || s1 == dash) = true := by rcases h1 with h | h <;> subst h <;> decide
  have p2 : (s2 == slash || s2 == dash) = true := by rcases h2 with h | h <;> subst h <;> decide
  have hform : toEnglishNumerals (dd ++ [s1] ++ mm ++ [s2] ++ yy) =
      dd.map toEnglishUnit ++ s1 :: (mm.map toEnglishUnit ++ s2 :: yy.map toEnglishUnit) := by
    rw [toEnglishNumerals_eq_map]
    simp [e1, e2]
  have hinc : (includes (dd.map toEnglishUnit ++ s1 :: (mm.map toEnglishUnit ++
      s2 :: yy.map toEnglishUnit)) slash ||
      includes (dd.map toEnglishUnit ++ s1 :: (mm.map toEnglishUnit ++
      s2 :: yy.map toEnglishUnit)) dash) = true := by
    unfold includes
    rcases h1 with h | h <;> subst h <;> simp
  have hsplit := splitAt_three (fun c => c == slash || c == dash) (dd.map toEnglishUnit)
    (mm.map toEnglishUnit) (yy.map toEnglishUnit) s1 s2 (map_toEnglishUnit_noSlash dd hdd)
    (map_toEnglishUnit_noSlash mm hmm) (map_toEnglishUnit_noSlash yy hyy) p1 p2
  unfold flexibleParts
  rw [hform, if_pos hinc, hsplit]
  simp only [parseInt_numeral dd hd hdd, parseInt_numeral mm hm hmm, parseInt_numeral yy hy hyy]

theorem flexibleParts_eight (dd mm yy : JSString)
    (hd : dd.length = 2) (hm : mm.length = 2) (hy : yy.length = 4)
    (hdd : dd.all isNumeral = true) (hmm : mm.all isNumeral = true)
    (hyy : yy.all isNumeral = true) :
    flexibleParts (toEnglishNumerals (dd ++ mm ++ yy)) =
      some (some (numeralValue dd : Int), some (numeralValue mm : Int),
        some (numeralValue yy : Int)) := by
  have hform : toEnglishNumerals (dd ++ mm ++ yy) =
      dd.map toEnglishUnit ++ (mm.map toEnglishUnit ++ yy.map toEnglishUnit) := by
    rw [toEnglishNumerals_eq_map]
    simp
  have hall : (dd.map toEnglishUnit ++ (mm.map toEnglishUnit ++ yy.map toEnglishUnit)).all
      (fun c => !(c == slash || c == dash)) = true := by
    simp only [List.all_append, Bool.and_eq_true]
    exact ⟨map_toEnglishUnit_noSlash dd hdd, map_toEnglishUnit_noSlash mm hmm,
      map_toEnglishUnit_noSlash yy hyy⟩
  have hdig : (dd.map toEnglishUnit ++ (mm.map toEnglishUnit ++ yy.map toEnglishUnit)).all
      isAsciiDigit = true := by
    rw [List.all_eq_true] at hdd hmm hyy ⊢
    intro x hx
    simp only [List.mem_append, List.mem_map] at hx
    rcases hx with ⟨c, hc, rfl⟩ | ⟨c, hc, rfl⟩ | ⟨c, hc, rfl⟩
    · exact (toEnglishUnit_numeral c (hdd c hc)).1
    · exact (toEnglishUnit_numeral c (hmm c hc)).1
    · exact (toEnglishUnit_numeral c (hyy c hc)).1
  have hinc : (includes (dd.map toEnglishUnit ++ (mm.map toEnglishUnit ++
      yy.map toEnglishUnit)) slash ||
      includes (dd.map toEnglishUnit ++ (mm.map toEnglishUnit ++
      yy.map toEnglishUnit)) dash) = false := by
    unfold includes
    rw [Bool.or_eq_false_iff, List.any_eq_false, List.any_eq_false]
    rw [List.all_eq_true] at hall
    constructor
    · intro x hx
      have := hall x hx
      simp at this ⊢
      exact this.1
    · intro x hx
      have := hall x hx
      simp at this ⊢
      exact this.2
  have hpat : matchPattern eightDigitPattern (dd.map toEnglishUnit ++
      (mm.map toEnglishUnit ++ yy.map toEnglishUnit)) = true := by
    rw [matchPattern_eight]
    refine ⟨?_, hdig⟩
    simp [hd, hm, hy]
  have s1 : substring (dd.map toEnglishUnit ++ (mm.map toEnglishUnit ++ yy.map toEnglishUnit))
      0 2 = dd.map toEnglishUnit := by
    unfold substring
    rw [List.drop_zero, List.take_left']
    simp [hd]
  have s2 : substring (dd.map toEnglishUnit ++ (mm.map toEnglishUnit ++ yy.map toEnglishUnit))
      2 4 = mm.map toEnglishUnit := by
    unfold substring
    rw [List.drop_left' (by simp [hd]), List.take_left']
    simp [hm]
  have s3 : substring (dd.map toEnglishUnit ++ (mm.map toEnglishUnit ++ yy.map toEnglishUnit))
      4 8 = yy.map toEnglishUnit := by
    unfold substring
    rw [← List.append_assoc, List.drop_left' (by simp [hd, hm]), List.take_of_length_le]
    simp [hy]
  unfold flexibleParts
  rw [hform, hinc, hpat, s1, s2, s3]
  simp only [Bool.false_eq_true, if_false, if_true,
    parseInt_numeral dd (by intro e; subst e; simp at hd) hdd,
    parseInt_numeral mm (by intro e; subst e; simp at hm) hmm,
    parseInt_numeral yy (by intro e; subst e; simp at hy) hyy]

/-- C5, as the code has it: in an environment whose local time skips no calendar day, for
every real Gregorian day `(d, m, y)` with `1900 ≤ y ≤ 2100`, written with digit strings
`dd`, `mm`, `yy` of either numeral system and surrounded by white space,
`parseFlexibleDate` returns the zero-padded ISO string of the day when the three parts are
separated by a slash or a dash, and when they are the eight digits `DDMMYYYY`. -/
theorem parseFlexibleDate_complete (env : Env) (hk : env.keepsDays) (d m y : Nat)
    (w1 w2 dd mm yy : JSString)
    (hy1 : 1900 ≤ y) (hy2 : y ≤ 2100) (hday : isCalendarDay d m y)
    (hw1 : w1.all isWhiteSpace = true) (hw2 : w2.all isWhiteSpace = true)
    (hdd : dd.all isNumeral = true) (hmm : mm.all isNumeral = true)
    (hyy : yy.all isNumeral = true)
    (hd : dd ≠ []) (hm : mm ≠ []) (hy : yy ≠ [])
    (hdv : numeralValue dd = d) (hmv : numeralValue mm = m) (hyv : numeralValue yy = y) :
    (∀ s1 s2 : Nat, (s1 = slash ∨ s1 = dash) → (s2 = slash ∨ s2 = dash) →
      parseFlexibleDate env (w1 ++ (dd ++ [s1] ++ mm ++ [s2] ++ yy) ++ w2) =
        some (isoString y m d)) ∧
    (dd.length = 2 → mm.length = 2 → yy.length = 4 →
      parseFlexibleDate env (w1 ++ (dd ++ mm ++ yy) ++ w2) = some (isoString y m d)) := by
  have hval : validateParts env (some (d : Int)) (some (m : Int)) (some (y : Int)) =
      some (isoString y m d) :=
    validateParts_ok env hk d m y y (by omega)
      (by rw [if_neg (by omega), if_neg (by omega)]) hy1 hy2 hday
  constructor
  · intro s1 s2 h1 h2
    have htrim : trim (w1 ++ (dd ++ [s1] ++ mm ++ [s2] ++ yy) ++ w2) =
        dd ++ [s1] ++ mm ++ [s2] ++ yy :=
      trim_numerals w1 w2 _ hw1 hw2 dd yy ([s1] ++ mm ++ [s2]) (by simp) hd hy hdd hyy
    unfold parseFlexibleDate
    rw [htrim, if_neg (by simp [hd]), flexibleParts_separated dd mm yy s1 s2 hd hm hy hdd hmm hyy h1 h2,
      hdv, hmv, hyv]
    exact hval
  · intro l1 l2 l3
    have htrim : trim (w1 ++ (dd ++ mm ++ yy) ++ w2) = dd ++ mm ++ yy :=
      trim_numerals w1 w2 _ hw1 hw2 dd yy mm rfl hd hy hdd hyy
    unfold parseFlexibleDate
    rw [htrim, if_neg (by simp [hd]), flexibleParts_eight dd mm yy l1 l2 l3 hdd hmm hyy,
      hdv, hmv, hyv]
    exact hval

/-- The completeness of the flexible parser, at the Bengali strings of 7 July 2025 on
UTC. -/
theorem parseFlexibleDate_complete_witness :
    utcEnv.keepsDays ∧
    parseFlexibleDate utcEnv (js "০৭-০৭-২০২৫") = some (js "2025-07-07") ∧
    parseFlexibleDate utcEnv (js " ০৭/০৭/২০২৫ ") = some (js "2025-07-07") ∧
    parseFlexibleDate utcEnv (js "০৭০৭২০২৫") = some (js "2025-07-07") :=
  have h := parseFlexibleDate_complete utcEnv utcEnv_keepsDays 7 7 2025 [] [] (js "০৭")
    (js "০৭") (js "২০২৫")
    (by decide) (by decide) (by decide) (by decide) (by decide) (by decide) (by decide)
    (by decide) (by decide) (by decide) (by decide) (by decide) (by decide) (by decide)
  have h2 := parseFlexibleDate_complete utcEnv utcEnv_keepsDays 7 7 2025 (js " ") (js " ")
    (js "০৭") (js "০৭")
    (js "২০২৫") (by decide) (by decide) (by decide) (by decide) (by decide) (by decide)
    (by decide) (by decide) (by decide) (by decide) (by decide) (by decide) (by decide)
    (by decide)
  ⟨utcEnv_keepsDays, h.1 dash dash (Or.inr rfl) (Or.inr rfl),
    h2.1 slash slash (Or.inl rfl) (Or.inl rfl), h.2 (by decide) (by decide) (by decide)⟩

/-- C5 as stated fails where local time skips a day: 30 December 2011 is a real Gregorian
day with its year in 1900..2100, and in `Pacific/Apia` `parseFlexibleDate` returns null for
`30/12/2011`, for `30-12-2011` and for `30122011`, not `2011-12-30`. -/
theorem parseFlexibleDate_skipped_day :
    isCalendarDay 30 12 2011 ∧ isoString 2011 12 30 = js "2011-12-30" ∧
    parseFlexibleDate apiaEnv (js "30/12/2011") = none ∧
    parseFlexibleDate apiaEnv (js "30-12-2011") = none ∧
    parseFlexibleDate apiaEnv (js "30122011") = none ∧
    parseFlexibleDate apiaEnv (js "29/12/2011") = some (js "2011-12-29") ∧
    parseFlexibleDate apiaEnv (js "31/12/2011") = some (js "2011-12-31") := by
  refine ⟨by decide, by decide, by decide, by decide, by decide, by decide, by decide⟩

/-! # The formatter -/

theorem numerals_noSlash (a : JSString) (h : a.all isNumeral = true) :
    a.all (fun c => !(c == slash)) = true := by
  rw [List.all_eq_true] at h ⊢
  intro x hx
  have := (isNumeral_iff x).mp (h x hx)
  simp [slash]
  omega

theorem dateObjOfString_parts (env : Env) (p1 p2 p3 : JSString)
    (h1 : p1 ≠ []) (h2 : p2 ≠ []) (h3 : p3 ≠ [])
    (n1 : p1.all isNumeral = true) (n2 : p2.all isNumeral = true)
    (n3 : p3.all isNumeral = true) :
    dateObjOfString env (p1 ++ [slash] ++ p2 ++ [slash] ++ p3) =
      some (if numeralValue p1 ≤ 12 ∧ 12 < numeralValue p2 then
          newDateYMD env (some (numeralValue p3 : Int))
            (numSub (some (numeralValue p1 : Int)) (some 1)) (some (numeralValue p2 : Int))
        else
          newDateYMD env (some (numeralValue p3 : Int))
            (numSub (some (numeralValue p2 : Int)) (some 1)) (some (numeralValue p1 : Int))) := by
  have e : p1 ++ [slash] ++ p2 ++ [slash] ++ p3 = p1 ++ slash :: (p2 ++ slash :: p3) := by simp
  have hdash : includes (p1 ++ slash :: (p2 ++ slash :: p3)) dash = false := by
    unfold includes
    rw [List.any_eq_false]
    intro x hx
    rw [List.all_eq_true] at n1 n2 n3
    simp only [List.mem_append, List.mem_cons] at hx
    simp only [beq_iff_eq, dash]
    rcases hx with h | h | h | h | h
    · have := (isNumeral_iff x).mp (n1 x h); omega
    · rw [h]; decide
    · have := (isNumeral_iff x).mp (n2 x h); omega
    · rw [h]; decide
    · have := (isNumeral_iff x).mp (n3 x h); omega
  have hslash : includes (p1 ++ slash :: (p2 ++ slash :: p3)) slash = true := by
    unfold includes
    simp
  have hsplit := splitAt_three (fun c => c == slash) p1 p2 p3 slash slash (numerals_noSlash p1 n1)
    (numerals_noSlash p2 n2) (numerals_noSlash p3 n3) (by simp) (by simp)
  unfold dateObjOfString
  rw [e, hdash, hslash, hsplit]
  simp only [Bool.false_eq_true, if_false, if_true, List.map_cons, List.map_nil,
    toEnglishNumerals_eq_map, parseInt_numeral p1 h1 n1, parseInt_numeral p2 h2 n2,
    parseInt_numeral p3 h3 n3, numLe, numGt, numLt, Bool.and_eq_true, decide_eq_true_eq]
  by_cases hc : numeralValue p1 ≤ 12 ∧ 12 < numeralValue p2
  · rw [if_pos hc, if_pos (by omega)]
  · rw [if_neg hc, if_neg (by omega)]

theorem toBengaliUnit_digit (x : Nat) (h : x < 10) : toBengaliUnit (48 + x) = 2534 + x := by
  unfold toBengaliUnit
  rw [if_pos ((isAsciiDigit_iff _).mpr (by omega))]
  omega

theorem formatDateObj_time (env : Env) (t : Int) :
    formatDateObj env (some (some t)) = Outcome.value (formatDay (localDay env t)) := by
  simp only [formatDateObj, Option.isNone_some, Bool.false_eq_true, if_false, getDate, getMonth,
    getFullYear, Option.map_some', numAdd, formatDay]

theorem formatDateObj_local (env : Env) (hk : env.keepsDays) (x : Int) :
    formatDateObj env (some (some (x * msPerDay - env.tzaLocal (x * msPerDay)))) =
      Outcome.value (formatDay x) := by
  rw [formatDateObj_time, localDay_local env hk]

theorem formatDay_of_parts (n : Int) (d m y : Nat) (cd : dateFromDay n = d)
    (cm : monthFromDay n = (m : Int) - 1) (cy : yearFromDay n = y)
    (hd : d ≤ 31) (hm1 : 1 ≤ m) (hm2 : m ≤ 12) (hy1 : 1000 ≤ y) (hy2 : y ≤ 9999) :
    formatDay n = localizedString d m y := by
  have em : (m : Int) - 1 + 1 = (m : Int) := by ring
  simp only [formatDay, cy, cm, cd, em]
  rw [numToString_four y hy1 (by omega), padStart_numToString d (by omega),
    padStart_numToString m (by omega), toBengaliNumerals_eq_map]
  have hs : toBengaliUnit slash = slash := by decide
  simp only [List.map_append, List.map_cons, List.map_nil, hs, localizedString,
    toBengaliUnit_digit _ (Nat.mod_lt _ (by decide : 0 < 10))]
  rfl

theorem formatDay_civil (d m y : Nat) (hday : isCalendarDay d m y) (hy1 : 1000 ≤ y)
    (hy2 : y ≤ 9999) :
    formatDay (makeDay (y : Int) ((m : Int) - 1) (d : Int)) = localizedString d m y := by
  obtain ⟨m1, m2, d1, d2⟩ := hday
  have hd31 : d ≤ 31 := by
    have : monthLength y m ≤ 31 := by unfold monthLength; split_ifs <;> omega
    omega
  have hdim : (d : Int) ≤ daysInMonth (y : Int) ((m : Int) - 1 + 1) := by
    have e : (m : Int) - 1 + 1 = (m : Int) := by ring
    rw [e, daysInMonth_cast]
    exact_mod_cast d2
  obtain ⟨cy, cm, cd⟩ := makeDay_civil (y : Int) ((m : Int) - 1) (d : Int) (by omega) (by omega)
    (by omega) hdim
  exact formatDay_of_parts _ d m y cd cm cy hd31 m1 m2 hy1 hy2

theorem formatDateObj_checked (env : Env) (d m y : Nat) (hd : d ≤ 31) (hm1 : 1 ≤ m)
    (hm2 : m ≤ 12) (hy1 : 1000 ≤ y) (hy2 : y ≤ 9999)
    (hc : (numEq (getDate env (newDateYMD env (some (y : Int))
          (numSub (some (m : Int)) (some 1)) (some (d : Int)))) (some (d : Int)) &&
        numEq (getMonth env (newDateYMD env (some (y : Int))
          (numSub (some (m : Int)) (some 1)) (some (d : Int))))
          (numSub (some (m : Int)) (some 1)) &&
        numEq (getFullYear env (newDateYMD env (some (y : Int))
          (numSub (some (m : Int)) (some 1)) (some (d : Int)))) (some (y : Int))) = true) :
    formatDateObj env (some (newDateYMD env (some (y : Int))
      (numSub (some (m : Int)) (some 1)) (some (d : Int)))) =
      Outcome.value (localizedString d m y) := by
  obtain ⟨t, Y, M, D, e1, e2, e3, ht, cd, cm, cy⟩ := dateCheck_reads env _ _ _ hc
  simp only [Option.some.injEq] at e1 e2 e3
  subst e1 e2 e3
  rw [ht, formatDateObj_time, formatDay_of_parts _ d m y cd cm cy hd hm1 hm2 hy1 hy2]

theorem formatDateObj_civil (env : Env) (hk : env.keepsDays) (d m y : Nat)
    (hday : isCalendarDay d m y) (hy1 : 1000 ≤ y) (hy2 : y ≤ 9999) :
    formatDateObj env (some (newDateYMD env (some (y : Int))
      (numSub (some (m : Int)) (some 1)) (some (d : Int)))) =
      Outcome.value (localizedString d m y) := by
  have hm := hday.1
  have hm2 := hday.2.1
  have hd31 : d ≤ 31 := by
    have : monthLength y m ≤ 31 := by unfold monthLength; split_ifs <;> omega
    have := hday.2.2.2
    omega
  simp only [numSub]
  rw [newDateYMD_eq env _ _ _ (by omega) (by omega) (by omega) (by omega) (by omega) (by omega),
    formatDateObj_local env hk, formatDay_civil d m y hday hy1 hy2]

/-- C9, as the code has it: in an environment whose local time skips no calendar day, for
slash-separated parts `first/second/third` in digits of either numeral system whose year is
a four-digit number: if `first ≤ 12` and `second > 12` and day `second`, month `first` is a
real calendar day, `formatDateToBengali` returns its localized `DD/MM/YYYY` string;
otherwise, if day `first`, month `second` is a real calendar day, it returns the localized
string of that day. -/
theorem formatDateToBengali_disambiguation (env : Env) (hk : env.keepsDays)
    (p1 p2 p3 : JSString)
    (h1 : p1 ≠ []) (h2 : p2 ≠ []) (h3 : p3 ≠ [])
    (n1 : p1.all isNumeral = true) (n2 : p2.all isNumeral = true)
    (n3 : p3.all isNumeral = true)
    (hy1 : 1000 ≤ numeralValue p3) (hy2 : numeralValue p3 ≤ 9999) :
    (numeralValue p1 ≤ 12 ∧ 12 < numeralValue p2 →
      isCalendarDay (numeralValue p2) (numeralValue p1) (numeralValue p3) →
      formatDateToBengali env (DateArg.str (p1 ++ [slash] ++ p2 ++ [slash] ++ p3)) =
        Outcome.value (localizedString (numeralValue p2) (numeralValue p1) (numeralValue p3))) ∧
    (¬ (numeralValue p1 ≤ 12 ∧ 12 < numeralValue p2) →
      isCalendarDay (numeralValue p1) (numeralValue p2) (numeralValue p3) →
      formatDateToBengali env (DateArg.str (p1 ++ [slash] ++ p2 ++ [slash] ++ p3)) =
        Outcome.value (localizedString (numeralValue p1) (numeralValue p2) (numeralValue p3))) := by
  constructor
  · intro hc hday
    simp only [formatDateToBengali]
    rw [if_neg (by simp [h1]), dateObjOfString_parts env p1 p2 p3 h1 h2 h3 n1 n2 n3, if_pos hc]
    exact formatDateObj_civil env hk _ _ _ hday hy1 hy2
  · intro hc hday
    simp only [formatDateToBengali]
    rw [if_neg (by simp [h1]), dateObjOfString_parts env p1 p2 p3 h1 h2 h3 n1 n2 n3, if_neg hc]
    exact formatDateObj_civil env hk _ _ _ hday hy1 hy2

/-- The disambiguation rule, at `13/02/2025` and `02/13/2025` on UTC. -/
theorem formatDateToBengali_disambiguation_witness :
    utcEnv.keepsDays ∧
    formatDateToBengali utcEnv (DateArg.str (js "13/02/2025")) = Outcome.value (js "১৩/০২/২০২৫") ∧
    formatDateToBengali utcEnv (DateArg.str (js "02/13/2025")) = Outcome.value (js "১৩/০২/২০২৫") :=
  ⟨utcEnv_keepsDays,
    (formatDateToBengali_disambiguation utcEnv utcEnv_keepsDays (js "13") (js "02") (js "2025")
      (by decide) (by decide) (by decide) (by decide) (by decide) (by decide) (by decide)
      (by decide)).2 (by decide) (by decide),
    (formatDateToBengali_disambiguation utcEnv utcEnv_keepsDays (js "02") (js "13") (js "2025")
      (by decide) (by decide) (by decide) (by decide) (by decide) (by decide) (by decide)
      (by decide)).1 (by decide) (by decide)⟩

/-- C9 as stated fails where local time skips a day: in `Pacific/Apia` the input
`30/12/2011` is three slash-separated parts with a four-digit year, the rule takes day 30,
month 12, a real calendar day, and `formatDateToBengali` returns the localized
31 December 2011 and not the localized 30 December 2011. -/
theorem formatDateToBengali_skipped_day :
    ¬ (numeralValue (js "30") ≤ 12 ∧ 12 < numeralValue (js "12")) ∧
    isCalendarDay (numeralValue (js "30")) (numeralValue (js "12")) (numeralValue (js "2011")) ∧
    js "30/12/2011" = js "30" ++ [slash] ++ js "12" ++ [slash] ++ js "2011" ∧
    formatDateToBengali apiaEnv (DateArg.str (js "30/12/2011")) =
      Outcome.value (js "৩১/১২/২০১১") ∧
    formatDateToBengali apiaEnv (DateArg.str (js "30/12/2011")) ≠
      Outcome.value (localizedString (numeralValue (js "30")) (numeralValue (js "12"))
        (numeralValue (js "2011"))) := by
  refine ⟨by decide, by decide, by decide, by decide, by decide⟩

theorem formatDateToBengali_slash (env : Env) (hk : env.keepsDays) (p1 p2 p3 : JSString)
    (h1 : p1 ≠ []) (h2 : p2 ≠ []) (h3 : p3 ≠ [])
    (n1 : p1.all isNumeral = true) (n2 : p2.all isNumeral = true)
    (n3 : p3.all isNumeral = true)
    (b1 : numeralValue p1 ≤ 99) (b2 : numeralValue p2 ≤ 99)
    (hy1 : 100 ≤ numeralValue p3) (hy2 : numeralValue p3 ≤ 9999) :
    formatDateToBengali env (DateArg.str (p1 ++ [slash] ++ p2 ++ [slash] ++ p3)) =
      Outcome.value (formatDay
        (if numeralValue p1 ≤ 12 ∧ 12 < numeralValue p2 then
          makeDay (numeralValue p3) ((numeralValue p1 : Int) - 1) (numeralValue p2)
        else makeDay (numeralValue p3) ((numeralValue p2 : Int) - 1) (numeralValue p1))) := by
  simp only [formatDateToBengali]
  rw [if_neg (by simp [h1]), dateObjOfString_parts env p1 p2 p3 h1 h2 h3 n1 n2 n3]
  split_ifs with hc
  · simp only [numSub]
    rw [newDateYMD_eq env _ _ _ (by omega) (by omega) (by omega) (by omega) (by omega) (by omega),
      formatDateObj_local env hk]
  · simp only [numSub]
    rw [newDateYMD_eq env _ _ _ (by omega) (by omega) (by omega) (by omega) (by omega) (by omega),
      formatDateObj_local env hk]

/-! # Where the code departs from the specification -/

/-- C2: a year above 2100 is not rejected by `bengaliDateToISO`: the input `০১/০১/২৫০০`,
eight ASCII digits once transliterated and stripped, gives `2500-01-01` and not the empty
string. -/
theorem bengaliDateToISO_year_above_2100 :
    (toEnglishNumerals (js "০১/০১/২৫০০")).filter (fun c => !(c == slash || c == dash)) =
      js "01012500" ∧
    bengaliDateToISO (js "০১/০১/২৫০০") = js "2500-01-01" ∧
    bengaliDateToISO (js "০৭/০৭/২০২৫") = js "2025-07-07" ∧
    bengaliDateToISO (js "৩২/১৩/২০২৫") = js "" := by decide

/-- C3: `bengaliDateToISO` returns a non-empty string that is not an ISO date when the
eight remaining code units are not digits: `ab/cd/efgh` gives `efgh-cd-ab` and `1a/01/2025`
gives `2025-01-1a`. -/
theorem bengaliDateToISO_non_digits :
    bengaliDateToISO (js "ab/cd/efgh") = js "efgh-cd-ab" ∧
    bengaliDateToISO (js "1a/01/2025") = js "2025-01-1a" ∧
    ((toEnglishNumerals (js "ab/cd/efgh")).filter (fun c => !(c == slash || c == dash))).all
      isAsciiDigit = false := by decide

/-- C6: the two-digit year `00` is not normalized to 2000: `01/01/00` gives null in every
environment, although 1 January 2000 is a real calendar day; `07/07/25`, `07/07/99` and
`৭/৭/২৫` give the dates of 2025, 1999 and 2025. -/
theorem parseFlexibleDate_year_zero :
    (∀ env : Env, parseFlexibleDate env (js "01/01/00") = none) ∧ isCalendarDay 1 1 2000 ∧
    parseFlexibleDate utcEnv (js "07/07/25") = some (js "2025-07-07") ∧
    parseFlexibleDate utcEnv (js "07/07/99") = some (js "1999-07-07") ∧
    parseFlexibleDate utcEnv (js "৭/৭/২৫") = some (js "2025-07-07") :=
  ⟨fun _ => rfl, by decide, by decide, by decide, by decide⟩

/-- C7: west of UTC the round trip fails: five hours west, `formatDateToBengali` of
`2025-07-07` is the localized 6 July 2025, which `bengaliDateToISO` turns into
`2025-07-06`; six hours east of UTC the same input comes back unchanged. -/
theorem roundTrip_west_of_utc :
    formatDateToBengali westEnv (DateArg.str (js "2025-07-07")) = Outcome.value (js "০৬/০৭/২০২৫") ∧
    formatThenToISO westEnv (js "2025-07-07") = Outcome.value (js "2025-07-06") ∧
    isCalendarDay 7 7 2025 ∧ isoString 2025 7 7 = js "2025-07-07" ∧
    formatThenToISO eastEnv (js "2025-07-07") = Outcome.value (js "2025-07-07") := by decide

/-- C8: `formatDateToBengali` throws on slash-separated text that does not split into
exactly three parts: `07/2025` and `1/2/3/4` end in a `TypeError` in every environment,
while `invalid-date` gives the empty string where `Date.parse` rejects it. -/
theorem formatDateToBengali_throws :
    (∀ env : Env, formatDateToBengali env (DateArg.str (js "07/2025")) = Outcome.typeError) ∧
    (∀ env : Env, formatDateToBengali env (DateArg.str (js "1/2/3/4")) = Outcome.typeError) ∧
    formatDateToBengali utcEnv (DateArg.str (js "invalid-date")) = Outcome.value (js "") :=
  ⟨fun _ => rfl, fun _ => rfl, by decide⟩

/-- C10: `formatDateToBengali` does not reject a day that is not on the calendar: in every
time zone with a constant offset `30/02/2025` gives the localized 2 March 2025,
`31/04/2025` the localized 1 May 2025 and `32/13/2025` the localized 1 February 2026, none
of them the empty string. -/
theorem formatDateToBengali_rolls_over (z : FixedZone) :
    formatDateToBengali z.env (DateArg.str (js "30/02/2025")) =
      Outcome.value (js "০২/০৩/২০২৫") ∧
    formatDateToBengali z.env (DateArg.str (js "31/04/2025")) =
      Outcome.value (js "০১/০৫/২০২৫") ∧
    formatDateToBengali z.env (DateArg.str (js "32/13/2025")) =
      Outcome.value (js "০১/০২/২০২৬") ∧
    ¬ isCalendarDay 30 2 2025 ∧ ¬ isCalendarDay 31 4 2025 ∧ ¬ isCalendarDay 32 13 2025 := by
  have hk := FixedZone.keepsDays z
  generalize z.env = env at hk
  refine ⟨?_, ?_, ?_, by decide, by decide, by decide⟩
  · exact (formatDateToBengali_slash env hk (js "30") (js "02") (js "2025") (by decide) (by decide)
      (by decide) (by decide) (by decide) (by decide) (by decide) (by decide) (by decide)
      (by decide)).trans (by decide)
  · exact (formatDateToBengali_slash env hk (js "31") (js "04") (js "2025") (by decide) (by decide)
      (by decide) (by decide) (by decide) (by decide) (by decide) (by decide) (by decide)
      (by decide)).trans (by decide)
  · exact (formatDateToBengali_slash env hk (js "32") (js "13") (js "2025") (by decide) (by decide)
      (by decide) (by decide) (by decide) (by decide) (by decide) (by decide) (by decide)
      (by decide)).trans (by decide)

/-! # What holds of the same functions next to the departures -/

theorem padStart_of_length (a : JSString) (n : Nat) (h : a.length = n) : padStart a n = a := by
  simp [padStart, h]

theorem bengaliDateToISO_digits (s dd mm yy : JSString) (hs : s ≠ [])
    (hd : dd.length = 2) (hm : mm.length = 2) (hy : yy.length = 4)
    (hdd : dd.all isAsciiDigit = true) (hmm : mm.all isAsciiDigit = true)
    (hyy : yy.all isAsciiDigit = true)
    (hstrip : (toEnglishNumerals s).filter (fun c => !(c == slash || c == dash)) =
      dd ++ mm ++ yy) :
    bengaliDateToISO s =
      if 1 ≤ asciiValue dd ∧ asciiValue dd ≤ 31 ∧ 1 ≤ asciiValue mm ∧ asciiValue mm ≤ 12 ∧
          1900 ≤ asciiValue yy then yy ++ [dash] ++ mm ++ [dash] ++ dd
      else [] := by
  have s1 : substring (dd ++ mm ++ yy) 0 2 = dd := by
    unfold substring
    rw [List.drop_zero, List.append_assoc, List.take_left']
    exact hd
  have s2 : substring (dd ++ mm ++ yy) 2 4 = mm := by
    unfold substring
    rw [List.append_assoc, List.drop_left' hd, List.take_left']
    exact hm
  have s3 : substring (dd ++ mm ++ yy) 4 8 = yy := by
    unfold substring
    rw [List.drop_left' (by simp [hd, hm]), List.take_of_length_le]
    simp [hy]
  have pd : parseInt dd = some ((asciiValue dd : Nat) : Int) :=
    parseInt_digits dd (by intro e; subst e; simp at hd) hdd
  have pm : parseInt mm = some ((asciiValue mm : Nat) : Int) :=
    parseInt_digits mm (by intro e; subst e; simp at hm) hmm
  have py : parseInt yy = some ((asciiValue yy : Nat) : Int) :=
    parseInt_digits yy (by intro e; subst e; simp at hy) hyy
  unfold bengaliDateToISO
  rw [if_neg hs]
  simp only [hstrip, s1, s2, s3, pd, pm, py, padStart_of_length dd 2 hd,
    padStart_of_length mm 2 hm, padStart_of_length yy 4 hy]
  rw [if_neg (by simp [hd, hm, hy])]
  by_cases hb : 1 ≤ asciiValue dd ∧ asciiValue dd ≤ 31 ∧ 1 ≤ asciiValue mm ∧
      asciiValue mm ≤ 12 ∧ 1900 ≤ asciiValue yy
  · rw [if_pos hb, if_neg]
    simp [numLt, numGt]
    omega
  · rw [if_neg hb, if_pos]
    simp [numLt, numGt]
    omega

theorem parseFlexibleDate_two_digit_year (env : Env) (hk : env.keepsDays)
    (dd mm yy : JSString) (s1 s2 : Nat)
    (hd : dd ≠ []) (hm : mm ≠ []) (hy : yy ≠ [])
    (hdd : dd.all isNumeral = true) (hmm : mm.all isNumeral = true)
    (hyy : yy.all isNumeral = true) (h1 : s1 = slash ∨ s1 = dash) (h2 : s2 = slash ∨ s2 = dash)
    (y0 : 1 ≤ numeralValue yy) (y1 : numeralValue yy ≤ 99)
    (hday : isCalendarDay (numeralValue dd) (numeralValue mm)
      (if numeralValue yy < 50 then 2000 + numeralValue yy else 1900 + numeralValue yy)) :
    parseFlexibleDate env (dd ++ [s1] ++ mm ++ [s2] ++ yy) =
      some (isoString (if numeralValue yy < 50 then 2000 + numeralValue yy
        else 1900 + numeralValue yy) (numeralValue mm) (numeralValue dd)) := by
  have htrim : trim ([] ++ (dd ++ [s1] ++ mm ++ [s2] ++ yy) ++ []) =
      dd ++ [s1] ++ mm ++ [s2] ++ yy :=
    trim_numerals [] [] _ rfl rfl dd yy ([s1] ++ mm ++ [s2]) (by simp) hd hy hdd hyy
  simp only [List.nil_append, List.append_nil] at htrim
  unfold parseFlexibleDate
  rw [htrim, if_neg (by simp [hd]),
    flexibleParts_separated dd mm yy s1 s2 hd hm hy hdd hmm hyy h1 h2]
  apply validateParts_ok env hk _ _ (numeralValue yy) _ (by omega) _ _ _ hday
  · split_ifs <;> omega
  · split_ifs <;> omega
  · split_ifs <;> omega

theorem asciiValue_two (a b : Nat) :
    asciiValue [48 + a, 48 + b] = a * 10 + b := by
  simp [asciiValue, zeroChar]

theorem asciiValue_four (a b c e : Nat) :
    asciiValue [48 + a, 48 + b, 48 + c, 48 + e] = ((a * 10 + b) * 10 + c) * 10 + e := by
  simp [asciiValue, zeroChar]

theorem parseIsoDate_isoString (d m y : Nat) (hday : isCalendarDay d m y) (hy : y ≤ 9999) :
    parseIsoDate (isoString y m d) = some (makeDay (y : Int) ((m : Int) - 1) (d : Int) * msPerDay) := by
  obtain ⟨m1, m2, d1, d2⟩ := hday
  have hd31 : d ≤ 31 := by
    have : monthLength y m ≤ 31 := by unfold monthLength; split_ifs <;> omega
    omega
  have hdig : ∀ x : Nat, isAsciiDigit (48 + x % 10) = true := by
    intro x; rw [isAsciiDigit_iff]; omega
  have vy : asciiValue [48 + y / 1000 % 10, 48 + y / 100 % 10, 48 + y / 10 % 10, 48 + y % 10] = y := by
    rw [asciiValue_four]; omega
  have vm : asciiValue [48 + m / 10 % 10, 48 + m % 10] = m := by
    rw [asciiValue_two]; omega
  have vd : asciiValue [48 + d / 10 % 10, 48 + d % 10] = d := by
    rw [asciiValue_two]; omega
  have hc : (1 : Int) ≤ (m : Int) ∧ (m : Int) ≤ 12 ∧ (1 : Int) ≤ (d : Int) ∧
      (d : Int) ≤ daysInMonth (y : Int) (m : Int) := by
    rw [daysInMonth_cast]
    exact ⟨by omega, by omega, by omega, by exact_mod_cast d2⟩
  simp only [isoString, dash, parseIsoDate, List.all_cons, List.all_nil, hdig, Bool.and_self,
    if_true, vy, vm, vd]
  rw [if_pos hc]

theorem localDay_utcMidnight (env : Env) (x : Int) (h : ∀ t, 0 ≤ env.tzaUTC t) :
    localDay env (x * msPerDay) = x := by
  have ht := env.tzaUTC_bound (x * msPerDay)
  have h0 := h (x * msPerDay)
  unfold localDay
  unfold msPerDay at ht h0 ⊢
  omega

theorem toEnglishUnit_bengali (x : Nat) (h : x < 10) : toEnglishUnit (2534 + x) = 48 + x := by
  unfold toEnglishUnit
  rw [if_pos ((isBengaliDigit_iff _).mpr (by omega))]
  omega

theorem bengaliDateToISO_localizedString (d m y : Nat) (hd0 : 1 ≤ d) (hd1 : d ≤ 31) (hm0 : 1 ≤ m)
    (hm1 : m ≤ 12) (hy0 : 1900 ≤ y) (hy1 : y ≤ 9999) :
    bengaliDateToISO (localizedString d m y) = isoString y m d := by
  have hdig : ∀ x : Nat, isAsciiDigit (48 + x % 10) = true := by
    intro x; rw [isAsciiDigit_iff]; omega
  have hk : ∀ x : Nat, (!(48 + x % 10 == slash || 48 + x % 10 == dash)) = true := by
    intro x; simp [slash, dash]; omega
  have hsl : (!(slash == slash || slash == dash)) = false := by decide
  have hstrip : (toEnglishNumerals (localizedString d m y)).filter
      (fun c => !(c == slash || c == dash)) =
      [48 + d / 10 % 10, 48 + d % 10] ++ [48 + m / 10 % 10, 48 + m % 10] ++
        [48 + y / 1000 % 10, 48 + y / 100 % 10, 48 + y / 10 % 10, 48 + y % 10] := by
    have hs : toEnglishUnit slash = slash := by decide
    rw [toEnglishNumerals_eq_map]
    simp only [localizedString, List.map_cons, List.map_nil, hs,
      toEnglishUnit_bengali _ (Nat.mod_lt _ (by decide : 0 < 10))]
    simp only [List.filter_cons, hk, hsl, List.filter_nil, if_true, Bool.false_eq_true, if_false]
    rfl
  rw [bengaliDateToISO_digits (localizedString d m y) [48 + d / 10 % 10, 48 + d % 10]
    [48 + m / 10 % 10, 48 + m % 10]
    [48 + y / 1000 % 10, 48 + y / 100 % 10, 48 + y / 10 % 10, 48 + y % 10]
    (by simp [localizedString]) rfl rfl rfl (by simp [hdig])
    (by simp [hdig]) (by simp [hdig]) hstrip,
    asciiValue_two,
    asciiValue_two, asciiValue_four]
  rw [if_pos (by omega)]
  simp [isoString]

theorem roundTrip_east_of_utc (env : Env) (h : ∀ t, 0 ≤ env.tzaUTC t) (d m y : Nat)
    (hy1 : 1900 ≤ y)
    (hy2 : y ≤ 2100) (hday : isCalendarDay d m y) :
    formatThenToISO env (isoString y m d) = Outcome.value (isoString y m d) := by
  have hd31 : d ≤ 31 := by
    have : monthLength y m ≤ 31 := by unfold monthLength; split_ifs <;> omega
    have := hday.2.2.2
    omega
  have hb := makeDay_bound (y : Int) ((m : Int) - 1) (d : Int) (by omega) (by omega)
    (by have := hday.1; omega) (by have := hday.2.1; omega) (by omega) (by omega)
  have hinc : includes (isoString y m d) dash = true := by
    simp [includes, isoString]
  have hclip : timeClip (makeDay (y : Int) ((m : Int) - 1) (d : Int) * msPerDay) =
      some (makeDay (y : Int) ((m : Int) - 1) (d : Int) * msPerDay) := by
    unfold timeClip msPerDay
    rw [if_neg (by omega)]
  unfold formatThenToISO
  simp only [formatDateToBengali]
  rw [if_neg (by simp [isoString])]
  simp only [dateObjOfString, hinc, if_true, newDateString,
    parseIsoDate_isoString d m y hday (by omega), hclip, formatDateObj, Option.isNone_some,
    Bool.false_eq_true, if_false, getDate, getMonth, getFullYear, Option.map_some',
    localDay_utcMidnight env _ h, numAdd, Outcome.map]
  have e := formatDay_civil d m y hday (by omega) (by omega)
  unfold formatDay at e
  rw [e, bengaliDateToISO_localizedString d m y hday.2.2.1 hd31 hday.1 hday.2.1 hy1 (by omega)]


/-! # Transliteration -/

theorem toEnglishUnit_toBengaliUnit (c : Nat) (h : isBengaliDigit c = false) :
    toEnglishUnit (toBengaliUnit c) = c := by
  unfold toBengaliUnit
  by_cases ha : isAsciiDigit c = true
  · rw [if_pos ha]
    rw [isAsciiDigit_iff] at ha
    unfold toEnglishUnit
    rw [if_pos ((isBengaliDigit_iff _).mpr (by omega))]
    omega
  · rw [if_neg ha]
    unfold toEnglishUnit
    rw [if_neg (by simp [h])]

theorem toBengaliUnit_toEnglishUnit (c : Nat) (h : isAsciiDigit c = false) :
    toBengaliUnit (toEnglishUnit c) = c := by
  unfold toEnglishUnit
  by_cases hb : isBengaliDigit c = true
  · rw [if_pos hb]
    rw [isBengaliDigit_iff] at hb
    unfold toBengaliUnit
    rw [if_pos ((isAsciiDigit_iff _).mpr (by omega))]
    omega
  · rw [if_neg hb]
    unfold toBengaliUnit
    rw [if_neg (by simp [h])]

theorem toBengaliUnit_not_ascii (c : Nat) : isAsciiDigit (toBengaliUnit c) = false := by
  unfold toBengaliUnit
  by_cases ha : isAsciiDigit c = true
  · rw [if_pos ha]
    rw [isAsciiDigit_iff] at ha
    rw [← Bool.not_eq_true, isAsciiDigit_iff]
    omega
  · rw [if_neg ha]
    simpa using ha

theorem toEnglishUnit_not_bengali (c : Nat) : isBengaliDigit (toEnglishUnit c) = false := by
  unfold toEnglishUnit
  by_cases hb : isBengaliDigit c = true
  · rw [if_pos hb]
    rw [isBengaliDigit_iff] at hb
    rw [← Bool.not_eq_true, isBengaliDigit_iff]
    omega
  · rw [if_neg hb]
    simpa using hb

/-- C15: transliteration round trip: a string with no Bengali digit comes back unchanged
from `toEnglishNumerals(toBengaliNumerals(s))`, and a string with no ASCII digit comes back
unchanged from `toBengaliNumerals(toEnglishNumerals(t))`. -/
theorem transliteration_roundTrip :
    (∀ s : JSString, (∀ c ∈ s, isBengaliDigit c = false) →
      toEnglishNumerals (toBengaliNumerals s) = s) ∧
    (∀ t : JSString, (∀ c ∈ t, isAsciiDigit c = false) →
      toBengaliNumerals (toEnglishNumerals t) = t) := by
  constructor
  · intro s h
    rw [toEnglishNumerals_eq_map, toBengaliNumerals_eq_map, List.map_map]
    conv_rhs => rw [← List.map_id s]
    apply List.map_congr_left
    intro c hc
    exact toEnglishUnit_toBengaliUnit c (h c hc)
  · intro t h
    rw [toEnglishNumerals_eq_map, toBengaliNumerals_eq_map, List.map_map]
    conv_rhs => rw [← List.map_id t]
    apply List.map_congr_left
    intro c hc
    exact toBengaliUnit_toEnglishUnit c (h c hc)

/-- The transliteration round trip, at `07/07/2025` and its Bengali form. -/
theorem transliteration_roundTrip_witness :
    toEnglishNumerals (toBengaliNumerals (js "07/07/2025")) = js "07/07/2025" ∧
    toBengaliNumerals (toEnglishNumerals (js "০৭/০৭/২০২৫")) = js "০৭/০৭/২০২৫" :=
  ⟨transliteration_roundTrip.1 (js "07/07/2025") (by decide),
    transliteration_roundTrip.2 (js "০৭/০৭/২০২৫") (by decide)⟩

/-- C16: idempotence: `toBengaliNumerals` applied twice equals `toBengaliNumerals` applied
once, and the same for `toEnglishNumerals`, on every string. -/
theorem transliteration_idempotent (s : JSString) :
    toBengaliNumerals (toBengaliNumerals s) = toBengaliNumerals s ∧
    toEnglishNumerals (toEnglishNumerals s) = toEnglishNumerals s := by
  constructor
  · rw [toBengaliNumerals_eq_map, toBengaliNumerals_eq_map, List.map_map]
    apply List.map_congr_left
    intro c _
    show toBengaliUnit (toBengaliUnit c) = toBengaliUnit c
    have h := toBengaliUnit_not_ascii c
    generalize toBengaliUnit c = x at h
    unfold toBengaliUnit
    rw [if_neg (by simp [h])]
  · rw [toEnglishNumerals_eq_map, toEnglishNumerals_eq_map, List.map_map]
    apply List.map_congr_left
    intro c _
    show toEnglishUnit (toEnglishUnit c) = toEnglishUnit c
    have h := toEnglishUnit_not_bengali c
    generalize toEnglishUnit c = x at h
    unfold toEnglishUnit
    rw [if_neg (by simp [h])]

/-- C17: for every string `s`, `toBengaliNumerals(s)` has the length of `s`; where `s` has
an ASCII digit it has the Bengali digit of the same value, and elsewhere the code unit of
`s`; it contains no ASCII digit; `null` and `undefined` give the empty string; `2025` gives
`২০২৫`, `07/07/2025` gives `০৭/০৭/২০২৫` and the empty string gives the empty string. -/
theorem toBengaliNumerals_spec :
    (∀ s : JSString,
      (toBengaliNumerals s).length = s.length ∧
      (∀ (i : Nat) (c : Nat), s[i]? = some c →
        (isAsciiDigit c = true →
          (toBengaliNumerals s)[i]? = some (2534 + (c - 48)) ∧
          isBengaliDigit (2534 + (c - 48)) = true ∧
          numeralDigit (2534 + (c - 48)) = numeralDigit c) ∧
        (isAsciiDigit c = false → (toBengaliNumerals s)[i]? = some c)) ∧
      (∀ c ∈ toBengaliNumerals s, isAsciiDigit c = false)) ∧
    toBengaliNumeralsArg NumeralArg.null = js "" ∧
    toBengaliNumeralsArg NumeralArg.undefined = js "" ∧
    toBengaliNumeralsArg (NumeralArg.str (js "2025")) = js "২০২৫" ∧
    toBengaliNumeralsArg (NumeralArg.str (js "07/07/2025")) = js "০৭/০৭/২০২৫" ∧
    toBengaliNumeralsArg (NumeralArg.str (js "")) = js "" := by
  refine ⟨?_, by decide, by decide, by decide, by decide, by decide⟩
  intro s
  refine ⟨?_, ?_, ?_⟩
  · rw [toBengaliNumerals_eq_map, List.length_map]
  · intro i c hc
    rw [toBengaliNumerals_eq_map, List.getElem?_map, hc]
    constructor
    · intro ha
      have ha2 := (isAsciiDigit_iff c).mp ha
      refine ⟨?_, ?_, ?_⟩
      · simp only [Option.map_some', toBengaliUnit, ha, if_true]
        congr 1
        omega
      · rw [isBengaliDigit_iff]; omega
      · unfold numeralDigit
        rw [if_pos ((isBengaliDigit_iff _).mpr (by omega)),
          if_neg (by rw [isBengaliDigit_iff]; omega)]
        omega
    · intro ha
      simp only [Option.map_some', toBengaliUnit, ha, Bool.false_eq_true, if_false]
  · intro c hc
    rw [toBengaliNumerals_eq_map] at hc
    obtain ⟨x, _, rfl⟩ := List.mem_map.mp hc
    exact toBengaliUnit_not_ascii x

/-- The position-wise description of `toBengaliNumerals`, at the first code unit of `2025`. -/
theorem toBengaliNumerals_spec_witness :
    (js "2025")[0]? = some 50 ∧ isAsciiDigit 50 = true ∧
    (toBengaliNumerals (js "2025"))[0]? = some (2534 + (50 - 48)) :=
  ⟨by decide, by decide,
    (((toBengaliNumerals_spec.1 (js "2025")).2.1 0 50 (by decide)).1 (by decide)).1⟩

/-! # Comparison: totality -/

/-- C13: if `bengaliDateToISO` gives the empty string for either input,
`compareBengaliDates` returns 0; and for all inputs the result is one of -1, 0 and 1 (the
model of the function has no step that can throw). -/
theorem compareBengaliDates_total (env : Env) (a b : JSString) :
    ((bengaliDateToISO a = [] ∨ bengaliDateToISO b = []) → compareBengaliDates env a b = 0) ∧
    (compareBengaliDates env a b = -1 ∨ compareBengaliDates env a b = 0 ∨
      compareBengaliDates env a b = 1) := by
  constructor
  · intro h
    unfold compareBengaliDates
    simp only
    rw [if_pos]
    rcases h with h | h <;> simp [h]
  · unfold compareBengaliDates
    simp only
    split_ifs <;> simp

/-- The zero result on a failed conversion, at an input with a one-digit day. -/
theorem compareBengaliDates_total_witness :
    bengaliDateToISO (js "৭/৭/২০২৫") = [] ∧
    compareBengaliDates utcEnv (js "৭/৭/২০২৫") (js "০৮/০৭/২০২৫") = 0 :=
  ⟨by decide,
    (compareBengaliDates_total utcEnv (js "৭/৭/২০২৫") (js "০৮/০৭/২০২৫")).1
      (Or.inl (by decide))⟩

/-! # The validator, the converter and the parser side by side -/

theorem parseFlexibleDate_separated (env : Env) (dd mm yy : JSString) (s1 s2 : Nat)
    (hd : dd ≠ []) (hm : mm ≠ []) (hy : yy ≠ [])
    (hdd : dd.all isNumeral = true) (hmm : mm.all isNumeral = true)
    (hyy : yy.all isNumeral = true) (h1 : s1 = slash ∨ s1 = dash) (h2 : s2 = slash ∨ s2 = dash) :
    parseFlexibleDate env (dd ++ [s1] ++ mm ++ [s2] ++ yy) =
      validateParts env (some (numeralValue dd : Int)) (some (numeralValue mm : Int))
        (some (numeralValue yy : Int)) := by
  have htrim : trim ([] ++ (dd ++ [s1] ++ mm ++ [s2] ++ yy) ++ []) =
      dd ++ [s1] ++ mm ++ [s2] ++ yy :=
    trim_numerals [] [] _ rfl rfl dd yy ([s1] ++ mm ++ [s2]) (by simp) hd hy hdd hyy
  simp only [List.nil_append, List.append_nil] at htrim
  unfold parseFlexibleDate
  rw [htrim, if_neg (by simp [hd]),
    flexibleParts_separated dd mm yy s1 s2 hd hm hy hdd hmm hyy h1 h2]

/-- C19: the input `৩০/০২/২০২৫` is converted by `bengaliDateToISO` to `2025-02-30`, while
`isValidBengaliDate` rejects it and `parseFlexibleDate` returns null, in every environment;
and `bengaliDateToISO` converts every localized string whose day, month and year pass the
numeric ranges, whether or not the day is on the calendar. -/
theorem validator_asymmetry :
    (∀ env : Env,
      bengaliDateToISO (js "৩০/০২/২০২৫") = js "2025-02-30" ∧
      isValidBengaliDate env (js "৩০/০২/২০২৫") = false ∧
      parseFlexibleDate env (js "৩০/০২/২০২৫") = none) ∧
    ¬ isCalendarDay 30 2 2025 ∧
    (∀ d m y : Nat, 1 ≤ d → d ≤ 31 → 1 ≤ m → m ≤ 12 → 1900 ≤ y → y ≤ 9999 →
      bengaliDateToISO (localizedString d m y) = isoString y m d) := by
  refine ⟨?_, by decide, ?_⟩
  · intro env
    refine ⟨by decide, ?_, ?_⟩
    · exact isValidBengaliDate_rejected env _ (by decide)
    · have e : js "৩০/০২/২০২৫" = js "৩০" ++ [slash] ++ js "০২" ++ [slash] ++ js "২০২৫" := by
        decide
      rw [e, parseFlexibleDate_separated env _ _ _ slash slash (by decide) (by decide)
        (by decide) (by decide) (by decide) (by decide) (Or.inl rfl) (Or.inl rfl)]
      cases hv : validateParts env (some (numeralValue (js "৩০") : Int))
          (some (numeralValue (js "০২") : Int)) (some (numeralValue (js "২০২৫") : Int)) with
      | none => rfl
      | some r =>
        exfalso
        obtain ⟨d, m, y, y0, h1, h2, h3, -, hy, -, -, -, -, -, -, hday, -⟩ :=
          validateParts_some env _ _ _ r hv
        have e1 : numeralValue (js "৩০") = 30 := by decide
        have e2 : numeralValue (js "০২") = 2 := by decide
        have e3 : numeralValue (js "২০২৫") = 2025 := by decide
        rw [e1] at h1
        rw [e2] at h2
        rw [e3] at h3
        simp only [Option.some.injEq] at h1 h2 h3
        have hd : d = 30 := by omega
        have hm : m = 2 := by omega
        have hy0 : y0 = 2025 := by omega
        subst hy0
        have hyv : y = 2025 := by
          rw [if_neg (by omega), if_neg (by omega)] at hy
          omega
        subst hd hm hyv
        exact absurd hday (by decide)
  · intro d m y h1 h2 h3 h4 h5 h6
    exact bengaliDateToISO_localizedString d m y h1 h2 h3 h4 h5 h6

/-- The range-only conversion, at 30 February 2025. -/
theorem validator_asymmetry_witness :
    bengaliDateToISO (localizedString 30 2 2025) = isoString 2025 2 30 ∧
    localizedString 30 2 2025 = js "৩০/০২/২০২৫" ∧ isoString 2025 2 30 = js "2025-02-30" :=
  ⟨validator_asymmetry.2.2 30 2 2025 (by decide) (by decide) (by decide) (by decide)
    (by decide) (by decide), by decide, by decide⟩

/-- C18: a valid input with a one-digit day and month is not converted: `৭/৭/২০২৫`
satisfies `isValidBengaliDate` in every time zone with a constant offset, `bengaliDateToISO`
gives the empty string for it, and the hook reports validity `true` with an empty ISO
date. -/
theorem valid_without_iso (z : FixedZone) :
    isValidBengaliDate z.env (js "৭/৭/২০২৫") = true ∧
    bengaliDateToISO (js "৭/৭/২০২৫") = js "" ∧
    updateBengaliDate z.env (js "৭/৭/২০২৫") = (true, js "") ∧
    parseFlexibleDate utcEnv (js "৭/৭/২০২৫") = some (js "2025-07-07") := by
  have hv : isValidBengaliDate z.env (js "৭/৭/২০২৫") = true := by
    rw [isValidBengaliDate_env z.env utcEnv (FixedZone.keepsDays z) utcEnv_keepsDays]
    decide
  refine ⟨hv, by decide, ?_, by decide⟩
  unfold updateBengaliDate
  simp only [hv, if_true]
  decide

/-- C11: the year is not padded to four digits: in every time zone with a constant offset
`formatDateToBengali` turns `01/01/0500` into `০১/০১/৫০০`, nine code units with a
three-digit year, and not the ten of `DD/MM/YYYY`. -/
theorem formatDateToBengali_short_year (z : FixedZone) :
    formatDateToBengali z.env (DateArg.str (js "01/01/0500")) =
      Outcome.value (js "০১/০১/৫০০") ∧
    (js "০১/০১/৫০০").length = 9 ∧ js "০১/০১/৫০০" ≠ localizedString 1 1 500 := by
  refine ⟨?_, by decide, by decide⟩
  exact (formatDateToBengali_slash z.env (FixedZone.keepsDays z) (js "01") (js "01") (js "0500") (by decide) (by decide)
    (by decide) (by decide) (by decide) (by decide) (by decide) (by decide) (by decide)
    (by decide)).trans (by decide)

/-- C20: for every string accepted by `isValidBengaliDate`, `parseFlexibleDate` returns the
zero-padded `YYYY-MM-DD` string of the day, month and year written in it: the string is
day, slash, month, slash, year in Bengali digits, and the result is the ISO string of
their values. -/
theorem validator_parser_agree (env : Env) (s : JSString)
    (h : isValidBengaliDate env s = true) :
    ∃ dd mm yy : JSString, s = dd ++ [slash] ++ mm ++ [slash] ++ yy ∧
      dd.all isBengaliDigit = true ∧ mm.all isBengaliDigit = true ∧
      yy.all isBengaliDigit = true ∧
      parseFlexibleDate env s =
        some (isoString (numeralValue yy) (numeralValue mm) (numeralValue dd)) := by
  obtain ⟨dd, mm, yy, rfl, hd, hm, hy, hdd, hmm, hyy, b1, b2, b3, b4, b5, b6, hc⟩ :=
    isValidBengaliDate_checked env s h
  refine ⟨dd, mm, yy, rfl, hdd, hmm, hyy, ?_⟩
  rw [parseFlexibleDate_separated env dd mm yy slash slash
    (ne_nil_of_length dd (by omega)) (ne_nil_of_length mm (by omega))
    (ne_nil_of_length yy (by omega)) (all_numeral_of_bengali dd hdd)
    (all_numeral_of_bengali mm hmm) (all_numeral_of_bengali yy hyy) (Or.inl rfl) (Or.inl rfl)]
  exact validateParts_of_check env _ _ (numeralValue yy) _ (by omega)
    (by rw [if_neg (by omega), if_neg (by omega)]) b5 b6 b1 b2 b3 b4 hc

/-- The agreement of validator and parser, at `৭/৭/২০২৫` on UTC. -/
theorem validator_parser_agree_witness :
    isValidBengaliDate utcEnv (js "৭/৭/২০২৫") = true ∧
    ∃ dd mm yy : JSString, js "৭/৭/২০২৫" = dd ++ [slash] ++ mm ++ [slash] ++ yy ∧
      dd.all isBengaliDigit = true ∧ mm.all isBengaliDigit = true ∧
      yy.all isBengaliDigit = true ∧
      parseFlexibleDate utcEnv (js "৭/৭/২০২৫") =
        some (isoString (numeralValue yy) (numeralValue mm) (numeralValue dd)) :=
  ⟨by decide, validator_parser_agree utcEnv (js "৭/৭/২০২৫") (by decide)⟩

/-! # Comparison: calendar order -/

theorem monthStart_next (Y m : Int) (hm0 : 0 ≤ m) (hm1 : m ≤ 10) :
    monthStart (inLeapYear Y) (m + 1) = monthStart (inLeapYear Y) m + daysInMonth Y (m + 1) := by
  unfold daysInMonth
  cases hl : inLeapYear Y <;> interval_cases m <;> simp [monthStart]

theorem monthStart_mono (l : Bool) (a b : Int) (ha : 0 ≤ a) (hab : a ≤ b) (hb : b ≤ 11) :
    monthStart l a ≤ monthStart l b := by
  have hstep : ∀ m : Int, 0 ≤ m → m ≤ 10 → monthStart l m ≤ monthStart l (m + 1) := by
    intro m h0 h1
    cases l <;> interval_cases m <;> simp [monthStart]
  obtain ⟨k, rfl⟩ : ∃ k : Nat, b = a + k := ⟨(b - a).toNat, by omega⟩
  induction k with
  | zero => simp
  | succ n ih =>
    have h1 := ih (by omega) (by omega)
    have h2 := hstep (a + n) (by omega) (by omega)
    have e : a + ((n + 1 : Nat) : Int) = a + (n : Int) + 1 := by push_cast; ring
    rw [e]
    omega

theorem dayOfYear_bound (Y m d : Int) (hm0 : 1 ≤ m) (hm1 : m ≤ 12) (hd0 : 1 ≤ d)
    (hd1 : d ≤ daysInMonth Y m) :
    0 ≤ monthStart (inLeapYear Y) (m - 1) + d - 1 ∧
    monthStart (inLeapYear Y) (m - 1) + d - 1 <
      365 + (if inLeapYear Y = true then 1 else 0) := by
  unfold daysInMonth at hd1
  cases hl : inLeapYear Y <;> simp only [hl] at hd1 ⊢ <;>
    interval_cases m <;> simp [monthStart] at hd1 ⊢ <;> omega

theorem makeDay_lt_of_year (Y1 m1 d1 Y2 m2 d2 : Int)
    (a1 : 1 ≤ m1) (a2 : m1 ≤ 12) (a3 : 1 ≤ d1) (a4 : d1 ≤ daysInMonth Y1 m1)
    (b1 : 1 ≤ m2) (b2 : m2 ≤ 12) (b3 : 1 ≤ d2) (b4 : d2 ≤ daysInMonth Y2 m2)
    (h : Y1 < Y2) : makeDay Y1 (m1 - 1) d1 < makeDay Y2 (m2 - 1) d2 := by
  rw [makeDay_eq Y1 (m1 - 1) d1 (by omega) (by omega),
    makeDay_eq Y2 (m2 - 1) d2 (by omega) (by omega)]
  have k1 := dayOfYear_bound Y1 m1 d1 a1 a2 a3 a4
  have k2 := dayOfYear_bound Y2 m2 d2 b1 b2 b3 b4
  have hs := dayFromYear_succ Y1
  have hm := dayFromYear_mono (Y1 + 1) Y2 (by omega)
  omega

theorem makeDay_lt_of_month (Y m1 d1 m2 d2 : Int)
    (a1 : 1 ≤ m1) (a4 : d1 ≤ daysInMonth Y m1)
    (b2 : m2 ≤ 12) (b3 : 1 ≤ d2) (h : m1 < m2) :
    makeDay Y (m1 - 1) d1 < makeDay Y (m2 - 1) d2 := by
  rw [makeDay_eq Y (m1 - 1) d1 (by omega) (by omega),
    makeDay_eq Y (m2 - 1) d2 (by omega) (by omega)]
  have hn := monthStart_next Y (m1 - 1) (by omega) (by omega)
  have e : m1 - 1 + 1 = m1 := by ring
  rw [e] at hn
  have hmono := monthStart_mono (inLeapYear Y) m1 (m2 - 1) (by omega) (by omega) (by omega)
  omega

theorem makeDay_lt_of_order (Y1 m1 d1 Y2 m2 d2 : Int)
    (a1 : 1 ≤ m1) (a2 : m1 ≤ 12) (a3 : 1 ≤ d1) (a4 : d1 ≤ daysInMonth Y1 m1)
    (b1 : 1 ≤ m2) (b2 : m2 ≤ 12) (b3 : 1 ≤ d2) (b4 : d2 ≤ daysInMonth Y2 m2)
    (h : Y1 < Y2 ∨ (Y1 = Y2 ∧ (m1 < m2 ∨ (m1 = m2 ∧ d1 < d2)))) :
    makeDay Y1 (m1 - 1) d1 < makeDay Y2 (m2 - 1) d2 := by
  rcases h with h | ⟨rfl, h | ⟨rfl, h⟩⟩
  · exact makeDay_lt_of_year Y1 m1 d1 Y2 m2 d2 a1 a2 a3 a4 b1 b2 b3 b4 h
  · exact makeDay_lt_of_month Y1 m1 d1 m2 d2 a1 a4 b2 b3 h
  · rw [makeDay_eq Y1 (m1 - 1) d1 (by omega) (by omega),
      makeDay_eq Y1 (m1 - 1) d2 (by omega) (by omega)]
    omega

theorem newDateString_isoString (env : Env) (d m y : Nat) (hday : isCalendarDay d m y)
    (hy : y ≤ 9999) :
    newDateString env (isoString y m d) =
      some (makeDay (y : Int) ((m : Int) - 1) (d : Int) * msPerDay) := by
  have hd31 : d ≤ 31 := by
    have : monthLength y m ≤ 31 := by unfold monthLength; split_ifs <;> omega
    have := hday.2.2.2
    omega
  have hb := makeDay_bound (y : Int) ((m : Int) - 1) (d : Int) (by omega) (by omega)
    (by have := hday.1; omega) (by have := hday.2.1; omega) (by omega) (by omega)
  unfold newDateString
  rw [parseIsoDate_isoString d m y hday hy]
  simp only
  unfold timeClip msPerDay
  rw [if_neg (by omega)]

theorem compareBengaliDates_localized (env : Env) (d1 m1 y1 d2 m2 y2 : Nat)
    (h1 : isCalendarDay d1 m1 y1) (h2 : isCalendarDay d2 m2 y2)
    (ya : 1900 ≤ y1) (yb : y1 ≤ 9999) (yc : 1900 ≤ y2) (yd : y2 ≤ 9999) :
    compareBengaliDates env (localizedString d1 m1 y1) (localizedString d2 m2 y2) =
      calendarOrder (y1, m1, d1) (y2, m2, d2) := by
  have hd1 : d1 ≤ 31 := by
    have : monthLength y1 m1 ≤ 31 := by unfold monthLength; split_ifs <;> omega
    have := h1.2.2.2
    omega
  have hd2 : d2 ≤ 31 := by
    have : monthLength y2 m2 ≤ 31 := by unfold monthLength; split_ifs <;> omega
    have := h2.2.2.2
    omega
  have c1 : (d1 : Int) ≤ daysInMonth (y1 : Int) (m1 : Int) := by
    rw [daysInMonth_cast]; exact_mod_cast h1.2.2.2
  have c2 : (d2 : Int) ≤ daysInMonth (y2 : Int) (m2 : Int) := by
    rw [daysInMonth_cast]; exact_mod_cast h2.2.2.2
  obtain ⟨p1, p2, p3, -⟩ := h1
  obtain ⟨q1, q2, q3, -⟩ := h2
  have hlt := makeDay_lt_of_order (y1 : Int) m1 d1 y2 m2 d2 (by omega) (by omega) (by omega) c1
    (by omega) (by omega) (by omega) c2
  have hgt := makeDay_lt_of_order (y2 : Int) m2 d2 y1 m1 d1 (by omega) (by omega) (by omega) c2
    (by omega) (by omega) (by omega) c1
  unfold compareBengaliDates
  simp only [bengaliDateToISO_localizedString d1 m1 y1 p3 hd1 p1 p2 ya yb,
    bengaliDateToISO_localizedString d2 m2 y2 q3 hd2 q1 q2 yc yd]
  rw [if_neg (by simp [isoString]),
    newDateString_isoString env d1 m1 y1 ⟨p1, p2, p3, by exact_mod_cast (daysInMonth_cast y1 m1 ▸ c1)⟩ yb,
    newDateString_isoString env d2 m2 y2 ⟨q1, q2, q3, by exact_mod_cast (daysInMonth_cast y2 m2 ▸ c2)⟩ yd]
  simp only [numLt, numGt, calendarOrder, decide_eq_true_eq, msPerDay]
  by_cases o1 : y1 < y2 ∨ (y1 = y2 ∧ (m1 < m2 ∨ (m1 = m2 ∧ d1 < d2)))
  · have := hlt (by omega)
    rw [if_pos (by omega), if_pos o1]
  · by_cases o2 : y2 < y1 ∨ (y2 = y1 ∧ (m2 < m1 ∨ (m2 = m1 ∧ d2 < d1)))
    · have := hgt (by omega)
      rw [if_neg (by omega), if_pos (by omega), if_neg o1, if_pos o2]
    · have e1 : y1 = y2 := by omega
      have e2 : m1 = m2 := by omega
      have e3 : d1 = d2 := by omega
      subst e1 e2 e3
      rw [if_neg (by omega), if_neg (by omega), if_neg o1, if_neg o2]

theorem valid_localized (env : Env) (a : JSString) (h : isValidBengaliDate env a = true)
    (hl : a.length = 10) :
    a = localizedString (writtenDate a).2.2 (writtenDate a).2.1 (writtenDate a).1 ∧
    isCalendarDay (writtenDate a).2.2 (writtenDate a).2.1 (writtenDate a).1 ∧
    1900 ≤ (writtenDate a).1 ∧ (writtenDate a).1 ≤ 2100 := by
  obtain ⟨dd, mm, yy, rfl, hd, hm, hy, hdd, hmm, hyy, -, -, -, -, b5, b6, hday⟩ :=
    isValidBengaliDate_sound env a h
  simp only [List.length_append, List.length_singleton] at hl
  have hd2 : dd.length = 2 := by omega
  have hm2 : mm.length = 2 := by omega
  match dd, hd2, mm, hm2, yy, hy with
  | [a1, a2], _, [b1, b2], _, [c1, c2, c3, c4], _ =>
    simp only [List.all_cons, List.all_nil, Bool.and_true, Bool.and_eq_true,
      isBengaliDigit_iff] at hdd hmm hyy
    obtain ⟨⟨p1, p2⟩, ⟨p3, p4⟩⟩ := hdd
    obtain ⟨⟨q1, q2⟩, ⟨q3, q4⟩⟩ := hmm
    obtain ⟨⟨r1, r2⟩, ⟨r3, r4⟩, ⟨r5, r6⟩, ⟨r7, r8⟩⟩ := hyy
    have nb : ∀ c : Nat, 2534 ≤ c → c ≤ 2543 → numeralDigit c = c - 2534 := by
      intro c h1 h2
      unfold numeralDigit
      rw [if_pos ((isBengaliDigit_iff c).mpr ⟨h1, h2⟩)]
    have vd : numeralValue [a1, a2] = (a1 - 2534) * 10 + (a2 - 2534) := by
      simp [numeralValue, nb a1 p1 p2, nb a2 p3 p4]
    have vm : numeralValue [b1, b2] = (b1 - 2534) * 10 + (b2 - 2534) := by
      simp [numeralValue, nb b1 q1 q2, nb b2 q3 q4]
    have vy : numeralValue [c1, c2, c3, c4] =
        (((c1 - 2534) * 10 + (c2 - 2534)) * 10 + (c3 - 2534)) * 10 + (c4 - 2534) := by
      simp [numeralValue, nb c1 r1 r2, nb c2 r3 r4, nb c3 r5 r6, nb c4 r7 r8]
    have w : writtenDate ([a1, a2] ++ [slash] ++ [b1, b2] ++ [slash] ++ [c1, c2, c3, c4]) =
        (numeralValue [c1, c2, c3, c4], numeralValue [b1, b2], numeralValue [a1, a2]) := rfl
    rw [w]
    refine ⟨?_, hday, b5, b6⟩
    simp only [vd, vm, vy, localizedString, List.cons_append, List.nil_append,
      List.singleton_append]
    have e1 : 2534 + ((a1 - 2534) * 10 + (a2 - 2534)) / 10 % 10 = a1 := by omega
    have e2 : 2534 + ((a1 - 2534) * 10 + (a2 - 2534)) % 10 = a2 := by omega
    have e3 : 2534 + ((b1 - 2534) * 10 + (b2 - 2534)) / 10 % 10 = b1 := by omega
    have e4 : 2534 + ((b1 - 2534) * 10 + (b2 - 2534)) % 10 = b2 := by omega
    have e5 : 2534 + ((((c1 - 2534) * 10 + (c2 - 2534)) * 10 + (c3 - 2534)) * 10 +
        (c4 - 2534)) / 1000 % 10 = c1 := by omega
    have e6 : 2534 + ((((c1 - 2534) * 10 + (c2 - 2534)) * 10 + (c3 - 2534)) * 10 +
        (c4 - 2534)) / 100 % 10 = c2 := by omega
    have e7 : 2534 + ((((c1 - 2534) * 10 + (c2 - 2534)) * 10 + (c3 - 2534)) * 10 +
        (c4 - 2534)) / 10 % 10 = c3 := by omega
    have e8 : 2534 + ((((c1 - 2534) * 10 + (c2 - 2534)) * 10 + (c3 - 2534)) * 10 +
        (c4 - 2534)) % 10 = c4 := by omega
    rw [e1, e2, e3, e4, e5, e6, e7, e8]

theorem compareBengaliDates_valid (env : Env) (a b : JSString)
    (ha : isValidBengaliDate env a = true) (hla : a.length = 10)
    (hb : isValidBengaliDate env b = true) (hlb : b.length = 10) :
    compareBengaliDates env a b = calendarOrder (writtenDate a) (writtenDate b) := by
  obtain ⟨ea, da, ya1, ya2⟩ := valid_localized env a ha hla
  obtain ⟨eb, db, yb1, yb2⟩ := valid_localized env b hb hlb
  have h := compareBengaliDates_localized env _ _ _ _ _ _ da db ya1 (by omega) yb1 (by omega)
  rw [← ea, ← eb] at h
  exact h

/-- C12: for localized `DD/MM/YYYY` strings `a` and `b` of ten code units that satisfy
`isValidBengaliDate`, `compareBengaliDates(a, b)` is -1 when the date written in `a` is
earlier than the one written in `b` in calendar order (year, then month, then day), 1 when
it is later and 0 when they are the same day. -/
theorem compareBengaliDates_order (env : Env) (a b : JSString)
    (ha : isValidBengaliDate env a = true) (hla : a.length = 10)
    (hb : isValidBengaliDate env b = true) (hlb : b.length = 10) :
    compareBengaliDates env a b = calendarOrder (writtenDate a) (writtenDate b) ∧
    (compareBengaliDates env a b = -1 ↔
      (writtenDate a).1 < (writtenDate b).1 ∨ ((writtenDate a).1 = (writtenDate b).1 ∧
        ((writtenDate a).2.1 < (writtenDate b).2.1 ∨
          ((writtenDate a).2.1 = (writtenDate b).2.1 ∧
            (writtenDate a).2.2 < (writtenDate b).2.2)))) ∧
    (compareBengaliDates env a b = 0 ↔ writtenDate a = writtenDate b) ∧
    (compareBengaliDates env a b = 1 ↔
      (writtenDate b).1 < (writtenDate a).1 ∨ ((writtenDate b).1 = (writtenDate a).1 ∧
        ((writtenDate b).2.1 < (writtenDate a).2.1 ∨
          ((writtenDate b).2.1 = (writtenDate a).2.1 ∧
            (writtenDate b).2.2 < (writtenDate a).2.2)))) := by
  have h := compareBengaliDates_valid env a b ha hla hb hlb
  rw [h]
  obtain ⟨y1, m1, d1⟩ := writtenDate a
  obtain ⟨y2, m2, d2⟩ := writtenDate b
  simp only [calendarOrder, Prod.mk.injEq]
  refine ⟨trivial, ?_, ?_, ?_⟩
  · split_ifs <;> simp_all
  · split_ifs with h1 h2
    · simp only [neg_eq_zero, one_ne_zero, false_iff]
      omega
    · simp only [one_ne_zero, false_iff]
      omega
    · simp only [true_iff]
      omega
  · split_ifs with h1 h2
    · have : ¬ (y2 < y1 ∨ y2 = y1 ∧ (m2 < m1 ∨ m2 = m1 ∧ d2 < d1)) := by omega
      simp [this]
    · simp [h2]
    · simp [h2]

/-- The calendar order of the comparison, at 7 and 8 July 2025 five hours west of UTC. -/
theorem compareBengaliDates_order_witness :
    compareBengaliDates westEnv (js "০৭/০৭/২০২৫") (js "০৮/০৭/২০২৫") = -1 ∧
    compareBengaliDates westEnv (js "০৮/০৭/২০২৫") (js "০৭/০৭/২০২৫") = 1 ∧
    compareBengaliDates westEnv (js "০৭/০৭/২০২৫") (js "০৭/০৭/২০২৫") = 0 :=
  ⟨(compareBengaliDates_order westEnv (js "০৭/০৭/২০২৫") (js "০৮/০৭/২০২৫") (by decide)
      (by decide) (by decide) (by decide)).1,
    (compareBengaliDates_order westEnv (js "০৮/০৭/২০২৫") (js "০৭/০৭/২০২৫") (by decide)
      (by decide) (by decide) (by decide)).1,
    (compareBengaliDates_order westEnv (js "০৭/০৭/২০২৫") (js "০৭/০৭/২০২৫") (by decide)
      (by decide) (by decide) (by decide)).1⟩

/-! # The range filter -/

theorem formatDateToBengali_isoString (env : Env) (h : ∀ t, 0 ≤ env.tzaUTC t) (d m y : Nat)
    (hy1 : 1000 ≤ y) (hy2 : y ≤ 9999) (hday : isCalendarDay d m y) :
    formatDateToBengali env (DateArg.str (isoString y m d)) =
      Outcome.value (localizedString d m y) := by
  have hinc : includes (isoString y m d) dash = true := by
    simp [includes, isoString]
  simp only [formatDateToBengali]
  rw [if_neg (by simp [isoString])]
  simp only [dateObjOfString, hinc, if_true, newDateString_isoString env d m y hday hy2,
    formatDateObj, Option.isNone_some, Bool.false_eq_true, if_false, getDate, getMonth,
    getFullYear, Option.map_some', localDay_utcMidnight env _ h, numAdd]
  have e := formatDay_civil d m y hday hy1 hy2
  unfold formatDay at e
  rw [e]

theorem numeralValue_two (a b : Nat) (ha : a < 10) (hb : b < 10) :
    numeralValue [48 + a, 48 + b] = a * 10 + b := by
  have na : numeralDigit (48 + a) = a := by
    unfold numeralDigit
    rw [if_neg (by rw [isBengaliDigit_iff]; omega)]
    omega
  have nb : numeralDigit (48 + b) = b := by
    unfold numeralDigit
    rw [if_neg (by rw [isBengaliDigit_iff]; omega)]
    omega
  simp [numeralValue, na, nb]

theorem numeralValue_four (a b c e : Nat) (ha : a < 10) (hb : b < 10) (hc : c < 10)
    (he : e < 10) :
    numeralValue [48 + a, 48 + b, 48 + c, 48 + e] = ((a * 10 + b) * 10 + c) * 10 + e := by
  have n : ∀ x : Nat, x < 10 → numeralDigit (48 + x) = x := by
    intro x hx
    unfold numeralDigit
    rw [if_neg (by rw [isBengaliDigit_iff]; omega)]
    omega
  simp [numeralValue, n a ha, n b hb, n c hc, n e he]

theorem canonicalDate_isoString (d m y : Nat) (hday : isCalendarDay d m y) (hy : y ≤ 9999) :
    canonicalDate (isoString y m d) = some (y, m, d) := by
  have hd31 : d ≤ 31 := by
    have : monthLength y m ≤ 31 := by unfold monthLength; split_ifs <;> omega
    have := hday.2.2.2
    omega
  have hm := hday.2.1
  have hdig : ∀ x : Nat, isAsciiDigit (48 + x % 10) = true := by
    intro x; rw [isAsciiDigit_iff]; omega
  have vy : numeralValue [48 + y / 1000 % 10, 48 + y / 100 % 10, 48 + y / 10 % 10,
      48 + y % 10] = y := by
    rw [numeralValue_four _ _ _ _ (Nat.mod_lt _ (by decide)) (Nat.mod_lt _ (by decide))
      (Nat.mod_lt _ (by decide)) (Nat.mod_lt _ (by decide))]
    omega
  have vm : numeralValue [48 + m / 10 % 10, 48 + m % 10] = m := by
    rw [numeralValue_two _ _ (Nat.mod_lt _ (by decide)) (Nat.mod_lt _ (by decide))]; omega
  have vd : numeralValue [48 + d / 10 % 10, 48 + d % 10] = d := by
    rw [numeralValue_two _ _ (Nat.mod_lt _ (by decide)) (Nat.mod_lt _ (by decide))]; omega
  simp only [isoString, dash, canonicalDate, List.all_cons, List.all_nil, hdig, Bool.and_self,
    vy, vm, vd, true_and]
  rw [if_pos hday]

theorem keepItem_absent (env : Env) (f st en : JSString) (item : Record)
    (h : item.field f = none) : keepItem env f st en item = Outcome.value true := by
  unfold keepItem
  rw [h]

theorem keepItem_empty (env : Env) (f st en : JSString) (item : Record)
    (h : item.field f = some (DateArg.str [])) :
    keepItem env f st en item = Outcome.value true := by
  unfold keepItem
  rw [h]

theorem keepItem_formatted (env : Env) (f st en s loc : JSString) (item : Record)
    (h : item.field f = some (DateArg.str s)) (hs : s ≠ [])
    (hf : formatDateToBengali env (DateArg.str s) = Outcome.value loc) :
    keepItem env f st en item =
      Outcome.value (!(decide (st ≠ []) && decide (compareBengaliDates env loc st < 0)) &&
        !(decide (en ≠ []) && decide (compareBengaliDates env loc en > 0))) := by
  obtain ⟨c, cs, rfl⟩ := List.exists_cons_of_ne_nil hs
  unfold keepItem
  rw [h]
  simp only [hf]
  by_cases h1 : st ≠ [] ∧ compareBengaliDates env loc st < 0
  · rw [if_pos h1]
    simp [h1.1, h1.2]
  · rw [if_neg h1]
    by_cases h2 : en ≠ [] ∧ compareBengaliDates env loc en > 0
    · rw [if_pos h2]
      simp [h2.1, h2.2]
    · rw [if_neg h2]
      have e1 : (decide (st ≠ []) && decide (compareBengaliDates env loc st < 0)) = false := by
        rw [Bool.and_eq_false_iff]
        by_cases hx : st ≠ []
        · right; simpa using fun hc => h1 ⟨hx, hc⟩
        · left; simpa using hx
      have e2 : (decide (en ≠ []) && decide (compareBengaliDates env loc en > 0)) = false := by
        rw [Bool.and_eq_false_iff]
        by_cases hx : en ≠ []
        · right; simpa using fun hc => h2 ⟨hx, hc⟩
        · left; simpa using hx
      rw [e1, e2]
      rfl

theorem calendarOrder_values (a b : Nat × Nat × Nat) :
    calendarOrder a b = -1 ∨ calendarOrder a b = 0 ∨ calendarOrder a b = 1 := by
  unfold calendarOrder
  split_ifs <;> simp

theorem keepItem_canonical (env : Env) (h : ∀ t, 0 ≤ env.tzaUTC t) (f st en : JSString)
    (item : Record)
    (d m y : Nat) (hday : isCalendarDay d m y) (hy1 : 1900 ≤ y) (hy2 : y ≤ 9999)
    (hf : item.field f = some (DateArg.str (isoString y m d)))
    (hst : st = [] ∨ (st.length = 10 ∧ isValidBengaliDate env st = true))
    (hen : en = [] ∨ (en.length = 10 ∧ isValidBengaliDate env en = true)) :
    keepItem env f st en item = Outcome.value (retained f st en item) := by
  have cmp : ∀ b : JSString, b.length = 10 → isValidBengaliDate env b = true →
      compareBengaliDates env (localizedString d m y) b = calendarOrder (y, m, d) (writtenDate b) := by
    intro b hl hv
    obtain ⟨eb, db, yb1, yb2⟩ := valid_localized env b hv hl
    have := compareBengaliDates_localized env d m y _ _ _ hday db hy1 hy2 yb1 (by omega)
    rw [← eb] at this
    exact this
  rw [keepItem_formatted env f st en (isoString y m d) (localizedString d m y) item hf
    (by simp [isoString]) (formatDateToBengali_isoString env h d m y (by omega) hy2 hday)]
  unfold retained
  rw [hf]
  simp only [canonicalDate_isoString d m y hday hy2, inDateRange]
  have hne : decide (isoString y m d = []) = false := by simp [isoString]
  rw [hne, Bool.false_or]
  congr 2
  · rcases hst with h0 | ⟨hl, hv⟩
    · subst h0; simp
    · have hne : st ≠ [] := by intro e; subst e; simp at hl
      rw [cmp st hl hv]
      have := calendarOrder_values (y, m, d) (writtenDate st)
      rcases this with e | e | e <;> simp [hne, e]
  · rcases hen with h0 | ⟨hl, hv⟩
    · subst h0; simp
    · have hne : en ≠ [] := by intro e; subst e; simp at hl
      rw [cmp en hl hv]
      have := calendarOrder_values (y, m, d) (writtenDate en)
      rcases this with e | e | e <;> simp [hne, e]

theorem retained_absent (f st en : JSString) (item : Record) (h : item.field f = none) :
    retained f st en item = true := by
  unfold retained
  rw [h]

theorem retained_empty (f st en : JSString) (item : Record)
    (h : item.field f = some (DateArg.str [])) : retained f st en item = true := by
  unfold retained
  rw [h]
  rfl

theorem filterOutcome_pure {α : Type} (keep : α → Outcome Bool) (p : α → Bool) (l : List α)
    (h : ∀ x ∈ l, keep x = Outcome.value (p x)) :
    filterOutcome keep l = Outcome.value (l.filter p) := by
  induction l with
  | nil => rfl
  | cons x xs ih =>
    have hx := h x (List.mem_cons_self x xs)
    have hxs := ih (fun z hz => h z (List.mem_cons_of_mem x hz))
    simp only [filterOutcome, hx, hxs, List.filter_cons]

/-- C14, as the code has it: on UTC or east of it, for records whose field is absent, the
empty string or the canonical `YYYY-MM-DD` string of a real day with year 1900..9999, and
bounds that are each empty or a valid localized `DD/MM/YYYY` string of ten code units,
`filterByBengaliDateRange` returns, in the original order, exactly the records whose field
is absent or empty together with those whose date lies in the inclusive range; an empty
bound leaves its side open. -/
theorem filterByBengaliDateRange_range (env : Env) (h : ∀ t, 0 ≤ env.tzaUTC t)
    (data : List Record)
    (f st en : JSString)
    (hst : st = [] ∨ (st.length = 10 ∧ isValidBengaliDate env st = true))
    (hen : en = [] ∨ (en.length = 10 ∧ isValidBengaliDate env en = true))
    (hdata : ∀ item ∈ data, item.field f = none ∨ item.field f = some (DateArg.str []) ∨
      ∃ d m y : Nat, isCalendarDay d m y ∧ 1900 ≤ y ∧ y ≤ 9999 ∧
        item.field f = some (DateArg.str (isoString y m d))) :
    filterByBengaliDateRange env data f st en = Outcome.value (data.filter (retained f st en)) := by
  unfold filterByBengaliDateRange
  apply filterOutcome_pure
  intro item hi
  rcases hdata item hi with h0 | h0 | ⟨d, m, y, hday, hy1, hy2, h0⟩
  · rw [keepItem_absent env f st en item h0, retained_absent f st en item h0]
  · rw [keepItem_empty env f st en item h0, retained_empty f st en item h0]
  · exact keepItem_canonical env h f st en item d m y hday hy1 hy2 h0 hst hen

/-- The range filter, at the record dated 7 July 2025 and the bounds of the year 2025, six
hours east of UTC; records on the bounds stay and an empty field stays. -/
theorem filterByBengaliDateRange_range_witness :
    filterByBengaliDateRange eastEnv
      [[(js "d", DateArg.str (js "2025-07-07"))], [(js "d", DateArg.str (js "2025-01-01"))],
        [(js "d", DateArg.str (js "2024-12-31"))], [(js "d", DateArg.str (js "2025-12-31"))],
        [(js "d", DateArg.str (js ""))], [(js "e", DateArg.str (js "2030-01-01"))]]
      (js "d") (js "০১/০১/২০২৫") (js "৩১/১২/২০২৫") =
    Outcome.value
      [[(js "d", DateArg.str (js "2025-07-07"))], [(js "d", DateArg.str (js "2025-01-01"))],
        [(js "d", DateArg.str (js "2025-12-31"))],
        [(js "d", DateArg.str (js ""))], [(js "e", DateArg.str (js "2030-01-01"))]] :=
  filterByBengaliDateRange_range eastEnv (fun _ => by show (0 : Int) ≤ 21600000; decide) _
    (js "d") (js "০১/০১/২০২৫")
    (js "৩১/১২/২০২৫") (Or.inr ⟨by decide, by decide⟩) (Or.inr ⟨by decide, by decide⟩)
    (by
      intro item hi
      simp only [List.mem_cons, List.mem_singleton, List.not_mem_nil, or_false] at hi
      rcases hi with rfl | rfl | rfl | rfl | rfl | rfl
      · exact Or.inr (Or.inr ⟨7, 7, 2025, by decide, by decide, by decide, by decide⟩)
      · exact Or.inr (Or.inr ⟨1, 1, 2025, by decide, by decide, by decide, by decide⟩)
      · exact Or.inr (Or.inr ⟨31, 12, 2024, by decide, by decide, by decide, by decide⟩)
      · exact Or.inr (Or.inr ⟨31, 12, 2025, by decide, by decide, by decide, by decide⟩)
      · exact Or.inr (Or.inl (by decide))
      · exact Or.inl (by decide))

/-- C14, as stated, fails: on UTC, with the valid bounds 1 January 2025 and 31 December
2025, the record dated `1800-01-01` is returned although its canonical date lies before the
range; `bengaliDateToISO` gives the empty string for a year below 1900 and the comparison
then answers 0. -/
theorem filterByBengaliDateRange_before_1900 :
    filterByBengaliDateRange utcEnv [[(js "d", DateArg.str (js "1800-01-01"))]] (js "d")
      (js "০১/০১/২০২৫") (js "৩১/১২/২০২৫") =
      Outcome.value [[(js "d", DateArg.str (js "1800-01-01"))]] ∧
    canonicalDate (js "1800-01-01") = some (1800, 1, 1) ∧
    isValidBengaliDate utcEnv (js "০১/০১/২০২৫") = true ∧
    isValidBengaliDate utcEnv (js "৩১/১২/২০২৫") = true ∧
    calendarOrder (writtenDate (js "০১/০১/২০২৫")) (writtenDate (js "৩১/১২/২০২৫")) = -1 ∧
    calendarOrder (1800, 1, 1) (writtenDate (js "০১/০১/২০২৫")) = -1 ∧
    retained (js "d") (js "০১/০১/২০২৫") (js "৩১/১২/২০২৫")
      [(js "d", DateArg.str (js "1800-01-01"))] = false ∧
    filterByBengaliDateRange utcEnv [[(js "d", DateArg.str (js "1800-01-01"))]] (js "d")
      (js "০১/০১/২০২৫") (js "৩১/১২/২০২৫") ≠
      Outcome.value ([[(js "d", DateArg.str (js "1800-01-01"))]].filter
        (retained (js "d") (js "০১/০১/২০২৫") (js "৩১/১২/২০২৫"))) := by decide


/-! # The formatter on already-localized dates -/

theorem dateCheck_of_day (env : Env) (hk : env.keepsDays) (d m y : Nat)
    (hday : isCalendarDay d m y) (hy1 : 100 ≤ y) (hy2 : y ≤ 9999) :
    (numEq (getDate env (newDateYMD env (some (y : Int))
          (numSub (some (m : Int)) (some 1)) (some (d : Int)))) (some (d : Int)) &&
        numEq (getMonth env (newDateYMD env (some (y : Int))
          (numSub (some (m : Int)) (some 1)) (some (d : Int))))
          (numSub (some (m : Int)) (some 1)) &&
        numEq (getFullYear env (newDateYMD env (some (y : Int))
          (numSub (some (m : Int)) (some 1)) (some (d : Int)))) (some (y : Int))) = true := by
  obtain ⟨m1, m2, d1, d2⟩ := hday
  have hd31 : d ≤ 31 := by
    have : monthLength y m ≤ 31 := by unfold monthLength; split_ifs <;> omega
    omega
  rw [dateCheck_eq env hk _ _ _ (by omega) (by omega) (by omega) (by omega) (by omega)
    (by omega), daysInMonth_cast, decide_eq_true_iff]
  exact_mod_cast d2

theorem formatDateToBengali_parts (env : Env) (p1 p2 p3 : JSString)
    (h1 : p1 ≠ []) (h2 : p2 ≠ []) (h3 : p3 ≠ [])
    (n1 : p1.all isNumeral = true) (n2 : p2.all isNumeral = true)
    (n3 : p3.all isNumeral = true)
    (hd : numeralValue p1 ≤ 31) (hm1 : 1 ≤ numeralValue p2) (hm2 : numeralValue p2 ≤ 12)
    (hy1 : 1000 ≤ numeralValue p3) (hy2 : numeralValue p3 ≤ 9999)
    (hc : (numEq (getDate env (newDateYMD env (some (numeralValue p3 : Int))
          (numSub (some (numeralValue p2 : Int)) (some 1)) (some (numeralValue p1 : Int)))) (some (numeralValue p1 : Int)) &&
        numEq (getMonth env (newDateYMD env (some (numeralValue p3 : Int))
          (numSub (some (numeralValue p2 : Int)) (some 1)) (some (numeralValue p1 : Int))))
          (numSub (some (numeralValue p2 : Int)) (some 1)) &&
        numEq (getFullYear env (newDateYMD env (some (numeralValue p3 : Int))
          (numSub (some (numeralValue p2 : Int)) (some 1)) (some (numeralValue p1 : Int)))) (some (numeralValue p3 : Int))) = true) :
    formatDateToBengali env (DateArg.str (p1 ++ [slash] ++ p2 ++ [slash] ++ p3)) =
      Outcome.value (localizedString (numeralValue p1) (numeralValue p2) (numeralValue p3)) := by
  simp only [formatDateToBengali]
  rw [if_neg (by simp [h1]), dateObjOfString_parts env p1 p2 p3 h1 h2 h3 n1 n2 n3,
    if_neg (by omega)]
  exact formatDateObj_checked env _ _ _ hd hm1 hm2 hy1 hy2 hc

theorem numeralValue_bengali_two (a b : Nat) (ha : a < 10) (hb : b < 10) :
    numeralValue [2534 + a, 2534 + b] = a * 10 + b := by
  have n : ∀ x : Nat, x < 10 → numeralDigit (2534 + x) = x := by
    intro x hx
    unfold numeralDigit
    rw [if_pos ((isBengaliDigit_iff _).mpr (by omega))]
    omega
  simp [numeralValue, n a ha, n b hb]

theorem numeralValue_bengali_four (a b c e : Nat) (ha : a < 10) (hb : b < 10) (hc : c < 10)
    (he : e < 10) :
    numeralValue [2534 + a, 2534 + b, 2534 + c, 2534 + e] =
      ((a * 10 + b) * 10 + c) * 10 + e := by
  have n : ∀ x : Nat, x < 10 → numeralDigit (2534 + x) = x := by
    intro x hx
    unfold numeralDigit
    rw [if_pos ((isBengaliDigit_iff _).mpr (by omega))]
    omega
  simp [numeralValue, n a ha, n b hb, n c hc, n e he]

theorem localizedString_parts (d m y : Nat) :
    localizedString d m y =
      [2534 + d / 10 % 10, 2534 + d % 10] ++ [slash] ++ [2534 + m / 10 % 10, 2534 + m % 10] ++
        [slash] ++ [2534 + y / 1000 % 10, 2534 + y / 100 % 10, 2534 + y / 10 % 10,
          2534 + y % 10] := rfl

theorem localizedString_values (d m y : Nat) (hd : d ≤ 99) (hm : m ≤ 99) (hy : y ≤ 9999) :
    numeralValue [2534 + d / 10 % 10, 2534 + d % 10] = d ∧
    numeralValue [2534 + m / 10 % 10, 2534 + m % 10] = m ∧
    numeralValue [2534 + y / 1000 % 10, 2534 + y / 100 % 10, 2534 + y / 10 % 10,
      2534 + y % 10] = y := by
  refine ⟨?_, ?_, ?_⟩
  · rw [numeralValue_bengali_two _ _ (Nat.mod_lt _ (by decide)) (Nat.mod_lt _ (by decide))]
    omega
  · rw [numeralValue_bengali_two _ _ (Nat.mod_lt _ (by decide)) (Nat.mod_lt _ (by decide))]
    omega
  · rw [numeralValue_bengali_four _ _ _ _ (Nat.mod_lt _ (by decide)) (Nat.mod_lt _ (by decide))
      (Nat.mod_lt _ (by decide)) (Nat.mod_lt _ (by decide))]
    omega

theorem bengali_digit_mod (x : Nat) : isBengaliDigit (2534 + x % 10) = true := by
  rw [isBengaliDigit_iff]; omega

theorem isValidBengaliDate_localizedString (env : Env) (d m y : Nat)
    (hd1 : 1 ≤ d) (hd2 : d ≤ 31) (hm1 : 1 ≤ m) (hm2 : m ≤ 12) (hy1 : 1900 ≤ y)
    (hy2 : y ≤ 2100)
    (hc : (numEq (getDate env (newDateYMD env (some (y : Int))
          (numSub (some (m : Int)) (some 1)) (some (d : Int)))) (some (d : Int)) &&
        numEq (getMonth env (newDateYMD env (some (y : Int))
          (numSub (some (m : Int)) (some 1)) (some (d : Int))))
          (numSub (some (m : Int)) (some 1)) &&
        numEq (getFullYear env (newDateYMD env (some (y : Int))
          (numSub (some (m : Int)) (some 1)) (some (d : Int)))) (some (y : Int))) = true) :
    isValidBengaliDate env (localizedString d m y) = true := by
  obtain ⟨v1, v2, v3⟩ := localizedString_values d m y (by omega) (by omega) (by omega)
  have e : localizedString d m y =
      [2534 + d / 10 % 10, 2534 + d % 10] ++ slash ::
        ([2534 + m / 10 % 10, 2534 + m % 10] ++ slash ::
          [2534 + y / 1000 % 10, 2534 + y / 100 % 10, 2534 + y / 10 % 10, 2534 + y % 10]) :=
    rfl
  have hpat : matchPattern bengaliDatePattern (localizedString d m y) = true :=
    (matchPattern_bengali _).mpr
      ⟨[2534 + d / 10 % 10, 2534 + d % 10], [2534 + m / 10 % 10, 2534 + m % 10],
        [2534 + y / 1000 % 10, 2534 + y / 100 % 10, 2534 + y / 10 % 10, 2534 + y % 10],
        rfl, by simp, by simp, rfl, by simp [bengali_digit_mod], by simp [bengali_digit_mod],
        by simp [bengali_digit_mod]⟩
  rw [e] at hpat ⊢
  rw [isValidBengaliDate_parts_check env _ _ _ (by simp) (by simp) (by simp)
    (by simp [isNumeral, bengali_digit_mod]) (by simp [isNumeral, bengali_digit_mod])
    (by simp [isNumeral, bengali_digit_mod]) hpat, v1, v2, v3, hc, Bool.and_true,
    decide_eq_true_iff]
  exact ⟨hd1, hd2, hm1, hm2, hy1, hy2⟩

theorem formatDateToBengali_localizedString (env : Env) (d m y : Nat)
    (hd2 : d ≤ 31) (hm1 : 1 ≤ m) (hm2 : m ≤ 12) (hy1 : 1000 ≤ y) (hy2 : y ≤ 9999)
    (hc : (numEq (getDate env (newDateYMD env (some (y : Int))
          (numSub (some (m : Int)) (some 1)) (some (d : Int)))) (some (d : Int)) &&
        numEq (getMonth env (newDateYMD env (some (y : Int))
          (numSub (some (m : Int)) (some 1)) (some (d : Int))))
          (numSub (some (m : Int)) (some 1)) &&
        numEq (getFullYear env (newDateYMD env (some (y : Int))
          (numSub (some (m : Int)) (some 1)) (some (d : Int)))) (some (y : Int))) = true) :
    formatDateToBengali env (DateArg.str (localizedString d m y)) =
      Outcome.value (localizedString d m y) := by
  obtain ⟨v1, v2, v3⟩ := localizedString_values d m y (by omega) (by omega) hy2
  have h := formatDateToBengali_parts env [2534 + d / 10 % 10, 2534 + d % 10]
    [2534 + m / 10 % 10, 2534 + m % 10]
    [2534 + y / 1000 % 10, 2534 + y / 100 % 10, 2534 + y / 10 % 10, 2534 + y % 10]
    (by simp) (by simp) (by simp)
    (by simp [isNumeral, bengali_digit_mod]) (by simp [isNumeral, bengali_digit_mod])
    (by simp [isNumeral, bengali_digit_mod])
    (by rw [v1]; exact hd2) (by rw [v2]; exact hm1) (by rw [v2]; exact hm2)
    (by rw [v3]; exact hy1) (by rw [v3]; exact hy2) (by rw [v1, v2, v3]; exact hc)
  rw [v1, v2, v3, ← localizedString_parts d m y] at h
  exact h

/-- C23: for every string `s` accepted by `isValidBengaliDate`, written as day, slash,
month, slash, year in Bengali digits, `formatDateToBengali(s)` is the localized string of
the same day, month and year with day and month zero-padded to two digits; that result is
again accepted by `isValidBengaliDate`, and `formatDateToBengali` returns it unchanged. -/
theorem formatDateToBengali_canonical (env : Env) (s : JSString)
    (h : isValidBengaliDate env s = true) :
    ∃ dd mm yy : JSString, s = dd ++ [slash] ++ mm ++ [slash] ++ yy ∧
      dd.all isBengaliDigit = true ∧ mm.all isBengaliDigit = true ∧
      yy.all isBengaliDigit = true ∧
      formatDateToBengali env (DateArg.str s) =
        Outcome.value (localizedString (numeralValue dd) (numeralValue mm) (numeralValue yy)) ∧
      isValidBengaliDate env
        (localizedString (numeralValue dd) (numeralValue mm) (numeralValue yy)) = true ∧
      formatDateToBengali env
        (DateArg.str (localizedString (numeralValue dd) (numeralValue mm) (numeralValue yy))) =
        Outcome.value (localizedString (numeralValue dd) (numeralValue mm) (numeralValue yy)) := by
  obtain ⟨dd, mm, yy, rfl, hd, hm, hy, hdd, hmm, hyy, b1, b2, b3, b4, b5, b6, hc⟩ :=
    isValidBengaliDate_checked env s h
  refine ⟨dd, mm, yy, rfl, hdd, hmm, hyy, ?_, ?_, ?_⟩
  · exact formatDateToBengali_parts env dd mm yy (ne_nil_of_length dd (by omega))
      (ne_nil_of_length mm (by omega)) (ne_nil_of_length yy (by omega))
      (all_numeral_of_bengali dd hdd) (all_numeral_of_bengali mm hmm)
      (all_numeral_of_bengali yy hyy) b2 b3 b4 (by omega) (by omega) hc
  · exact isValidBengaliDate_localizedString env _ _ _ b1 b2 b3 b4 b5 b6 hc
  · exact formatDateToBengali_localizedString env _ _ _ b2 b3 b4 (by omega) (by omega) hc

/-- The canonical form of a valid localized date, at `৭/৭/২০২৫` five hours west of UTC. -/
theorem formatDateToBengali_canonical_witness :
    isValidBengaliDate westEnv (js "৭/৭/২০২৫") = true ∧
    formatDateToBengali westEnv (DateArg.str (js "৭/৭/২০২৫")) = Outcome.value (js "০৭/০৭/২০২৫") ∧
    ∃ dd mm yy : JSString, js "৭/৭/২০২৫" = dd ++ [slash] ++ mm ++ [slash] ++ yy ∧
      dd.all isBengaliDigit = true ∧ mm.all isBengaliDigit = true ∧
      yy.all isBengaliDigit = true ∧
      formatDateToBengali westEnv (DateArg.str (js "৭/৭/২০২৫")) =
        Outcome.value (localizedString (numeralValue dd) (numeralValue mm) (numeralValue yy)) ∧
      isValidBengaliDate westEnv
        (localizedString (numeralValue dd) (numeralValue mm) (numeralValue yy)) = true ∧
      formatDateToBengali westEnv
        (DateArg.str (localizedString (numeralValue dd) (numeralValue mm) (numeralValue yy))) =
        Outcome.value (localizedString (numeralValue dd) (numeralValue mm) (numeralValue yy)) :=
  ⟨by decide, by decide, formatDateToBengali_canonical westEnv (js "৭/৭/২০২৫") (by decide)⟩

/-! # The formatter and the flexible parser on the same text -/

theorem newDateYMD_century (env : Env) (Y m d : Int) (hy0 : 0 ≤ Y) (hy1 : Y ≤ 99)
    (hm0 : -12 ≤ m) (hm1 : m ≤ 120) (hd0 : -1000 ≤ d) (hd1 : d ≤ 1000) :
    newDateYMD env (some Y) (some m) (some d) =
      some (makeDay (1900 + Y) m d * msPerDay -
        env.tzaLocal (makeDay (1900 + Y) m d * msPerDay)) := by
  have hb := makeDay_bound (1900 + Y) m d (by omega) (by omega) hm0 hm1 hd0 hd1
  have ht := env.tzaLocal_bound (makeDay (1900 + Y) m d * msPerDay)
  simp only [newDateYMD]
  rw [if_pos ⟨hy0, hy1⟩]
  unfold timeClip msPerDay
  unfold msPerDay at ht
  rw [if_neg (by omega)]

theorem formatDateToBengali_slash_century (env : Env) (hk : env.keepsDays)
    (p1 p2 p3 : JSString)
    (h1 : p1 ≠ []) (h2 : p2 ≠ []) (h3 : p3 ≠ [])
    (n1 : p1.all isNumeral = true) (n2 : p2.all isNumeral = true)
    (n3 : p3.all isNumeral = true)
    (b1 : numeralValue p1 ≤ 99) (b2 : numeralValue p2 ≤ 99) (hy : numeralValue p3 ≤ 99) :
    formatDateToBengali env (DateArg.str (p1 ++ [slash] ++ p2 ++ [slash] ++ p3)) =
      Outcome.value (formatDay
        (if numeralValue p1 ≤ 12 ∧ 12 < numeralValue p2 then
          makeDay (1900 + (numeralValue p3 : Int)) ((numeralValue p1 : Int) - 1) (numeralValue p2)
        else
          makeDay (1900 + (numeralValue p3 : Int)) ((numeralValue p2 : Int) - 1)
            (numeralValue p1))) := by
  simp only [formatDateToBengali]
  rw [if_neg (by simp [h1]), dateObjOfString_parts env p1 p2 p3 h1 h2 h3 n1 n2 n3]
  split_ifs with hc
  · simp only [numSub]
    rw [newDateYMD_century env _ _ _ (by omega) (by omega) (by omega) (by omega) (by omega)
      (by omega), formatDateObj_local env hk]
  · simp only [numSub]
    rw [newDateYMD_century env _ _ _ (by omega) (by omega) (by omega) (by omega) (by omega)
      (by omega), formatDateObj_local env hk]

theorem formatThenToISO_of_parse (env : Env) (hk : env.keepsDays) (p1 p2 p3 iso : JSString)
    (h1 : p1 ≠ []) (h2 : p2 ≠ []) (h3 : p3 ≠ [])
    (n1 : p1.all isNumeral = true) (n2 : p2.all isNumeral = true)
    (n3 : p3.all isNumeral = true) (hy : 100 ≤ numeralValue p3)
    (hp : parseFlexibleDate env (p1 ++ [slash] ++ p2 ++ [slash] ++ p3) = some iso) :
    formatThenToISO env (p1 ++ [slash] ++ p2 ++ [slash] ++ p3) = Outcome.value iso := by
  rw [parseFlexibleDate_separated env p1 p2 p3 slash slash h1 h2 h3 n1 n2 n3 (Or.inl rfl)
    (Or.inl rfl)] at hp
  obtain ⟨d, m, y, y0, e1, e2, e3, -, ey, c1, c2, c3, c4, c5, c6, hday, hr⟩ :=
    validateParts_some env _ _ _ iso hp
  simp only [Option.some.injEq] at e1 e2 e3
  have ed : numeralValue p1 = d := by omega
  have em : numeralValue p2 = m := by omega
  have eyv : numeralValue p3 = y := by
    rw [← e3] at ey
    rw [if_neg (by omega), if_neg (by omega)] at ey
    omega
  rw [← ed, ← em, ← eyv] at hday
  unfold formatThenToISO
  rw [formatDateToBengali_parts env p1 p2 p3 h1 h2 h3 n1 n2 n3 (by omega) (by omega) (by omega)
    (by omega) (by omega) (dateCheck_of_day env hk _ _ _ hday (by omega) (by omega))]
  simp only [Outcome.map]
  rw [bengaliDateToISO_localizedString _ _ _ (by omega) (by omega) (by omega) (by omega)
    (by omega) (by omega), hr, ed, em, eyv]

/-- C21: on a two-digit year the formatter and the flexible parser read the century
differently: in every time zone with a constant offset `parseFlexibleDate` turns `01/01/25`
into `2025-01-01`, while `formatDateToBengali` turns it into the localized 1 January 1925,
which `bengaliDateToISO` converts to `1925-01-01`. -/
theorem formatter_parser_century (z : FixedZone) :
    parseFlexibleDate z.env (js "01/01/25") = some (js "2025-01-01") ∧
    formatDateToBengali z.env (DateArg.str (js "01/01/25")) =
      Outcome.value (js "০১/০১/১৯২৫") ∧
    formatThenToISO z.env (js "01/01/25") = Outcome.value (js "1925-01-01") ∧
    js "1925-01-01" ≠ js "2025-01-01" := by
  have hk := FixedZone.keepsDays z
  generalize z.env = env at hk ⊢
  have e : js "01/01/25" = js "01" ++ [slash] ++ js "01" ++ [slash] ++ js "25" := by decide
  have hf : formatDateToBengali env (DateArg.str (js "01/01/25")) =
      Outcome.value (js "০১/০১/১৯২৫") := by
    rw [e]
    exact (formatDateToBengali_slash_century env hk (js "01") (js "01") (js "25") (by decide)
      (by decide) (by decide) (by decide) (by decide) (by decide) (by decide) (by decide)
      (by decide)).trans (by decide)
  refine ⟨?_, hf, ?_, by decide⟩
  · rw [e]
    exact (parseFlexibleDate_two_digit_year env hk (js "01") (js "01") (js "25") slash slash
      (by decide) (by decide) (by decide) (by decide) (by decide) (by decide) (Or.inl rfl)
      (Or.inl rfl) (by decide) (by decide) (by decide)).trans (by decide)
  · unfold formatThenToISO
    rw [hf]
    decide

theorem parseFlexibleDate_unseparated (env : Env) (s r : JSString)
    (h : parseFlexibleDate env s = some r)
    (hs : includes (toEnglishNumerals (trim s)) slash = false)
    (hd : includes (toEnglishNumerals (trim s)) dash = false) :
    (toEnglishNumerals (trim s)).length = 8 ∧
      (toEnglishNumerals (trim s)).all isAsciiDigit = true := by
  unfold parseFlexibleDate at h
  split_ifs at h with h0
  cases hfp : flexibleParts (toEnglishNumerals (trim s)) with
  | none => rw [hfp] at h; simp at h
  | some t =>
    unfold flexibleParts at hfp
    rw [hs, hd] at hfp
    simp only [Bool.or_self, Bool.false_eq_true, if_false] at hfp
    split_ifs at hfp with hp
    exact (matchPattern_eight _).mp hp

/-- C22: text that is not a date is not rejected when it has separators: in every time
zone with a constant offset `parseFlexibleDate` turns `7x/7/2025` and `07/07/2025abc` into
`2025-07-07`, although the trimmed and transliterated inputs contain letters. -/
theorem parseFlexibleDate_trailing_text (z : FixedZone) :
    parseFlexibleDate z.env (js "7x/7/2025") = some (js "2025-07-07") ∧
    parseFlexibleDate z.env (js "07/07/2025abc") = some (js "2025-07-07") ∧
    (toEnglishNumerals (trim (js "7x/7/2025"))).all
      (fun c => isAsciiDigit c || c == slash || c == dash) = false ∧
    (toEnglishNumerals (trim (js "07/07/2025abc"))).all
      (fun c => isAsciiDigit c || c == slash || c == dash) = false := by
  have hk := FixedZone.keepsDays z
  generalize z.env = env at hk ⊢
  have hv : validateParts env (some ((7 : Nat) : Int)) (some ((7 : Nat) : Int))
      (some ((2025 : Nat) : Int)) = some (isoString 2025 7 7) :=
    validateParts_ok env hk 7 7 2025 2025 (by decide) (by decide) (by decide) (by decide)
      (by decide)
  have e1 : parseFlexibleDate env (js "7x/7/2025") =
      validateParts env (some ((7 : Nat) : Int)) (some ((7 : Nat) : Int))
        (some ((2025 : Nat) : Int)) := rfl
  have e2 : parseFlexibleDate env (js "07/07/2025abc") =
      validateParts env (some ((7 : Nat) : Int)) (some ((7 : Nat) : Int))
        (some ((2025 : Nat) : Int)) := rfl
  refine ⟨?_, ?_, by decide, by decide⟩
  · rw [e1, hv]; decide
  · rw [e2, hv]; decide

end BengaliDate
